import Mathlib

/-! Verification development for the X-meta background orchestration engine

Shallow embedding of `src/background.js`, `src/utils.js` and the settings
helpers of `src/options.js` and `src/shared.js`:
the scheduler state (queue, dedup sets, rate window, pause), the admission
check, the dispatch loop, the completion handler, the freshness policy, the
text extraction, and the `xmeta:requestUsers`, `xmeta:importCache` and
`xmeta:saveSettings` handlers.

Conventions of the embedding
* `Date.now()` is an explicit integer argument `now` (epoch milliseconds).
* JavaScript numbers are `JSNum`: NaN, the two infinities, and finite values
  kept as exact rationals (negative zero is identified with zero). Rounding to
  binary64 (`JSNum.toBinary64`) is modelled for the conversion of a string to a
  number and for the product in `countOfToken`; the other operations are
  computed exactly, which agrees with binary64 whenever the operands and the
  result are integers below 2^53.
* Setting values and cache-entry fields are JavaScript primitives (`JSVal`).
* A JavaScript `Set` of keys is a list in insertion order.
* An object used as a map from keys is the association list of its own
  properties (`ObjMap`); the cache has no prototype (`ObjMap.set`), the
  results object of a request is an object literal (`ObjMap.assign`).
-/

namespace XMeta

/-! ## JavaScript numbers and primitive values -/

/-- JavaScript number: NaN, the infinities, or a finite value. -/
inductive JSNum where
  | nan : JSNum
  | negInf : JSNum
  | posInf : JSNum
  | fin (q : ℚ) : JSNum
deriving DecidableEq

namespace JSNum

/-- The relational operator `a < b` (false as soon as one side is NaN). -/
def lt : JSNum → JSNum → Bool
  | nan, _ => false
  | _, nan => false
  | negInf, negInf => false
  | negInf, _ => true
  | posInf, _ => false
  | fin _, negInf => false
  | fin _, posInf => true
  | fin a, fin b => decide (a < b)

/-- The relational operator `a > b`. -/
def gt (a b : JSNum) : Bool := lt b a

/-- The relational operator `a >= b` (false as soon as one side is NaN). -/
def ge : JSNum → JSNum → Bool
  | nan, _ => false
  | _, nan => false
  | a, b => !(lt a b)

/-- The relational operator `a <= b` (false as soon as one side is NaN). -/
def le (a b : JSNum) : Bool := ge b a

/-- The function `Math.max(a, b)`. -/
def max : JSNum → JSNum → JSNum
  | nan, _ => nan
  | _, nan => nan
  | a, b => if lt a b then b else a

/-- The function `Math.min(a, b)`. -/
def min : JSNum → JSNum → JSNum
  | nan, _ => nan
  | _, nan => nan
  | a, b => if lt b a then b else a

/-- Unary minus. -/
def neg : JSNum → JSNum
  | nan => nan
  | negInf => posInf
  | posInf => negInf
  | fin a => fin (-a)

/-- The operator `a + b` on numbers. -/
def add : JSNum → JSNum → JSNum
  | nan, _ => nan
  | _, nan => nan
  | posInf, negInf => nan
  | negInf, posInf => nan
  | posInf, _ => posInf
  | negInf, _ => negInf
  | fin _, posInf => posInf
  | fin _, negInf => negInf
  | fin a, fin b => fin (a + b)

/-- The operator `a - b` on numbers. -/
def sub (a b : JSNum) : JSNum := add a (neg b)

/-- Sign of a rational times an infinity (`0 * Infinity` is NaN). -/
def scaleInf (a : ℚ) (positive : Bool) : JSNum :=
  if a = 0 then nan
  else if (decide (0 < a)) = positive then posInf else negInf

/-- The operator `a * b` on numbers. -/
def mul : JSNum → JSNum → JSNum
  | nan, _ => nan
  | _, nan => nan
  | posInf, posInf => posInf
  | posInf, negInf => negInf
  | negInf, posInf => negInf
  | negInf, negInf => posInf
  | posInf, fin b => scaleInf b true
  | negInf, fin b => scaleInf b false
  | fin a, posInf => scaleInf a true
  | fin a, negInf => scaleInf a false
  | fin a, fin b => fin (a * b)

/-- Truthiness of a number: NaN and zero are falsy. -/
def truthy : JSNum → Bool
  | nan => false
  | fin q => decide (q ≠ 0)
  | _ => true

/-- An integer (a timestamp, a length) seen as a number. -/
def ofInt (i : Int) : JSNum := fin (i : ℚ)

/-- A rational literal value converted to a number: magnitudes that round
beyond the largest binary64 value become infinite. -/
def ofLiteral (q : ℚ) : JSNum :=
  if (2 : ℚ) ^ 1024 - 2 ^ 970 ≤ q then posInf
  else if q ≤ -((2 : ℚ) ^ 1024 - 2 ^ 970) then negInf
  else fin q

/-- The integer nearest to a rational, ties going to the even one. -/
def roundHalfEven (x : ℚ) : Int :=
  if x - (⌊x⌋ : Int) < 1 / 2 then ⌊x⌋
  else if 1 / 2 < x - (⌊x⌋ : Int) then ⌊x⌋ + 1
  else if ⌊x⌋ % 2 = 0 then ⌊x⌋ else ⌊x⌋ + 1

/-- The binary64 exponent of a positive magnitude: the integer part of its
base-2 logarithm, and -1022 for the subnormal range. -/
def binadeExp (a : ℚ) : Int := Max.max (Int.log 2 a) (-1022)

/-- The magnitude rounded to 53 significant bits (fewer in the subnormal
range): the nearest multiple of 2^(e-52), where e is the binary64 exponent. -/
def roundMagnitude (a : ℚ) : ℚ :=
  (roundHalfEven (a / (2 : ℚ) ^ (binadeExp a - 52)) : ℚ) * (2 : ℚ) ^ (binadeExp a - 52)

/-- The binary64 value of an exactly computed result: round to nearest, ties
to even; a magnitude that rounds to 2^1024 or more becomes infinite, one that
rounds to zero becomes zero. -/
def toBinary64 : JSNum → JSNum
  | fin q =>
    if (2 : ℚ) ^ 1024 ≤ roundMagnitude |q| then (if 0 < q then posInf else negInf)
    else fin (if 0 < q then roundMagnitude |q| else -roundMagnitude |q|)
  | n => n

end JSNum

/-- White space and line terminators, as skipped by `String.prototype.trim`
and by the string-to-number conversion. -/
def isStrWhiteSpace (c : Char) : Bool :=
  let n := c.toNat
  n = 0x09 || n = 0x0A || n = 0x0B || n = 0x0C || n = 0x0D || n = 0x20 ||
  n = 0xA0 || n = 0x1680 || (0x2000 ≤ n && n ≤ 0x200A) || n = 0x2028 ||
  n = 0x2029 || n = 0x202F || n = 0x205F || n = 0x3000 || n = 0xFEFF

/-- The characters of `s.trim()`. -/
def trimChars (cs : List Char) : List Char :=
  (((cs.dropWhile isStrWhiteSpace).reverse).dropWhile isStrWhiteSpace).reverse

/-- Value of a digit in the given radix, if the character is one. -/
def digitValue (radix : Nat) (c : Char) : Option Nat :=
  let n := c.toNat
  let v : Option Nat :=
    if 48 ≤ n ∧ n ≤ 57 then some (n - 48)
    else if 97 ≤ n ∧ n ≤ 102 then some (n - 87)
    else if 65 ≤ n ∧ n ≤ 70 then some (n - 55)
    else none
  match v with
  | some d => if d < radix then some d else none
  | none => none

/-- Reads a maximal run of digits: accumulated value, number of digits read,
remaining characters. -/
def readDigits (radix : Nat) : List Char → Nat → Nat → Nat × Nat × List Char
  | [], acc, cnt => (acc, cnt, [])
  | c :: cs, acc, cnt =>
    match digitValue radix c with
    | some d => readDigits radix cs (acc * radix + d) (cnt + 1)
    | none => (acc, cnt, c :: cs)

/-- An optional exponent part `e[+-]digits`; `none` when malformed or when
characters remain after it. -/
def readExponent : List Char → Option Int
  | [] => some 0
  | c :: cs =>
    if c = 'e' ∨ c = 'E' then
      let (negative, ds) : Bool × List Char :=
        match cs with
        | '+' :: r => (false, r)
        | '-' :: r => (true, r)
        | r => (false, r)
      match readDigits 10 ds 0 0 with
      | (v, cnt, []) =>
        if cnt = 0 then none else some (if negative then -(v : Int) else (v : Int))
      | _ => none
    else none

/-- An unsigned decimal literal (`Infinity`, `12`, `12.`, `12.5`, `.5`, each
with an optional exponent); NaN when the characters are not one. -/
def readUnsignedDecimal (cs : List Char) : JSNum :=
  if cs = "Infinity".data then JSNum.posInf
  else
    let (iv, icnt, r1) := readDigits 10 cs 0 0
    let (fv, fcnt, r2) : Nat × Nat × List Char :=
      match r1 with
      | '.' :: r => readDigits 10 r 0 0
      | r => (0, 0, r)
    if icnt + fcnt = 0 then JSNum.nan
    else
      match readExponent r2 with
      | none => JSNum.nan
      | some e =>
        JSNum.ofLiteral
          ((((iv * 10 ^ fcnt + fv : Nat) : ℚ) / ((10 ^ fcnt : Nat) : ℚ)) * (10 : ℚ) ^ e)

/-- A binary, octal or hexadecimal integer literal body. -/
def readRadix (radix : Nat) (cs : List Char) : JSNum :=
  match readDigits radix cs 0 0 with
  | (v, cnt, []) => if cnt = 0 then JSNum.nan else JSNum.ofLiteral (v : ℚ)
  | _ => JSNum.nan

/-- The value that `Number(s)` reads from a string, before its rounding to
binary64: the exact value of the numeric literal, or an infinity when the
magnitude is beyond the binary64 range. -/
def stringToNumber (s : String) : JSNum :=
  match trimChars s.data with
  | [] => JSNum.fin 0
  | '0' :: 'x' :: r => readRadix 16 r
  | '0' :: 'X' :: r => readRadix 16 r
  | '0' :: 'o' :: r => readRadix 8 r
  | '0' :: 'O' :: r => readRadix 8 r
  | '0' :: 'b' :: r => readRadix 2 r
  | '0' :: 'B' :: r => readRadix 2 r
  | '+' :: r => readUnsignedDecimal r
  | '-' :: r => JSNum.neg (readUnsignedDecimal r)
  | r => readUnsignedDecimal r

/-- JavaScript primitive value, as found in settings and cache-entry fields. -/
inductive JSVal where
  | undefined : JSVal
  | null : JSVal
  | bool (b : Bool) : JSVal
  | num (n : JSNum) : JSVal
  | str (s : String) : JSVal
deriving DecidableEq

namespace JSVal

/-- Truthiness (`!!v`). -/
def truthy : JSVal → Bool
  | undefined => false
  | null => false
  | bool b => b
  | num n => n.truthy
  | str s => decide (s ≠ "")

/-- The conversion `Number(v)`; the value read from a string is rounded to
binary64. -/
def toNumber : JSVal → JSNum
  | undefined => JSNum.nan
  | null => JSNum.fin 0
  | bool b => if b then JSNum.fin 1 else JSNum.fin 0
  | num n => n
  | str s => JSNum.toBinary64 (stringToNumber s)

/-- The operator `a || b`. -/
def or (a b : JSVal) : JSVal := if a.truthy then a else b

/-- The test `v == null` (true for `null` and `undefined` only). -/
def isNullish : JSVal → Bool
  | undefined => true
  | null => true
  | _ => false

end JSVal

/-! ## Keys sets and object maps -/

/-- The test `set.has(k)` on a `Set` of keys. -/
def setHas (s : List String) (k : String) : Bool := decide (k ∈ s)

/-- The update `set.add(k)`. -/
def setAdd (s : List String) (k : String) : List String :=
  if k ∈ s then s else s ++ [k]

/-- The update `set.delete(k)`. -/
def setDelete (s : List String) (k : String) : List String :=
  s.filter (fun x => decide (x ≠ k))

/-- An object used as a map from string keys: its own properties, as a list
of pairs with at most one pair per key. Reads `obj[k]` of own properties and
writes `obj[k] = v` are modelled. -/
abbrev ObjMap (α : Type) := List (String × α)

/-- The read `obj[k]` (`none` stands for `undefined`). -/
def ObjMap.get {α : Type} (m : ObjMap α) (k : String) : Option α :=
  match m with
  | [] => none
  | (k', v) :: rest => if k' = k then some v else ObjMap.get rest k

/-- The write `obj[k] = v` on an object without prototype (the cache is made
by `Object.create(null)`): replaces an existing property in place, or adds a
new last property. -/
def ObjMap.set {α : Type} (m : ObjMap α) (k : String) (v : α) : ObjMap α :=
  match m with
  | [] => [(k, v)]
  | (k', v') :: rest =>
    if k' = k then (k, v) :: rest else (k', v') :: ObjMap.set rest k v

/-- The array index that a property key denotes, if any: the key is the
canonical decimal spelling of an integer below 2^32 - 1. -/
def arrayIndex (k : String) : Option Nat :=
  let cs := k.data
  if !cs.isEmpty && cs.all (fun c => 48 ≤ c.toNat && c.toNat ≤ 57) &&
      (cs.length == 1 || cs.head? != some '0') then
    let n := cs.foldl (fun acc c => acc * 10 + (c.toNat - 48)) 0
    if n < 4294967295 then some n else none
  else none

/-- Whether a property comes before the array index `n` in the property order:
it is an array index itself, and a smaller one. -/
def indexBefore {α : Type} (n : Nat) (p : String × α) : Bool :=
  match arrayIndex p.1 with
  | some i => decide (i < n)
  | none => false

/-- The creation of an own property that the object does not have yet, in the
order in which the properties of an object are listed: array-index keys first,
in ascending numeric order, then the other keys in creation order. -/
def ObjMap.insertNew {α : Type} (m : ObjMap α) (k : String) (v : α) : ObjMap α :=
  match arrayIndex k with
  | none => m ++ [(k, v)]
  | some n => m.takeWhile (indexBefore n) ++ (k, v) :: m.dropWhile (indexBefore n)

/-- The write `obj[k] = v` of an object value on an object made by the
literal `{}`. For the key `__proto__` the write reaches the inherited accessor
of `Object.prototype`: it replaces the prototype of the object and creates no
own property. For any other key it replaces the value of an existing own
property in place or creates the property. -/
def ObjMap.assign {α : Type} (m : ObjMap α) (k : String) (v : α) : ObjMap α :=
  if k = "__proto__" then m
  else if (m.get k).isSome then m.set k v
  else m.insertNew k v

/-! ## Settings and scheduler state -/

/-- The six-bucket colour mapping `followerColors`. -/
structure FollowerColors where
  gt1m : JSVal
  k250to1m : JSVal
  k25to250k : JSVal
  k5to25k : JSVal
  k1to5k : JSVal
  lt1k : JSVal
deriving DecidableEq

/-- The settings object. -/
structure Settings where
  enabled : JSVal
  showFollowers : JSVal
  showFollowing : JSVal
  showJoined : JSVal
  showLocation : JSVal
  themeMode : JSVal
  maxRequestsPerMinute : JSVal
  cacheTTLdays : JSVal
  maxConcurrentTabs : JSVal
  rateLimitPauseMinutes : JSVal
  scrollPauseMs : JSVal
  prefetchBatchSize : JSVal
  scrapeTabLoadTimeoutMs : JSVal
  scrapeProfileHeaderWaitMs : JSVal
  unavailableTTLhours : JSVal
  followerColors : FollowerColors
deriving DecidableEq

/-- The constant `DEFAULT_SETTINGS.followerColors` (also
`DEFAULT_FOLLOWER_COLORS` of `shared.js`). -/
def DEFAULT_FOLLOWER_COLORS : FollowerColors where
  gt1m := JSVal.str "#f4212e"
  k250to1m := JSVal.str "#ff9f0a"
  k25to250k := JSVal.str "#ffd60a"
  k5to25k := JSVal.str "#00ba7c"
  k1to5k := JSVal.str "#40dca0"
  lt1k := JSVal.str "#D02ED9"

/-- The constant `DEFAULT_SETTINGS`. -/
def DEFAULT_SETTINGS : Settings where
  enabled := JSVal.bool true
  showFollowers := JSVal.bool true
  showFollowing := JSVal.bool true
  showJoined := JSVal.bool true
  showLocation := JSVal.bool false
  themeMode := JSVal.str "auto"
  followerColors := DEFAULT_FOLLOWER_COLORS
  maxRequestsPerMinute := JSVal.num (JSNum.fin 20)
  cacheTTLdays := JSVal.num (JSNum.fin 30)
  maxConcurrentTabs := JSVal.num (JSNum.fin 3)
  rateLimitPauseMinutes := JSVal.num (JSNum.fin 5)
  scrollPauseMs := JSVal.num (JSNum.fin 500)
  prefetchBatchSize := JSVal.num (JSNum.fin 200)
  scrapeTabLoadTimeoutMs := JSVal.num (JSNum.fin 15000)
  scrapeProfileHeaderWaitMs := JSVal.num (JSNum.fin 10000)
  unavailableTTLhours := JSVal.num (JSNum.fin 24)

/-- The constant `MAX_CONCURRENT_TABS`. -/
def MAX_CONCURRENT_TABS : JSNum := JSNum.fin 3

/-- A queued task `{handleKey, handle, enqueuedAt}`. -/
structure Task where
  handleKey : String
  handle : String
  enqueuedAt : Int
deriving DecidableEq

/-- The module-level scheduler variables of `background.js`. -/
structure Sched where
  queue : List Task
  queued : List String
  inflight : List String
  requestTimes : List Int
  activeScrapes : Int
  rateLimitUntil : JSNum
deriving DecidableEq

/-- The initial values of the scheduler variables. -/
def Sched.init : Sched where
  queue := []
  queued := []
  inflight := []
  requestTimes := []
  activeScrapes := 0
  rateLimitUntil := JSNum.fin 0

/-- The function `unavailableTtlMs(settings)`. -/
def unavailableTtlMs (settings : Settings) : JSNum :=
  let hours := JSNum.max (JSNum.fin 1)
    (((settings.unavailableTTLhours.or DEFAULT_SETTINGS.unavailableTTLhours).or
      (JSVal.num (JSNum.fin 24))).toNumber)
  JSNum.mul hours (JSNum.fin 3600000)

/-- The function `isPausedForRateLimit()`. -/
def isPausedForRateLimit (now : Int) (s : Sched) : Bool :=
  s.rateLimitUntil.truthy && JSNum.lt (JSNum.ofInt now) s.rateLimitUntil

/-- The function `clearRateLimit()` (scheduler variables only). -/
def clearRateLimit (s : Sched) : Sched :=
  if s.rateLimitUntil.truthy then { s with rateLimitUntil := JSNum.fin 0 } else s

/-- The function `pruneRequestTimes(rpm)`: the pruned state and the returned
admission verdict. -/
def pruneRequestTimes (rpm : JSNum) (now : Int) (s : Sched) : Bool × Sched :=
  let cutoff := now - 60000
  let kept := s.requestTimes.filter (fun t => decide (t ≥ cutoff))
  (JSNum.lt (JSNum.ofInt kept.length) rpm, { s with requestTimes := kept })

/-- The function `nextAllowedTime()`: the returned time and the pruned state. -/
def nextAllowedTime (now : Int) (s : Sched) : Int × Sched :=
  let cutoff := now - 60000
  let kept := s.requestTimes.filter (fun t => decide (t ≥ cutoff))
  match kept with
  | [] => (now, { s with requestTimes := kept })
  | t :: ts => (ts.foldl min t + 60000, { s with requestTimes := kept })

/-- The function `enqueue(handleKey, handle)`. -/
def enqueue (handleKey handle : String) (now : Int) (s : Sched) : Sched :=
  if setHas s.queued handleKey || setHas s.inflight handleKey then s
  else
    { s with
      queued := setAdd s.queued handleKey
      queue := s.queue ++ [{ handleKey := handleKey, handle := handle, enqueuedAt := now }] }

/-- The effective rpm cap computed in `processQueue`. -/
def effectiveRpm (settings : Settings) : JSNum :=
  JSNum.min (JSNum.fin 120)
    (JSNum.max (JSNum.fin 1)
      ((settings.maxRequestsPerMinute.or (JSVal.num (JSNum.fin 20))).toNumber))

/-- The effective concurrency cap computed in `processQueue`. -/
def effectiveMaxTabs (settings : Settings) : JSNum :=
  JSNum.min (JSNum.fin 10)
    (JSNum.max (JSNum.fin 1)
      ((settings.maxConcurrentTabs.or (JSVal.num MAX_CONCURRENT_TABS)).toNumber))

/-- The pop of the dispatch loop: `queue.shift()`, the move of the key from
the queued set to the in-flight set, the counter increment and the recording
of the dispatch timestamp. An empty queue is left as it is. -/
def popDispatch (now : Int) (s : Sched) : Sched :=
  match s.queue with
  | [] => s
  | task :: rest =>
    { s with
      queue := rest
      queued := setDelete s.queued task.handleKey
      inflight := setAdd s.inflight task.handleKey
      activeScrapes := s.activeScrapes + 1
      requestTimes := s.requestTimes ++ [now] }

/-- Outcome of one activation of `processQueue`: the scheduler variables, the
tasks whose fetch was started (in order), and the arguments of the
`scheduleProcess` calls made (in order). -/
structure Activation where
  sched : Sched
  dispatched : List Task
  wakes : List JSNum

/-- The `while (queue.length)` loop of `processQueue`; every iteration that
does not break removes one task, so `fuel = queue.length` iterations suffice. -/
def dispatchLoop (rpm maxTabs : JSNum) (now : Int) : Nat → Sched → Activation
  | 0, s => { sched := s, dispatched := [], wakes := [] }
  | fuel + 1, s =>
    match s.queue with
    | [] => { sched := s, dispatched := [], wakes := [] }
    | task :: _ =>
      if isPausedForRateLimit now s then
        { sched := s, dispatched := [], wakes := [s.rateLimitUntil] }
      else if JSNum.ge (JSNum.ofInt s.activeScrapes) maxTabs then
        { sched := s, dispatched := [], wakes := [] }
      else
        let r := pruneRequestTimes rpm now s
        if !r.1 then { sched := r.2, dispatched := [], wakes := [] }
        else
          let next := dispatchLoop rpm maxTabs now fuel (popDispatch now r.2)
          { next with dispatched := task :: next.dispatched }

/-- The function `processQueue()`, with the answer of `hasUserTabs()` given. -/
def processQueue (settings : Settings) (hasTabs : Bool) (now : Int) (s : Sched) :
    Activation :=
  if !settings.enabled.truthy then { sched := s, dispatched := [], wakes := [] }
  else if isPausedForRateLimit now s then
    { sched := s, dispatched := [], wakes := [s.rateLimitUntil] }
  else if !hasTabs then
    { sched := s, dispatched := [], wakes := [JSNum.ofInt (now + 5000)] }
  else
    let rpm := effectiveRpm settings
    let maxTabs := effectiveMaxTabs settings
    let r := dispatchLoop rpm maxTabs now s.queue.length s
    match r.sched.queue with
    | [] => r
    | _ :: _ =>
      let t := nextAllowedTime now r.sched
      { sched := t.2, dispatched := r.dispatched,
        wakes := r.wakes ++ [JSNum.ofInt (t.1 + 200)] }

/-- The backoff `pauseMs` computed when a fetch reports a throttle signal. -/
def pauseMs (settings : Settings) : JSNum :=
  JSNum.mul
    (JSNum.max (JSNum.fin 1)
      (((settings.rateLimitPauseMinutes.or DEFAULT_SETTINGS.rateLimitPauseMinutes).or
        (JSVal.num (JSNum.fin 5))).toNumber))
    (JSNum.fin 60000)

/-- The throttle branch of the completion handler: `until = now() + pauseMs`
and, when `until > rateLimitUntil`, `broadcastRateLimit(until)`. -/
def enterPause (settings : Settings) (now : Int) (s : Sched) : Sched :=
  let untilTs := JSNum.add (JSNum.ofInt now) (pauseMs settings)
  if JSNum.gt untilTs s.rateLimitUntil then { s with rateLimitUntil := untilTs } else s

/-- The pause timestamp after a sequence of throttle signals, each given by
the settings in force and the time at which the fetch reported it. -/
def enterPauses (signals : List (Settings × Int)) (s : Sched) : Sched :=
  signals.foldl (fun acc p => enterPause p.1 p.2 acc) s

/-- The `finally` block of the completion handler. -/
def releaseSlot (handleKey : String) (s : Sched) : Sched :=
  { s with
    inflight := setDelete s.inflight handleKey
    activeScrapes := max 0 (s.activeScrapes - 1) }

/-- The effect of a fetch completion on the scheduler variables. -/
def completeSched (handleKey : String) (rateLimited : Bool) (settings : Settings)
    (now : Int) (s : Sched) : Sched :=
  releaseSlot handleKey (if rateLimited then enterPause settings now s else s)

/-! ## Cache entries, freshness policy and the request handler -/

/-- A cache entry `{fetchedAt, followers, following, joinedYear, location,
unavailable}`; an absent field is `undefined`. -/
structure Entry where
  fetchedAt : JSVal
  followers : JSVal
  following : JSVal
  joinedYear : JSVal
  location : JSVal
  unavailable : JSVal
deriving DecidableEq

/-- The function `makeUnavailable()`. -/
def makeUnavailable (now : Int) : Entry where
  fetchedAt := JSVal.num (JSNum.ofInt now)
  followers := JSVal.undefined
  following := JSVal.undefined
  joinedYear := JSVal.undefined
  location := JSVal.undefined
  unavailable := JSVal.bool true

/-- The function `isFresh(entry, settings)`; `none` is an absent entry. -/
def isFresh (entry : Option Entry) (settings : Settings) (now : Int) : Bool :=
  match entry with
  | none => false
  | some e =>
    if !e.fetchedAt.truthy then false
    else
      let age := JSNum.sub (JSNum.ofInt now) e.fetchedAt.toNumber
      let ttlMs :=
        if e.unavailable.truthy then unavailableTtlMs settings
        else
          JSNum.mul
            (JSNum.max (JSNum.fin 1)
              ((settings.cacheTTLdays.or (JSVal.num (JSNum.fin 30))).toNumber))
            (JSNum.fin 86400000)
      JSNum.lt age ttlMs

/-- The function `shouldRetryMissing(entry)`. -/
def shouldRetryMissing (entry : Option Entry) (now : Int) : Bool :=
  match entry with
  | none => false
  | some e =>
    if e.unavailable.truthy then false
    else
      let missingFollowers := e.followers.isNullish
      let missingFollowing := e.following.isNullish
      if !missingFollowers && !missingFollowing then false
      else
        let fetched := e.fetchedAt.or (JSVal.num (JSNum.fin 0))
        JSNum.gt (JSNum.sub (JSNum.ofInt now) fetched.toNumber) (JSNum.fin 30000)

/-- The character class `[A-Za-z0-9_]`. -/
def isHandleChar (c : Char) : Bool :=
  let n := c.toNat
  (65 ≤ n && n ≤ 90) || (97 ≤ n && n ≤ 122) || (48 ≤ n && n ≤ 57) || n = 95

/-- The result `{handleKey, displayHandle}` of `normalizeHandle`. -/
structure NormalizedHandle where
  handleKey : String
  displayHandle : String
deriving DecidableEq

/-- The function `normalizeHandle(handle)` of `utils.js` on a string; `none` is
the `null` result. -/
def normalizeHandle (handle : String) : Option NormalizedHandle :=
  if handle = "" then none
  else
    let trimmed := trimChars handle.data
    let h : List Char :=
      match trimmed with
      | '@' :: r => r
      | r => r
    if 1 ≤ h.length ∧ h.length ≤ 15 ∧ h.all isHandleChar = true then
      some { handleKey := String.mk (h.map Char.toLower), displayHandle := String.mk h }
    else none

/-- The step `if (h.startsWith('@')) h = h.slice(1)`. -/
def stripAt (cs : List Char) : List Char :=
  match cs with
  | '@' :: r => r
  | r => r

/-- The characters of a handle after `trim()` and the removal of one leading
`@`, as `normalizeHandle` computes them before its test. -/
def handleCore (handle : String) : List Char :=
  stripAt (trimChars handle.data)

/-- A string of 1 to 15 characters of `[A-Za-z0-9_]`. -/
def isWellFormedHandle (cs : List Char) : Prop :=
  1 ≤ cs.length ∧ cs.length ≤ 15 ∧ cs.all isHandleChar = true

instance (cs : List Char) : Decidable (isWellFormedHandle cs) := by
  unfold isWellFormedHandle
  infer_instance

/-- The character class `[a-z0-9_]`. -/
def isKeyChar (c : Char) : Bool :=
  let n := c.toNat
  (97 ≤ n && n ≤ 122) || (48 ≤ n && n ≤ 57) || n = 95

/-- One per-key answer `{status, user}` of the request handler; `none` is
`null`. -/
structure UserResult where
  status : String
  user : Option Entry
deriving DecidableEq

/-- The durable cache `state.users` together with the scheduler variables. -/
structure State where
  users : ObjMap Entry
  sched : Sched
deriving DecidableEq

/-- The test `cached?.unavailable`. -/
def cachedUnavailable (cached : Option Entry) : Bool :=
  match cached with
  | none => false
  | some e => e.unavailable.truthy

/-- The body of the `for (const h of handles.slice(0, 400))` loop of the
`xmeta:requestUsers` handler: the own properties of the results object (what
the response carries) and the state after one handle. The results object is
made by `const results = {}`, so it is written with `ObjMap.assign`; the cache
`state.users` has no prototype and is read with `ObjMap.get`. -/
def requestOne (settings : Settings) (paused : Bool) (now : Int)
    (acc : ObjMap UserResult × State) (h : String) : ObjMap UserResult × State :=
  match normalizeHandle h with
  | none => acc
  | some norm =>
    let hk := norm.handleKey
    let cached := acc.2.users.get hk
    if cachedUnavailable cached then
      (acc.1.assign hk { status := "queued", user := cached },
        { acc.2 with sched := enqueue hk norm.displayHandle now acc.2.sched })
    else if cached.isSome && isFresh cached settings now then
      if !paused && shouldRetryMissing cached now then
        (acc.1.assign hk { status := "queued", user := cached },
          { acc.2 with sched := enqueue hk norm.displayHandle now acc.2.sched })
      else
        (acc.1.assign hk { status := "fresh", user := cached }, acc.2)
    else
      (acc.1.assign hk { status := "queued", user := cached },
        { acc.2 with sched := enqueue hk norm.displayHandle now acc.2.sched })

/-- The `xmeta:requestUsers` handler, after `loadState()`: the `results`
object of the response and the state it leaves. The `scheduleProcess(now())`
call that follows the loop only starts a later activation of `processQueue`. -/
def requestUsers (settings : Settings) (now : Int) (handles : List String) (st : State) :
    ObjMap UserResult × State :=
  if !settings.enabled.truthy then ([], st)
  else
    let paused := isPausedForRateLimit now st.sched
    (handles.take 400).foldl (requestOne settings paused now) ([], st)

/-- The tasks of the queue that carry the key `hk`. -/
def tasksFor (hk : String) (s : Sched) : List Task :=
  s.queue.filter (fun t => decide (t.handleKey = hk))

/-- The three-way test of the request loop body as one Boolean: true when
the handler calls `enqueue` for a key whose cached value is `cached` (and
answers `queued`), false when it answers `fresh`. -/
def enqueuesFor (settings : Settings) (paused : Bool) (now : Int)
    (cached : Option Entry) : Bool :=
  if cachedUnavailable cached then true
  else if cached.isSome && isFresh cached settings now then
    !paused && shouldRetryMissing cached now
  else true

/-- A cache entry with following 5 and followers null, fetched at time 1000. -/
def partialEntry : Entry where
  fetchedAt := JSVal.num (JSNum.fin 1000)
  followers := JSVal.null
  following := JSVal.num (JSNum.fin 5)
  joinedYear := JSVal.null
  location := JSVal.null
  unavailable := JSVal.undefined

/-! ## Text extraction (`utils.js`) and the completion of a fetch -/

/-- The function `Math.round` (ties go up). -/
def JSNum.round : JSNum → JSNum
  | JSNum.fin q => JSNum.fin ((⌊q + 1 / 2⌋ : Int) : ℚ)
  | n => n

/-- The regular-expression class `\d`. -/
def isDecDigit (c : Char) : Bool := 48 ≤ c.toNat && c.toNat ≤ 57

/-- One character of `toLowerCase()`, as far as a search for ASCII text can
tell: ASCII capitals are lowered, U+0130 becomes `i` followed by U+0307, the
Kelvin sign becomes `k`; the lowering of other letters outside ASCII, which
yields no ASCII character and keeps the length, is not modelled. -/
def lowerChars (c : Char) : List Char :=
  if c.toNat = 0x130 then ['i', Char.ofNat 0x307]
  else if c.toNat = 0x212A then ['k']
  else [c.toLower]

/-- The method `toLowerCase()` on the characters of a string. -/
def toLowerCase (cs : List Char) : List Char := cs.flatMap lowerChars

/-- Whether `pat` is a prefix of `cs`. -/
def startsWith (pat : List Char) (cs : List Char) : Bool :=
  match pat, cs with
  | [], _ => true
  | _ :: _, [] => false
  | p :: ps, c :: rest => p = c && startsWith ps rest

/-- The method `indexOf(pat)`: the first position at which `pat` occurs. -/
def indexOf (pat : List Char) : List Char → Option Nat
  | [] => if pat = [] then some 0 else none
  | c :: rest =>
    if startsWith pat (c :: rest) then some 0
    else (indexOf pat rest).map (fun i => i + 1)

/-- One match of the number tokenizer of `parseCountText`:
`{token, suf, idx, end}`. -/
structure CountMatch where
  token : List Char
  suf : List Char
  idx : Nat
  endIdx : Nat
deriving DecidableEq

/-- The greedy repetition `(?:[\.,\s]\d{3})*`: the characters consumed and
the rest. -/
def readGroups : List Char → List Char × List Char
  | s :: d1 :: d2 :: d3 :: rest =>
    if (s = '.' || s = ',' || isStrWhiteSpace s) && isDecDigit d1 && isDecDigit d2 &&
        isDecDigit d3 then
      let r := readGroups rest
      (s :: d1 :: d2 :: d3 :: r.1, r.2)
    else ([], s :: d1 :: d2 :: d3 :: rest)
  | cs => ([], cs)

/-- The optional part `(?:[\.,]\d+)?`: the characters consumed and the rest. -/
def readDecimals : List Char → List Char × List Char
  | s :: d :: rest =>
    if (s = '.' || s = ',') && isDecDigit d then
      (s :: (d :: rest).takeWhile isDecDigit, (d :: rest).dropWhile isDecDigit)
    else ([], s :: d :: rest)
  | cs => ([], cs)

/-- The first alternative `\d{1,3}(?:[\.,\s]\d{3})+(?:[\.,]\d+)?` at the start
of `cs`: the token and the rest. -/
def matchGrouped (cs : List Char) : Option (List Char × List Char) :=
  let head := cs.takeWhile isDecDigit
  if 1 ≤ head.length ∧ head.length ≤ 3 then
    let g := readGroups (cs.dropWhile isDecDigit)
    if g.1 = [] then none
    else
      let d := readDecimals g.2
      some (head ++ g.1 ++ d.1, d.2)
  else none

/-- The second alternative `\d+(?:[\.,]\d+)?` at the start of `cs`. -/
def matchPlain (cs : List Char) : Option (List Char × List Char) :=
  let head := cs.takeWhile isDecDigit
  if head = [] then none
  else
    let d := readDecimals (cs.dropWhile isDecDigit)
    some (head ++ d.1, d.2)

/-- The optional suffix `(?:\s*([kKmM]))?` after a token: the lowercased
suffix, the number of characters consumed and the rest. -/
def readSuffix (cs : List Char) : List Char × Nat × List Char :=
  match cs.dropWhile isStrWhiteSpace with
  | c :: rest =>
    if c = 'k' || c = 'K' || c = 'm' || c = 'M' then
      ([c.toLower], (cs.takeWhile isStrWhiteSpace).length + 1, rest)
    else ([], 0, cs)
  | [] => ([], 0, cs)

/-- The loop `for (const m of raw.matchAll(re))` with its filter: the matches
kept, in order. `prev` is the character before position `idx`; a match uses at
least one character, so `fuel` = number of characters left suffices. -/
def scanMatches : Nat → Option Char → Nat → List Char → List CountMatch
  | 0, _, _, _ => []
  | _ + 1, _, _, [] => []
  | fuel + 1, prev, idx, c :: rest =>
    let found :=
      match matchGrouped (c :: rest) with
      | some r => some r
      | none => matchPlain (c :: rest)
    match found with
    | none => scanMatches fuel (some c) (idx + 1) rest
    | some (token, afterToken) =>
      let sfx := readSuffix afterToken
      let len := token.length + sfx.2.1
      let consumed := (c :: rest).take len
      let later := scanMatches fuel consumed.getLast? (idx + len) sfx.2.2
      let inside :=
        match prev with
        | some p => isDecDigit p
        | none => false
      if inside then later
      else { token := token, suf := sfx.1, idx := idx, endIdx := idx + len } :: later

/-- The choice of `picked` among the matches, given the anchor (`none` for
an anchor of -1). -/
def pickMatch (matches_ : List CountMatch) (anchor : Option Nat) : Option CountMatch :=
  match matches_ with
  | [] => none
  | first :: rest =>
    match anchor with
    | none => some first
    | some a =>
      match (first :: rest).filter (fun x => decide (x.endIdx ≤ a)) with
      | [] => some first
      | b :: bs => some (bs.foldl (fun x y => if y.endIdx > x.endIdx then y else x) b)

/-- The method `split('.')` on the characters of a string. -/
def splitDots : List Char → List (List Char)
  | [] => [[]]
  | c :: rest =>
    match splitDots rest with
    | [] => [[]]
    | p :: ps => if c = '.' then [] :: p :: ps else (c :: p) :: ps

/-- The value computed from the picked token and suffix (the end of
`parseCountText`). The results of `Number(...)` and of the product
`v * 1000` or `v * 1000000` are binary64 values (`JSNum.toBinary64`);
`Math.round` of a binary64 value is computed exactly. -/
def countOfToken (token suf : List Char) : JSVal :=
  let numPart := token.filter (fun c => !isStrWhiteSpace c)
  if suf = ['k'] ∨ suf = ['m'] then
    let cleaned := (numPart.map (fun c => if c = ',' then '.' else c)).filter
      (fun c => isDecDigit c || c = '.')
    let parts := splitDots cleaned
    let numPart2 :=
      if parts.length > 2 then
        parts.dropLast.flatten ++ '.' :: parts.getLastD []
      else cleaned
    match JSNum.toBinary64 (stringToNumber (String.mk numPart2)) with
    | JSNum.fin v =>
      JSVal.num (JSNum.round (JSNum.toBinary64 (JSNum.mul (JSNum.fin v)
        (JSNum.fin (if suf = ['k'] then 1000 else 1000000)))))
    | _ => JSVal.null
  else
    let digits := numPart.filter isDecDigit
    if digits = [] then JSVal.null
    else
      match JSNum.toBinary64 (stringToNumber (String.mk digits)) with
      | JSNum.fin n => JSVal.num (JSNum.fin n)
      | _ => JSVal.null

/-- The anchor of `parseCountText`: the position of a followers/following
label in the lowercased text (`none` for -1). -/
def findAnchor (lower : List Char) : Option Nat :=
  match indexOf "followers".data lower with
  | some i => some i
  | none =>
    match indexOf "follower".data lower with
    | some i => some i
    | none => indexOf "following".data lower

/-- The function `parseCountText(text)` of `utils.js`; `none` is a `null`
text. -/
def parseCountText (text : Option String) : JSVal :=
  match text with
  | none => JSVal.null
  | some t =>
    if t = "" then JSVal.null
    else
      let raw := trimChars (t.data.map (fun c => if c.toNat = 0xA0 then ' ' else c))
      if raw = [] then JSVal.null
      else
        let anchor := findAnchor (toLowerCase raw)
        match pickMatch (scanMatches raw.length none 0 raw) anchor with
        | none => JSVal.null
        | some picked => countOfToken picked.token picked.suf

/-- The search of `parseJoinedYear` for `\b(19\d{2}|20\d{2})\b`; `prev` is the
character before the current position. -/
def findYear (prev : Option Char) : List Char → Option (List Char)
  | [] => none
  | c1 :: tl =>
    match tl with
    | c2 :: c3 :: c4 :: rest =>
      let boundaryBefore :=
        match prev with
        | some p => !isHandleChar p
        | none => true
      let boundaryAfter :=
        match rest with
        | c5 :: _ => !isHandleChar c5
        | [] => true
      if boundaryBefore && ((c1 = '1' && c2 = '9') || (c1 = '2' && c2 = '0')) &&
          isDecDigit c3 && isDecDigit c4 && boundaryAfter then
        some [c1, c2, c3, c4]
      else findYear (some c1) tl
    | _ => none

/-- The function `parseJoinedYear(joinedText)` of `utils.js`. -/
def parseJoinedYear (joinedText : Option String) : JSVal :=
  match joinedText with
  | none => JSVal.null
  | some t =>
    if t = "" then JSVal.null
    else
      match findYear none (trimChars t.data) with
      | some y => JSVal.str (String.mk y)
      | none => JSVal.null

/-- The object `raw` returned by the in-page extraction script; each field is
a string or `null`. -/
structure RawScrape where
  actualHandle : Option String
  followersText : Option String
  followingText : Option String
  location : Option String
  joinedText : Option String
deriving DecidableEq

/-- The post-processing of the extraction result in `scrapeProfileViaTab`:
the `user` it returns; `none` is a missing `res?.result`. -/
def extractUser (raw : Option RawScrape) (handleKey : String) (now : Int) : Entry :=
  match raw with
  | none => makeUnavailable now
  | some r =>
    let mismatch :=
      match r.actualHandle with
      | some a => decide (a ≠ "") && decide (toLowerCase a.data ≠ toLowerCase handleKey.data)
      | none => false
    if mismatch then makeUnavailable now
    else
      let followers := parseCountText r.followersText
      let following := parseCountText r.followingText
      let joinedYear := parseJoinedYear r.joinedText
      let user : Entry :=
        { followers := if followers.isNullish then JSVal.null else followers
          following := if following.isNullish then JSVal.null else following
          location :=
            match r.location with
            | some l => if l = "" then JSVal.null else JSVal.str l
            | none => JSVal.null
          joinedYear := joinedYear.or JSVal.null
          fetchedAt := JSVal.num (JSNum.ofInt now)
          unavailable := JSVal.undefined }
      if user.followers.isNullish && user.following.isNullish && !user.location.truthy &&
          !user.joinedYear.truthy then
        makeUnavailable now
      else user

/-- What happened in the scrape tab: the body of `scrapeProfileViaTab` threw or
timed out (`failed`), or the extraction script ran (`extracted`); both carry
the throttle flag read so far. -/
inductive PageOutcome where
  | failed (rateLimited : Bool) : PageOutcome
  | extracted (raw : Option RawScrape) (rateLimited : Bool) : PageOutcome

/-- The value `{user, rateLimited}` returned by `scrapeProfileViaTab`. -/
structure ScrapeResult where
  user : Entry
  rateLimited : Bool

/-- The function `scrapeProfileViaTab`, from what happened in the tab. -/
def scrapeProfileViaTab (page : PageOutcome) (handleKey : String) (now : Int) :
    ScrapeResult :=
  match page with
  | PageOutcome.failed rateLimited => { user := makeUnavailable now, rateLimited := rateLimited }
  | PageOutcome.extracted raw rateLimited =>
    { user := extractUser raw handleKey now, rateLimited := rateLimited }

/-- The completion handler of a dispatched task (the async closure of
`processQueue`). `fetch = none` stands for a rejected `scrapeProfileViaTab`
promise (the tab could not be created); `persistOk = false` for an exception
thrown by `saveState()` or `broadcast` after the cache write. `scrapedAt` is
the time of the extraction, `now` the time of the completion. -/
def complete (task : Task) (fetch : Option PageOutcome) (settings : Settings)
    (scrapedAt now : Int) (persistOk : Bool) (st : State) : State :=
  match fetch with
  | none =>
    { users := st.users.set task.handleKey (makeUnavailable now)
      sched := releaseSlot task.handleKey st.sched }
  | some page =>
    let result := scrapeProfileViaTab page task.handleKey scrapedAt
    let sched1 := if result.rateLimited then enterPause settings now st.sched else st.sched
    let users1 := st.users.set task.handleKey result.user
    let users2 := if persistOk then users1 else users1.set task.handleKey (makeUnavailable now)
    { users := users2, sched := releaseSlot task.handleKey sched1 }

/-! ## The `xmeta:importCache` handler -/

/-- The object `clean` built from a payload entry. -/
def cleanEntry (entry : Entry) : Entry where
  fetchedAt :=
    JSVal.num (if entry.fetchedAt.toNumber.truthy then entry.fetchedAt.toNumber else JSNum.fin 0)
  followers :=
    if entry.followers.isNullish then JSVal.null else JSVal.num entry.followers.toNumber
  following :=
    if entry.following.isNullish then JSVal.null else JSVal.num entry.following.toNumber
  joinedYear := if entry.joinedYear.isNullish then JSVal.null else entry.joinedYear
  location := entry.location.or JSVal.null
  unavailable := JSVal.bool entry.unavailable.truthy

/-- The test that makes `importCache` skip a cleaned entry. -/
def isEmptyClean (clean : Entry) : Bool :=
  !clean.fetchedAt.truthy && clean.followers.isNullish && clean.following.isNullish &&
    !clean.location.truthy && !clean.joinedYear.truthy

/-- One iteration of the `importCache` loop on a pair of `Object.entries`: the
users map and the `imported` counter. A payload value that is not an object
(or is `null`) is `none`. -/
def importOne (acc : ObjMap Entry × Nat) (item : String × Option Entry) :
    ObjMap Entry × Nat :=
  match item.2 with
  | none => acc
  | some entry =>
    match normalizeHandle item.1 with
    | none => acc
    | some norm =>
      let clean := cleanEntry entry
      if isEmptyClean clean then acc
      else (acc.1.set norm.handleKey clean, acc.2 + 1)

/-- The response of the `importCache` handler. -/
inductive ImportResponse where
  | error (code : String) : ImportResponse
  | ok (imported : Nat) : ImportResponse
deriving DecidableEq

/-- The `xmeta:importCache` handler, after `loadState()`; `incoming = none` is
a `msg.users` that is not an object, otherwise the list is
`Object.entries(incoming)`. -/
def importCache (incoming : Option (List (String × Option Entry))) (st : State) :
    ImportResponse × State :=
  match incoming with
  | none => (ImportResponse.error "invalid_payload", st)
  | some items =>
    let r := (items.take 10000).foldl importOne (st.users, 0)
    (ImportResponse.ok r.2, { st with users := r.1 })

/-- A payload entry all of whose fields are empty: fetchedAt converts to 0 or
NaN, followers and following are null or absent, location and joinedYear are
falsy. -/
def payloadAllEmpty (entry : Entry) : Bool :=
  !entry.fetchedAt.toNumber.truthy && entry.followers.isNullish &&
    entry.following.isNullish && !entry.location.truthy && !entry.joinedYear.truthy

/-- The write that an accepted payload pair causes: it is an object, its key
normalizes to a handle and its fields are not all empty. -/
def importAccepted (item : String × Option Entry) : Option (String × Entry) :=
  match item.2, normalizeHandle item.1 with
  | some entry, some norm =>
    if payloadAllEmpty entry then none else some (norm.handleKey, cleanEntry entry)
  | _, _ => none

/-- A sequence of writes `obj[k] = v`, oldest first. -/
def applyWrites {α : Type} (ws : List (String × α)) (m : ObjMap α) : ObjMap α :=
  ws.foldl (fun acc w => acc.set w.1 w.2) m

/-- The value a sequence of writes leaves under the key `k` that held `v`. -/
def lastWritten {α : Type} (ws : List (String × α)) (k : String) (v : α) : α :=
  ws.foldl (fun cur w => if w.1 = k then w.2 else cur) v

/-- The invariant of unavailable entries: an entry marked unavailable carries
no followers, following, joinedYear or location value. -/
def UnavailableInv (e : Entry) : Prop :=
  e.unavailable.truthy = true →
    e.followers.isNullish = true ∧ e.following.isNullish = true ∧
    e.joinedYear.isNullish = true ∧ e.location.isNullish = true

/-! ## Settings: clamping, colour normalisation and the save handler -/

/-- The function `clampNumber(v, min, max, fallback)` of `background.js`
(`clampInt` of `options.js` has the same body). -/
def clampNumber (v : JSVal) (min max fallback : JSNum) : JSNum :=
  match v.toNumber with
  | JSNum.fin q => JSNum.max min (JSNum.min max (JSNum.round (JSNum.fin q)))
  | _ => fallback

/-- The function `clampInt(v, min, max, fallback)` of `options.js`. -/
def clampInt (v : JSVal) (min max fallback : JSNum) : JSNum :=
  clampNumber v min max fallback

/-- The argument of `normalizeFollowerColors`: the six current keys and the
six legacy keys, an absent key being `undefined`. -/
structure ColorSource where
  gt1m : JSVal
  k250to1m : JSVal
  k25to250k : JSVal
  k5to25k : JSVal
  k1to5k : JSVal
  lt1k : JSVal
  red : JSVal
  orange : JSVal
  yellow : JSVal
  green : JSVal
  lightGreen : JSVal
  white : JSVal
deriving DecidableEq

/-- The operator `a ?? b`. -/
def JSVal.orNullish (a b : JSVal) : JSVal := if a.isNullish then b else a

/-- The function `normalizeFollowerColors(followerColors)` (the same in
`background.js` and `options.js`). -/
def normalizeFollowerColors (src : ColorSource) : FollowerColors :=
  let lt1k := src.lt1k.orNullish src.white
  { gt1m := src.gt1m.orNullish src.red
    k250to1m := src.k250to1m.orNullish src.orange
    k25to250k := src.k25to250k.orNullish src.yellow
    k5to25k := src.k5to25k.orNullish src.green
    k1to5k := src.k1to5k.orNullish src.lightGreen
    lt1k :=
      match lt1k with
      | JSVal.str t =>
        if toLowerCase (trimChars t.data) = "#ffffff".data then JSVal.str "#D02ED9" else lt1k
      | _ => lt1k }

/-- The function `hexToRgb(hex)` of `shared.js` on a string. -/
def hexToRgb (hex : String) : Option (Nat × Nat × Nat) :=
  if hex = "" then none
  else
    let t := trimChars hex.data
    let h1 : List Char :=
      match t with
      | '#' :: r => r
      | r => r
    let h2 := if h1.length = 3 then h1.flatMap (fun c => [c, c]) else h1
    if h2.length = 6 ∧ h2.all (fun c => (digitValue 16 c).isSome) = true then
      let n := (readDigits 16 h2 0 0).1
      some ((n / 65536) % 256, (n / 256) % 256, n % 256)
    else none

/-- The object `msg.settings` of a save message: an absent key is `none`. -/
structure IncomingSettings where
  enabled : Option JSVal
  showFollowers : Option JSVal
  showFollowing : Option JSVal
  showJoined : Option JSVal
  showLocation : Option JSVal
  themeMode : Option JSVal
  maxRequestsPerMinute : Option JSVal
  cacheTTLdays : Option JSVal
  maxConcurrentTabs : Option JSVal
  rateLimitPauseMinutes : Option JSVal
  scrollPauseMs : Option JSVal
  prefetchBatchSize : Option JSVal
  scrapeTabLoadTimeoutMs : Option JSVal
  scrapeProfileHeaderWaitMs : Option JSVal
  unavailableTTLhours : Option JSVal
  followerColors : Option ColorSource

/-- The spread `{ ...DEFAULT_SETTINGS.followerColors, ...(incoming.followerColors || {}) }`;
a key of the incoming colours holding `undefined` is taken as absent. -/
def mergeColors (incoming : Option ColorSource) : ColorSource :=
  match incoming with
  | none =>
    { gt1m := DEFAULT_FOLLOWER_COLORS.gt1m, k250to1m := DEFAULT_FOLLOWER_COLORS.k250to1m,
      k25to250k := DEFAULT_FOLLOWER_COLORS.k25to250k, k5to25k := DEFAULT_FOLLOWER_COLORS.k5to25k,
      k1to5k := DEFAULT_FOLLOWER_COLORS.k1to5k, lt1k := DEFAULT_FOLLOWER_COLORS.lt1k,
      red := JSVal.undefined, orange := JSVal.undefined, yellow := JSVal.undefined,
      green := JSVal.undefined, lightGreen := JSVal.undefined, white := JSVal.undefined }
  | some c =>
    let pick (v d : JSVal) : JSVal := if v = JSVal.undefined then d else v
    { c with
      gt1m := pick c.gt1m DEFAULT_FOLLOWER_COLORS.gt1m
      k250to1m := pick c.k250to1m DEFAULT_FOLLOWER_COLORS.k250to1m
      k25to250k := pick c.k25to250k DEFAULT_FOLLOWER_COLORS.k25to250k
      k5to25k := pick c.k5to25k DEFAULT_FOLLOWER_COLORS.k5to25k
      k1to5k := pick c.k1to5k DEFAULT_FOLLOWER_COLORS.k1to5k
      lt1k := pick c.lt1k DEFAULT_FOLLOWER_COLORS.lt1k }

/-- The settings stored by the `xmeta:saveSettings` handler:
`{ ...DEFAULT_SETTINGS, ...incoming, followerColors: mergedColors }`. -/
def saveSettings (incoming : IncomingSettings) : Settings where
  enabled := incoming.enabled.getD DEFAULT_SETTINGS.enabled
  showFollowers := incoming.showFollowers.getD DEFAULT_SETTINGS.showFollowers
  showFollowing := incoming.showFollowing.getD DEFAULT_SETTINGS.showFollowing
  showJoined := incoming.showJoined.getD DEFAULT_SETTINGS.showJoined
  showLocation := incoming.showLocation.getD DEFAULT_SETTINGS.showLocation
  themeMode := incoming.themeMode.getD DEFAULT_SETTINGS.themeMode
  maxRequestsPerMinute := incoming.maxRequestsPerMinute.getD DEFAULT_SETTINGS.maxRequestsPerMinute
  cacheTTLdays := incoming.cacheTTLdays.getD DEFAULT_SETTINGS.cacheTTLdays
  maxConcurrentTabs := incoming.maxConcurrentTabs.getD DEFAULT_SETTINGS.maxConcurrentTabs
  rateLimitPauseMinutes :=
    incoming.rateLimitPauseMinutes.getD DEFAULT_SETTINGS.rateLimitPauseMinutes
  scrollPauseMs := incoming.scrollPauseMs.getD DEFAULT_SETTINGS.scrollPauseMs
  prefetchBatchSize := incoming.prefetchBatchSize.getD DEFAULT_SETTINGS.prefetchBatchSize
  scrapeTabLoadTimeoutMs :=
    incoming.scrapeTabLoadTimeoutMs.getD DEFAULT_SETTINGS.scrapeTabLoadTimeoutMs
  scrapeProfileHeaderWaitMs :=
    incoming.scrapeProfileHeaderWaitMs.getD DEFAULT_SETTINGS.scrapeProfileHeaderWaitMs
  unavailableTTLhours := incoming.unavailableTTLhours.getD DEFAULT_SETTINGS.unavailableTTLhours
  followerColors := normalizeFollowerColors (mergeColors incoming.followerColors)

/-- The values read from the options page: the `checked` flags and the
`value` strings of its inputs. -/
structure UIValues where
  enabled : Bool
  showFollowers : Bool
  showFollowing : Bool
  showJoined : Bool
  showLocation : Bool
  themeMode : String
  maxRequestsPerMinute : String
  cacheTTLdays : String
  rateLimitPauseMinutes : String
  scrollPauseMs : String
  prefetchBatchSize : String
  maxConcurrentTabs : String
  scrapeTabLoadTimeoutMs : String
  scrapeProfileHeaderWaitMs : String
  unavailableTTLhours : String
  colorGt1m : String
  colorK250to1m : String
  colorK25to250k : String
  colorK5to25k : String
  colorK1to5k : String
  colorLt1k : String

/-- The function `getSettingsFromUI()` of `options.js`. -/
def getSettingsFromUI (ui : UIValues) : Settings where
  enabled := JSVal.bool ui.enabled
  showFollowers := JSVal.bool ui.showFollowers
  showFollowing := JSVal.bool ui.showFollowing
  showJoined := JSVal.bool ui.showJoined
  showLocation := JSVal.bool ui.showLocation
  themeMode := (JSVal.str ui.themeMode).or (JSVal.str "auto")
  maxRequestsPerMinute :=
    JSVal.num (clampInt (JSVal.str ui.maxRequestsPerMinute) (JSNum.fin 1) (JSNum.fin 120)
      (JSNum.fin 20))
  cacheTTLdays :=
    JSVal.num (clampInt (JSVal.str ui.cacheTTLdays) (JSNum.fin 1) (JSNum.fin 365) (JSNum.fin 30))
  rateLimitPauseMinutes :=
    JSVal.num (clampInt (JSVal.str ui.rateLimitPauseMinutes) (JSNum.fin 1) (JSNum.fin 60)
      (JSNum.fin 5))
  scrollPauseMs :=
    JSVal.num (clampInt (JSVal.str ui.scrollPauseMs) (JSNum.fin 100) (JSNum.fin 5000)
      (JSNum.fin 500))
  prefetchBatchSize :=
    JSVal.num (clampInt (JSVal.str ui.prefetchBatchSize) (JSNum.fin 20) (JSNum.fin 1000)
      (JSNum.fin 200))
  maxConcurrentTabs :=
    JSVal.num (clampInt (JSVal.str ui.maxConcurrentTabs) (JSNum.fin 1) (JSNum.fin 10)
      (JSNum.fin 3))
  scrapeTabLoadTimeoutMs :=
    JSVal.num (clampInt (JSVal.str ui.scrapeTabLoadTimeoutMs) (JSNum.fin 3000)
      (JSNum.fin 60000) (JSNum.fin 15000))
  scrapeProfileHeaderWaitMs :=
    JSVal.num (clampInt (JSVal.str ui.scrapeProfileHeaderWaitMs) (JSNum.fin 1000)
      (JSNum.fin 60000) (JSNum.fin 10000))
  unavailableTTLhours :=
    JSVal.num (clampInt (JSVal.str ui.unavailableTTLhours) (JSNum.fin 1) (JSNum.fin 168)
      (JSNum.fin 24))
  followerColors :=
    { gt1m := JSVal.str ui.colorGt1m, k250to1m := JSVal.str ui.colorK250to1m,
      k25to250k := JSVal.str ui.colorK25to250k, k5to25k := JSVal.str ui.colorK5to25k,
      k1to5k := JSVal.str ui.colorK1to5k, lt1k := JSVal.str ui.colorLt1k }

/-- The message `settings` that `save()` of `options.js` sends: the settings
read from the page, with `followerColors` normalized, every key present. -/
def saveMessage (ui : UIValues) : IncomingSettings :=
  let s := getSettingsFromUI ui
  { enabled := some s.enabled
    showFollowers := some s.showFollowers
    showFollowing := some s.showFollowing
    showJoined := some s.showJoined
    showLocation := some s.showLocation
    themeMode := some s.themeMode
    maxRequestsPerMinute := some s.maxRequestsPerMinute
    cacheTTLdays := some s.cacheTTLdays
    maxConcurrentTabs := some s.maxConcurrentTabs
    rateLimitPauseMinutes := some s.rateLimitPauseMinutes
    scrollPauseMs := some s.scrollPauseMs
    prefetchBatchSize := some s.prefetchBatchSize
    scrapeTabLoadTimeoutMs := some s.scrapeTabLoadTimeoutMs
    scrapeProfileHeaderWaitMs := some s.scrapeProfileHeaderWaitMs
    unavailableTTLhours := some s.unavailableTTLhours
    followerColors :=
      let c := normalizeFollowerColors
        { gt1m := s.followerColors.gt1m, k250to1m := s.followerColors.k250to1m,
          k25to250k := s.followerColors.k25to250k, k5to25k := s.followerColors.k5to25k,
          k1to5k := s.followerColors.k1to5k, lt1k := s.followerColors.lt1k,
          red := JSVal.undefined, orange := JSVal.undefined, yellow := JSVal.undefined,
          green := JSVal.undefined, lightGreen := JSVal.undefined, white := JSVal.undefined }
      some
        { gt1m := c.gt1m, k250to1m := c.k250to1m, k25to250k := c.k25to250k,
          k5to25k := c.k5to25k, k1to5k := c.k1to5k, lt1k := c.lt1k,
          red := JSVal.undefined, orange := JSVal.undefined, yellow := JSVal.undefined,
          green := JSVal.undefined, lightGreen := JSVal.undefined, white := JSVal.undefined } }

/-- A stored value that is a number inside `[lo, hi]`. -/
def inRange (v : JSVal) (lo hi : ℚ) : Prop :=
  ∃ q : ℚ, v = JSVal.num (JSNum.fin q) ∧ lo ≤ q ∧ q ≤ hi

/-- Every numeric tunable of the settings lies inside its fixed range. -/
def TunablesInRange (s : Settings) : Prop :=
  inRange s.maxRequestsPerMinute 1 120 ∧ inRange s.cacheTTLdays 1 365 ∧
  inRange s.unavailableTTLhours 1 168 ∧ inRange s.maxConcurrentTabs 1 10 ∧
  inRange s.rateLimitPauseMinutes 1 60 ∧ inRange s.scrollPauseMs 100 5000 ∧
  inRange s.prefetchBatchSize 20 1000 ∧ inRange s.scrapeTabLoadTimeoutMs 3000 60000 ∧
  inRange s.scrapeProfileHeaderWaitMs 1000 60000

/-- A save message that holds only the key maxRequestsPerMinute, with the
value 9999. -/
def hugeRpmMessage : IncomingSettings where
  enabled := none
  showFollowers := none
  showFollowing := none
  showJoined := none
  showLocation := none
  themeMode := none
  maxRequestsPerMinute := some (JSVal.num (JSNum.fin 9999))
  cacheTTLdays := none
  maxConcurrentTabs := none
  rateLimitPauseMinutes := none
  scrollPauseMs := none
  prefetchBatchSize := none
  scrapeTabLoadTimeoutMs := none
  scrapeProfileHeaderWaitMs := none
  unavailableTTLhours := none
  followerColors := none

/-- A colour map whose lowest bucket is the three-digit white `#fff`. -/
def shortWhiteColors : ColorSource where
  gt1m := JSVal.undefined
  k250to1m := JSVal.undefined
  k25to250k := JSVal.undefined
  k5to25k := JSVal.undefined
  k1to5k := JSVal.undefined
  lt1k := JSVal.str "#fff"
  red := JSVal.undefined
  orange := JSVal.undefined
  yellow := JSVal.undefined
  green := JSVal.undefined
  lightGreen := JSVal.undefined
  white := JSVal.undefined

/-- A number that is NaN, positive infinity, or finite and not negative. -/
def JSNum.NonNegOrNaN (n : JSNum) : Prop :=
  n = JSNum.nan ∨ n = JSNum.posInf ∨ ∃ q : ℚ, 0 ≤ q ∧ n = JSNum.fin q

/-- A count field that is null (or absent) or a non-negative integer. -/
def isNullOrCount (v : JSVal) : Prop :=
  v.isNullish = true ∨ ∃ n : Nat, v = JSVal.num (JSNum.fin (n : ℚ))

/-- A count field that is null (or absent), a non-negative integer, or
`Infinity`. -/
def isNullCountOrInfinity (v : JSVal) : Prop :=
  isNullOrCount v ∨ v = JSVal.num JSNum.posInf

/-- The property of the count fields of an entry built from page text:
followers and following are each null (or absent), a non-negative integer, or
`Infinity`. -/
def CountOrInfinityInv (e : Entry) : Prop :=
  isNullCountOrInfinity e.followers ∧ isNullCountOrInfinity e.following

/-- The invariant of count fields: followers and following are each null (or
absent) or a non-negative integer. -/
def CountInv (e : Entry) : Prop :=
  isNullOrCount e.followers ∧ isNullOrCount e.following

/-- A payload entry marked unavailable that carries followers 5. -/
def unavailableWithCount : Entry where
  fetchedAt := JSVal.num (JSNum.fin 1000)
  followers := JSVal.num (JSNum.fin 5)
  following := JSVal.undefined
  joinedYear := JSVal.undefined
  location := JSVal.undefined
  unavailable := JSVal.bool true

/-- A payload entry with the negative followers value -5. -/
def negativeCountEntry : Entry where
  fetchedAt := JSVal.num (JSNum.fin 1000)
  followers := JSVal.num (JSNum.fin (-5))
  following := JSVal.null
  joinedYear := JSVal.null
  location := JSVal.null
  unavailable := JSVal.bool false

/-- The test of `scrapeProfileViaTab` that the profile header shows a handle
other than the requested key. -/
def handleMismatch (r : RawScrape) (handleKey : String) : Bool :=
  match r.actualHandle with
  | some a => decide (a ≠ "") && decide (toLowerCase a.data ≠ toLowerCase handleKey.data)
  | none => false

/-- None of the four fields was extracted: no followers count, no following
count, no location and no joined year. -/
def noFields (r : RawScrape) : Bool :=
  (parseCountText r.followersText).isNullish && (parseCountText r.followingText).isNullish &&
    (match r.location with
      | some l => decide (l = "")
      | none => true) &&
    !(parseJoinedYear r.joinedText).truthy

/-- An extraction result for the profile bob that carries a followers text. -/
def bobWithFollowers : RawScrape where
  actualHandle := some "bob"
  followersText := some "5 Followers"
  followingText := none
  location := none
  joinedText := none

/-- The number of tasks one activation can dispatch:
min(queue length, max(0, maxTabs - activeScrapes), max(0, rpm - windowCount)). -/
def dispatchCount (queueLength : Nat) (maxTabs activeScrapes rpm windowCount : Int) : Nat :=
  min queueLength (min (maxTabs - activeScrapes).toNat (rpm - windowCount).toNat)

/-- The recorded timestamps still inside the trailing 60 seconds at `now`. -/
def windowAt (now : Int) (s : Sched) : List Int :=
  s.requestTimes.filter (fun t => decide (t ≥ now - 60000))

/-- A scheduler state with four queued tasks, one fetch in flight and two
recorded dispatches, at times 0 and 50000. -/
def fourQueued : Sched where
  queue := [{ handleKey := "alice", handle := "Alice", enqueuedAt := 60000 },
            { handleKey := "bob", handle := "bob", enqueuedAt := 60001 },
            { handleKey := "carol", handle := "carol", enqueuedAt := 60002 },
            { handleKey := "erin", handle := "erin", enqueuedAt := 60003 }]
  queued := ["alice", "bob", "carol", "erin"]
  inflight := ["dave"]
  requestTimes := [0, 50000]
  activeScrapes := 1
  rateLimitUntil := JSNum.fin 0

/-- The counter/set agreement: the in-flight set lists each key once and
`activeScrapes` is the number of its keys. -/
def SlotInv (s : Sched) : Prop :=
  s.inflight.Nodup ∧ s.activeScrapes = (s.inflight.length : Int)

/-- States of the scheduler variables reachable from the initial ones by
enqueues, single pops of the dispatch loop, whole activations of
`processQueue`, completions of in-flight fetches and pause expiry. -/
inductive Reachable : Sched → Prop where
  | init : Reachable Sched.init
  | enqueue (handleKey handle : String) (now : Int) {s : Sched} :
      Reachable s → Reachable (enqueue handleKey handle now s)
  | dispatch (now : Int) {s : Sched} :
      Reachable s → Reachable (popDispatch now s)
  | activate (settings : Settings) (hasTabs : Bool) (now : Int) {s : Sched} :
      Reachable s → Reachable (processQueue settings hasTabs now s).sched
  | complete (handleKey : String) (rateLimited : Bool) (settings : Settings)
      (now : Int) {s : Sched} :
      Reachable s → handleKey ∈ s.inflight →
      Reachable (completeSched handleKey rateLimited settings now s)
  | pauseExpired {s : Sched} :
      Reachable s → Reachable (clearRateLimit s)

/-- One event of the engine, as seen by the scheduler variables. -/
inductive Event where
  | enqueue (handleKey handle : String) (now : Int) : Event
  | activate (settings : Settings) (hasTabs : Bool) (now : Int) : Event
  | complete (handleKey : String) (rateLimited : Bool) (settings : Settings) (now : Int) : Event
  | pauseExpired : Event

/-- The effect of one event on the scheduler variables. -/
def Event.apply : Event → Sched → Sched
  | Event.enqueue handleKey handle now, s => XMeta.enqueue handleKey handle now s
  | Event.activate settings hasTabs now, s => (processQueue settings hasTabs now s).sched
  | Event.complete handleKey rateLimited settings now, s =>
    completeSched handleKey rateLimited settings now s
  | Event.pauseExpired, s => clearRateLimit s

/-- The effect of a sequence of events, oldest first. -/
def runEvents (evs : List Event) (s : Sched) : Sched :=
  evs.foldl (fun acc e => e.apply acc) s

/-- The tasks whose fetch is started by an event. -/
def Event.dispatched : Event → Sched → List Task
  | Event.activate settings hasTabs now, s => (processQueue settings hasTabs now s).dispatched
  | _, _ => []

/-- All the tasks whose fetch is started along a sequence of events. -/
def dispatchedAlong : List Event → Sched → List Task
  | [], _ => []
  | e :: rest, s => e.dispatched s ++ dispatchedAlong rest (e.apply s)

/-- Every activation of the sequence runs with an effective cap of `rpm`
requests per minute and at a time earlier than `bound`. -/
def activationsCappedBefore (rpm : JSNum) (bound : Int) (evs : List Event) : Prop :=
  ∀ e ∈ evs, match e with
    | Event.activate settings _ now => effectiveRpm settings = rpm ∧ now < bound
    | _ => True

/-- What the scenario keeps true after the first dispatch: the rate window
holds exactly the dispatch at `t0`, the second task is still the head of the
queue and its key is not in flight. -/
def SecondDeferred (t0 : Int) (task2 : Task) (s : Sched) : Prop :=
  s.requestTimes = [t0] ∧ (∃ more, s.queue = task2 :: more) ∧ task2.handleKey ∈ s.queued ∧
    task2.handleKey ∉ s.inflight

/-- The dedup invariant: no key is both queued and in flight, the queue holds
at most one task per key, and the queued set is the set of keys of the queue. -/
def DedupInv (s : Sched) : Prop :=
  (∀ k, ¬ (k ∈ s.queued ∧ k ∈ s.inflight)) ∧
  (s.queue.map Task.handleKey).Nodup ∧
  (∀ k, k ∈ s.queued ↔ k ∈ s.queue.map Task.handleKey)

/-! ## Theorems -/

/-! ### Sets of keys -/

theorem mem_setAdd (s : List String) (k x : String) :
    x ∈ setAdd s k ↔ x ∈ s ∨ x = k := by
  unfold setAdd
  by_cases h : k ∈ s
  · simp only [h, if_true]
    constructor
    · exact Or.inl
    · rintro (hx | rfl)
      · exact hx
      · exact h
  · simp [h]

theorem mem_setDelete (s : List String) (k x : String) :
    x ∈ setDelete s k ↔ x ∈ s ∧ x ≠ k := by
  simp [setDelete]

/-! ### The dedup invariant is preserved by every operation -/

theorem DedupInv_of_eq {s t : Sched} (hq : t.queue = s.queue) (hd : t.queued = s.queued)
    (hi : t.inflight = s.inflight) (h : DedupInv s) : DedupInv t := by
  unfold DedupInv at *
  rw [hq, hd, hi]
  exact h

theorem DedupInv_init : DedupInv Sched.init := by
  simp [DedupInv, Sched.init]

theorem DedupInv_enqueue (handleKey handle : String) (now : Int) {s : Sched}
    (h : DedupInv s) : DedupInv (enqueue handleKey handle now s) := by
  unfold enqueue
  by_cases hq : handleKey ∈ s.queued
  · simpa [setHas, hq] using h
  by_cases hi : handleKey ∈ s.inflight
  · simpa [setHas, hq, hi] using h
  obtain ⟨h1, h2, h3⟩ := h
  simp only [setHas, hq, hi, decide_False, Bool.or_self, Bool.false_eq_true, if_false]
  refine ⟨?_, ?_, ?_⟩
  · intro k hk
    simp only [mem_setAdd] at hk
    rcases hk with ⟨hk1 | rfl, hk2⟩
    · exact h1 k ⟨hk1, hk2⟩
    · exact hi hk2
  · simp only [List.map_append, List.map_cons, List.map_nil]
    rw [List.nodup_append]
    refine ⟨h2, List.nodup_singleton _, ?_⟩
    intro a ha hb
    simp only [List.mem_singleton] at hb
    subst hb
    exact hq ((h3 a).2 ha)
  · intro k
    simp only [mem_setAdd, List.map_append, List.map_cons, List.map_nil, List.mem_append,
      List.mem_singleton]
    rw [h3 k]

theorem DedupInv_popDispatch (now : Int) {s : Sched} (h : DedupInv s) :
    DedupInv (popDispatch now s) := by
  unfold popDispatch
  cases hq : s.queue with
  | nil => simpa using h
  | cons task rest =>
    obtain ⟨h1, h2, h3⟩ := h
    rw [hq] at h2 h3
    simp only [List.map_cons, List.nodup_cons] at h2
    refine ⟨?_, ?_, ?_⟩
    · intro k hk
      simp only [mem_setAdd, mem_setDelete] at hk
      rcases hk with ⟨⟨hk1, hk2⟩, hk3 | hk3⟩
      · exact h1 k ⟨hk1, hk3⟩
      · exact hk2 hk3
    · exact h2.2
    · intro k
      simp only [mem_setDelete]
      rw [h3 k]
      simp only [List.map_cons, List.mem_cons]
      constructor
      · rintro ⟨hk | hk, hne⟩
        · exact absurd hk hne
        · exact hk
      · intro hk
        refine ⟨Or.inr hk, ?_⟩
        rintro rfl
        exact h2.1 hk

theorem DedupInv_prune (rpm : JSNum) (now : Int) {s : Sched} (h : DedupInv s) :
    DedupInv (pruneRequestTimes rpm now s).2 :=
  DedupInv_of_eq rfl rfl rfl h

theorem nextAllowedTime_snd (now : Int) (s : Sched) :
    (nextAllowedTime now s).2 =
      { s with requestTimes := s.requestTimes.filter (fun t => decide (t ≥ now - 60000)) } := by
  unfold nextAllowedTime
  simp only
  generalize s.requestTimes.filter (fun t => decide (t ≥ now - 60000)) = kept
  cases kept <;> rfl

theorem DedupInv_nextAllowedTime (now : Int) {s : Sched} (h : DedupInv s) :
    DedupInv (nextAllowedTime now s).2 := by
  rw [nextAllowedTime_snd]
  exact DedupInv_of_eq rfl rfl rfl h

theorem DedupInv_dispatchLoop (rpm maxTabs : JSNum) (now : Int) (fuel : Nat) :
    ∀ {s : Sched}, DedupInv s → DedupInv (dispatchLoop rpm maxTabs now fuel s).sched := by
  induction fuel with
  | zero => intro s h; simpa [dispatchLoop] using h
  | succ n ih =>
    intro s h
    unfold dispatchLoop
    split
    · exact h
    · split
      · exact h
      · split
        · exact h
        · simp only
          split
          · exact DedupInv_prune rpm now h
          · exact ih (DedupInv_popDispatch now (DedupInv_prune rpm now h))

theorem DedupInv_processQueue (settings : Settings) (hasTabs : Bool) (now : Int) {s : Sched}
    (h : DedupInv s) : DedupInv (processQueue settings hasTabs now s).sched := by
  unfold processQueue
  split
  · exact h
  · split
    · exact h
    · split
      · exact h
      · have hl := DedupInv_dispatchLoop (effectiveRpm settings) (effectiveMaxTabs settings)
          now s.queue.length h
        simp only
        split
        · exact hl
        · exact DedupInv_nextAllowedTime now hl

theorem DedupInv_enterPause (settings : Settings) (now : Int) {s : Sched}
    (h : DedupInv s) : DedupInv (enterPause settings now s) := by
  unfold enterPause
  simp only
  split
  · exact DedupInv_of_eq rfl rfl rfl h
  · exact h

theorem DedupInv_releaseSlot (handleKey : String) {s : Sched} (h : DedupInv s) :
    DedupInv (releaseSlot handleKey s) := by
  obtain ⟨h1, h2, h3⟩ := h
  refine ⟨?_, h2, h3⟩
  intro k hk
  simp only [releaseSlot, mem_setDelete] at hk
  exact h1 k ⟨hk.1, hk.2.1⟩

theorem DedupInv_completeSched (handleKey : String) (rateLimited : Bool)
    (settings : Settings) (now : Int) {s : Sched} (h : DedupInv s) :
    DedupInv (completeSched handleKey rateLimited settings now s) := by
  unfold completeSched
  apply DedupInv_releaseSlot
  split
  · exact DedupInv_enterPause settings now h
  · exact h

theorem DedupInv_clearRateLimit {s : Sched} (h : DedupInv s) :
    DedupInv (clearRateLimit s) := by
  unfold clearRateLimit
  split
  · exact DedupInv_of_eq rfl rfl rfl h
  · exact h

/-- C1: in every state reachable from the initial empty state by enqueues,
pops of the dispatch loop (alone or inside an activation of processQueue),
fetch completions and pause expiry, no key is both queued and in flight, the
queue holds at most one task per key, and the queued set is exactly the set of
keys of the tasks in the queue. -/
theorem dedup_invariant_reachable (s : Sched) (h : Reachable s) : DedupInv s := by
  induction h with
  | init => exact DedupInv_init
  | enqueue handleKey handle now _ ih => exact DedupInv_enqueue handleKey handle now ih
  | dispatch now _ ih => exact DedupInv_popDispatch now ih
  | activate settings hasTabs now _ ih => exact DedupInv_processQueue settings hasTabs now ih
  | complete handleKey rateLimited settings now _ _ ih =>
    exact DedupInv_completeSched handleKey rateLimited settings now ih
  | pauseExpired _ ih => exact DedupInv_clearRateLimit ih

/-- Witness for C1: the state after enqueueing two keys, dispatching the first
and enqueueing the second again is reachable and satisfies the invariant. -/
theorem dedup_invariant_reachable_witness :
    Reachable (enqueue "bob" "Bob" 3 (popDispatch 2 (enqueue "bob" "bob" 1
      (enqueue "alice" "alice" 0 Sched.init)))) ∧
    DedupInv (enqueue "bob" "Bob" 3 (popDispatch 2 (enqueue "bob" "bob" 1
      (enqueue "alice" "alice" 0 Sched.init)))) :=
  ⟨Reachable.enqueue _ _ _ (Reachable.dispatch _ (Reachable.enqueue _ _ _
      (Reachable.enqueue _ _ _ Reachable.init))),
   dedup_invariant_reachable _ (Reachable.enqueue _ _ _ (Reachable.dispatch _
      (Reachable.enqueue _ _ _ (Reachable.enqueue _ _ _ Reachable.init))))⟩

/-! ### Admission check -/

theorem filter_ge_eq_self (cutoff : Int) (ts : List Int) (h : ∀ t ∈ ts, cutoff ≤ t) :
    ts.filter (fun t => decide (t ≥ cutoff)) = ts := by
  rw [List.filter_eq_self]
  intro t ht
  simpa using h t ht

/-- C2: when the rate window holds N >= rpm timestamps t1 <= ... <= tN, the
admission check pruneRequestTimes(rpm) returns false at every time now with
now < t1 + 60000 (in particular for tN <= now < t1 + 60000), that is until the
oldest dispatch leaves the trailing 60-second window. -/
theorem admit_false_while_window_full (rpm : ℚ) (now t1 : Int) (rest : List Int)
    (s : Sched) (hs : s.requestTimes = t1 :: rest)
    (hsorted : List.Sorted (fun a b => a ≤ b) (t1 :: rest))
    (hN : rpm ≤ ((t1 :: rest).length : ℚ))
    (hnow : now < t1 + 60000) :
    (pruneRequestTimes (JSNum.fin rpm) now s).1 = false := by
  have hall : ∀ t ∈ t1 :: rest, now - 60000 ≤ t := by
    intro t ht
    rcases List.mem_cons.1 ht with rfl | ht
    · omega
    · have := List.rel_of_sorted_cons hsorted t ht
      omega
  unfold pruneRequestTimes
  simp only [hs, filter_ge_eq_self _ _ hall, JSNum.ofInt, JSNum.lt, decide_eq_false_iff_not,
    not_lt]
  exact_mod_cast hN

/-- Witness for C2: three dispatches at 1000, 2000, 3000 with a cap of 2,
checked at time 60999. -/
theorem admit_false_while_window_full_witness :
    (pruneRequestTimes (JSNum.fin 2) 60999
      { Sched.init with requestTimes := [1000, 2000, 3000] }).1 = false :=
  admit_false_while_window_full 2 60999 1000 [2000, 3000]
    { Sched.init with requestTimes := [1000, 2000, 3000] } rfl
    (by simp [List.Sorted]) (by norm_num) (by decide)

/-! ### Global pause -/

theorem dispatchLoop_paused (rpm maxTabs : JSNum) (now : Int) (fuel : Nat) (s : Sched)
    (h : isPausedForRateLimit now s = true) :
    (dispatchLoop rpm maxTabs now fuel s).sched = s ∧
    (dispatchLoop rpm maxTabs now fuel s).dispatched = [] := by
  cases fuel with
  | zero => simp [dispatchLoop]
  | succ n =>
    unfold dispatchLoop
    cases hq : s.queue with
    | nil => simp
    | cons task rest => simp [h]

/-- C3: while the global pause is active (rateLimitUntil is non-zero and
now < rateLimitUntil), an activation of processQueue starts no fetch and leaves
the queue, the queued set, the in-flight set, activeScrapes and the rate
window unchanged, whatever the settings, the queue, the concurrency budget and
the rate window are; with the feature enabled its only effect is to ask for a
wake-up at the pause boundary. The dispatch loop itself, entered while paused,
stops before its first pop as well. -/
theorem processQueue_paused_dispatches_nothing (settings : Settings) (hasTabs : Bool)
    (now : Int) (s : Sched) (h : isPausedForRateLimit now s = true) :
    (processQueue settings hasTabs now s).sched = s ∧
    (processQueue settings hasTabs now s).dispatched = [] ∧
    (settings.enabled.truthy = true →
      (processQueue settings hasTabs now s).wakes = [s.rateLimitUntil]) ∧
    (∀ (rpm maxTabs : JSNum) (fuel : Nat),
      (dispatchLoop rpm maxTabs now fuel s).sched = s ∧
      (dispatchLoop rpm maxTabs now fuel s).dispatched = []) := by
  refine ⟨?_, ?_, ?_, fun rpm maxTabs fuel => dispatchLoop_paused rpm maxTabs now fuel s h⟩
  · unfold processQueue
    by_cases he : settings.enabled.truthy = true <;> simp [he, h]
  · unfold processQueue
    by_cases he : settings.enabled.truthy = true <;> simp [he, h]
  · intro he
    unfold processQueue
    simp [he, h]

/-- Witness for C3: a paused scheduler (pause until 5000, time 1000) with two
queued tasks, free concurrency budget and an empty rate window. -/
theorem processQueue_paused_dispatches_nothing_witness :
    (processQueue DEFAULT_SETTINGS true 1000
      { (enqueue "bob" "bob" 0 (enqueue "alice" "alice" 0 Sched.init)) with
        rateLimitUntil := JSNum.fin 5000 }).dispatched = [] :=
  (processQueue_paused_dispatches_nothing DEFAULT_SETTINGS true 1000
    { (enqueue "bob" "bob" 0 (enqueue "alice" "alice" 0 Sched.init)) with
      rateLimitUntil := JSNum.fin 5000 }
    (by norm_num [isPausedForRateLimit, JSNum.truthy, JSNum.lt, JSNum.ofInt])).2.1

/-! ### Order facts on numbers -/

theorem JSNum.lt_irrefl_js (a : JSNum) : JSNum.lt a a = false := by
  cases a <;> simp [JSNum.lt]

theorem JSNum.lt_asymm_js {a b : JSNum} (h : JSNum.lt a b = true) : JSNum.lt b a = false := by
  cases a <;> cases b <;> simp_all [JSNum.lt]
  exact h.le

theorem JSNum.ne_nan_of_lt_js {a b : JSNum} (h : JSNum.lt a b = true) :
    a ≠ JSNum.nan ∧ b ≠ JSNum.nan := by
  cases a <;> cases b <;> simp_all [JSNum.lt]

theorem JSNum.le_refl_js {a : JSNum} (h : a ≠ JSNum.nan) : JSNum.le a a = true := by
  cases a <;> simp_all [JSNum.le, JSNum.ge, JSNum.lt]

theorem JSNum.le_of_lt_js {a b : JSNum} (h : JSNum.lt a b = true) : JSNum.le a b = true := by
  cases a <;> cases b <;> simp_all [JSNum.le, JSNum.ge, JSNum.lt]
  exact h.le

theorem JSNum.le_trans_js {a b c : JSNum} (hab : JSNum.le a b = true)
    (hbc : JSNum.le b c = true) : JSNum.le a c = true := by
  cases a <;> cases b <;> cases c <;> simp_all [JSNum.le, JSNum.ge, JSNum.lt]
  exact hab.trans hbc

theorem JSNum.ne_nan_of_le_js {a b : JSNum} (h : JSNum.le a b = true) :
    a ≠ JSNum.nan ∧ b ≠ JSNum.nan := by
  cases a <;> cases b <;> simp_all [JSNum.le, JSNum.ge]

/-! ### Pause monotonicity -/

theorem enterPause_rateLimitUntil (settings : Settings) (now : Int) (s : Sched) :
    (enterPause settings now s).rateLimitUntil =
      if JSNum.lt s.rateLimitUntil (JSNum.add (JSNum.ofInt now) (pauseMs settings)) then
        JSNum.add (JSNum.ofInt now) (pauseMs settings)
      else s.rateLimitUntil := by
  unfold enterPause JSNum.gt
  simp only
  split <;> rfl

theorem enterPause_le (settings : Settings) (now : Int) (s : Sched)
    (h : s.rateLimitUntil ≠ JSNum.nan) :
    JSNum.le s.rateLimitUntil (enterPause settings now s).rateLimitUntil = true := by
  rw [enterPause_rateLimitUntil]
  split
  · next hlt => exact JSNum.le_of_lt_js hlt
  · exact JSNum.le_refl_js h

theorem enterPauses_le (signals : List (Settings × Int)) :
    ∀ (s : Sched), s.rateLimitUntil ≠ JSNum.nan →
      JSNum.le s.rateLimitUntil (enterPauses signals s).rateLimitUntil = true := by
  induction signals with
  | nil => intro s h; exact JSNum.le_refl_js h
  | cons p rest ih =>
    intro s h
    have h1 := enterPause_le p.1 p.2 s h
    have h2 := ih (enterPause p.1 p.2 s) (JSNum.ne_nan_of_le_js h1).2
    exact JSNum.le_trans_js h1 h2

/-- C4: when a completed fetch reports a throttle signal at time now and the
configured backoff d = pauseMs(settings) is a number, the new pause timestamp
is Math.max(current rateLimitUntil, now + d); and from any pause timestamp
(a number, as it always is: it starts at 0 and only such values are stored)
the timestamp after any sequence of throttle signals is at least the one
before it. -/
theorem pause_monotone (settings : Settings) (now : Int) (s : Sched)
    (signals : List (Settings × Int)) :
    (pauseMs settings ≠ JSNum.nan →
      (enterPause settings now s).rateLimitUntil =
        JSNum.max s.rateLimitUntil (JSNum.add (JSNum.ofInt now) (pauseMs settings))) ∧
    (s.rateLimitUntil ≠ JSNum.nan →
      JSNum.le s.rateLimitUntil (enterPauses signals s).rateLimitUntil = true) := by
  refine ⟨?_, enterPauses_le signals s⟩
  intro hd
  rw [enterPause_rateLimitUntil]
  generalize pauseMs settings = d at hd
  cases hc : s.rateLimitUntil <;> cases d <;> simp_all [JSNum.max, JSNum.add, JSNum.ofInt, JSNum.lt]

/-- Witness for C4: a pause until 400000 is kept by a signal at time 1000 with
the default 5-minute backoff (301000), and raised by one at time 200000. -/
theorem pause_monotone_witness :
    (enterPause DEFAULT_SETTINGS 1000
        { Sched.init with rateLimitUntil := JSNum.fin 400000 }).rateLimitUntil =
      JSNum.max (JSNum.fin 400000)
        (JSNum.add (JSNum.ofInt 1000) (pauseMs DEFAULT_SETTINGS)) ∧
    JSNum.le (JSNum.fin 400000)
      (enterPauses [(DEFAULT_SETTINGS, 1000), (DEFAULT_SETTINGS, 200000)]
        { Sched.init with rateLimitUntil := JSNum.fin 400000 }).rateLimitUntil = true :=
  ⟨(pause_monotone DEFAULT_SETTINGS 1000
      { Sched.init with rateLimitUntil := JSNum.fin 400000 } []).1 (by decide),
   (pause_monotone DEFAULT_SETTINGS 1000
      { Sched.init with rateLimitUntil := JSNum.fin 400000 }
      [(DEFAULT_SETTINGS, 1000), (DEFAULT_SETTINGS, 200000)]).2 (by decide)⟩

/-! ### Scenario: one request per minute -/

theorem sched_requestTimes_eta (s : Sched) : { s with requestTimes := s.requestTimes } = s := by
  cases s; rfl

theorem processQueue_denied (settings : Settings) (hasTabs : Bool) (now t0 : Int) (s : Sched)
    (hrt : s.requestTimes = [t0]) (hnow : now < t0 + 60000)
    (hrpm : effectiveRpm settings = JSNum.fin 1) :
    (processQueue settings hasTabs now s).sched = s ∧
    (processQueue settings hasTabs now s).dispatched = [] := by
  have hkeep : s.requestTimes.filter (fun t => decide (t ≥ now - 60000)) = s.requestTimes := by
    apply filter_ge_eq_self
    intro t ht
    rw [hrt] at ht
    simp only [List.mem_singleton] at ht
    omega
  have hprune : ∀ rpm, (pruneRequestTimes rpm now s).2 = s := by
    intro rpm
    simp only [pruneRequestTimes, hkeep, sched_requestTimes_eta]
  have hdeny : (pruneRequestTimes (JSNum.fin 1) now s).1 = false := by
    unfold pruneRequestTimes
    simp only [hkeep]
    simp [hrt, JSNum.lt, JSNum.ofInt]
  have hnext : (nextAllowedTime now s).2 = s := by
    rw [nextAllowedTime_snd, hkeep, sched_requestTimes_eta]
  have hloop : ∀ maxTabs fuel,
      (dispatchLoop (JSNum.fin 1) maxTabs now fuel s).sched = s ∧
      (dispatchLoop (JSNum.fin 1) maxTabs now fuel s).dispatched = [] := by
    intro maxTabs fuel
    cases fuel with
    | zero => simp [dispatchLoop]
    | succ n =>
      unfold dispatchLoop
      cases hq : s.queue with
      | nil => simp
      | cons task rest =>
        simp only
        split
        · simp
        · split
          · simp
          · simp [hdeny, hprune]
  unfold processQueue
  simp only [hrpm]
  split
  · simp
  · split
    · simp
    · split
      · simp
      · obtain ⟨h1, h2⟩ := hloop (effectiveMaxTabs settings) s.queue.length
        generalize dispatchLoop (JSNum.fin 1) (effectiveMaxTabs settings) now
          s.queue.length s = r at h1 h2
        split
        · exact ⟨h1, h2⟩
        · simp only [h1, h2, hnext, and_self]

theorem SecondDeferred_apply (t0 : Int) (task2 : Task) (e : Event) (s : Sched)
    (he : match e with
      | Event.activate settings _ now => effectiveRpm settings = JSNum.fin 1 ∧ now < t0 + 60000
      | _ => True)
    (h : SecondDeferred t0 task2 s) :
    SecondDeferred t0 task2 (e.apply s) ∧ e.dispatched s = [] := by
  obtain ⟨h1, ⟨more, h2⟩, h3, h4⟩ := h
  cases e with
  | enqueue handleKey handle now =>
    refine ⟨?_, rfl⟩
    simp only [Event.apply, enqueue]
    split
    · exact ⟨h1, ⟨more, h2⟩, h3, h4⟩
    · refine ⟨h1, ⟨more ++ [{ handleKey := handleKey, handle := handle, enqueuedAt := now }],
        by simp [h2]⟩, ?_, h4⟩
      simp only [mem_setAdd]
      exact Or.inl h3
  | activate settings hasTabs now =>
    obtain ⟨hr, hn⟩ := he
    obtain ⟨a, b⟩ := processQueue_denied settings hasTabs now t0 s h1 hn hr
    simp only [Event.apply, Event.dispatched, a, b]
    exact ⟨⟨h1, ⟨more, h2⟩, h3, h4⟩, trivial⟩
  | complete handleKey rateLimited settings now =>
    refine ⟨?_, rfl⟩
    simp only [Event.apply, completeSched, releaseSlot]
    refine ⟨?_, ⟨more, ?_⟩, ?_, ?_⟩
    · cases rateLimited
      · simpa using h1
      · simp only [if_true, enterPause]
        split <;> exact h1
    · cases rateLimited
      · simpa using h2
      · simp only [if_true, enterPause]
        split <;> exact h2
    · cases rateLimited
      · simpa using h3
      · simp only [if_true, enterPause]
        split <;> exact h3
    · simp only [mem_setDelete]
      intro hc
      apply h4
      cases rateLimited
      · simpa using hc.1
      · have := hc.1
        simp only [if_true, enterPause] at this
        split at this <;> exact this
  | pauseExpired =>
    refine ⟨?_, rfl⟩
    simp only [Event.apply, clearRateLimit]
    split <;> exact ⟨h1, ⟨more, h2⟩, h3, h4⟩

theorem SecondDeferred_run (t0 : Int) (task2 : Task) (evs : List Event) :
    ∀ (s : Sched), activationsCappedBefore (JSNum.fin 1) (t0 + 60000) evs →
      SecondDeferred t0 task2 s →
      SecondDeferred t0 task2 (runEvents evs s) ∧ dispatchedAlong evs s = [] := by
  induction evs with
  | nil => intro s _ h; exact ⟨h, rfl⟩
  | cons e rest ih =>
    intro s hc h
    have he := hc e (List.mem_cons_self _ _)
    obtain ⟨h1, h2⟩ := SecondDeferred_apply t0 task2 e s he h
    have hrest : activationsCappedBefore (JSNum.fin 1) (t0 + 60000) rest :=
      fun e2 h2 => hc e2 (List.mem_cons_of_mem _ h2)
    obtain ⟨h3, h4⟩ := ih (e.apply s) hrest h1
    refine ⟨h3, ?_⟩
    simp only [dispatchedAlong, h2, h4, List.append_nil]

theorem effectiveRpm_one (settings : Settings)
    (h1 : settings.maxRequestsPerMinute = JSVal.num (JSNum.fin 1)) :
    effectiveRpm settings = JSNum.fin 1 := by
  simp [effectiveRpm, h1, JSVal.or, JSVal.truthy, JSNum.truthy, JSVal.toNumber, JSNum.max,
    JSNum.min, JSNum.lt]

theorem effectiveMaxTabs_five (settings : Settings)
    (h5 : settings.maxConcurrentTabs = JSVal.num (JSNum.fin 5)) :
    effectiveMaxTabs settings = JSNum.fin 5 := by
  simp only [effectiveMaxTabs, h5, JSVal.or, JSVal.truthy, JSNum.truthy, JSVal.toNumber,
    JSNum.max, JSNum.min, JSNum.lt]
  norm_num

theorem scenario_first_activation (settings : Settings)
    (hen : settings.enabled.truthy = true)
    (h1 : settings.maxRequestsPerMinute = JSVal.num (JSNum.fin 1))
    (h5 : settings.maxConcurrentTabs = JSVal.num (JSNum.fin 5))
    (k1 d1 k2 d2 : String) (te t0 : Int) (hne : k1 ≠ k2) :
    processQueue settings true t0 (enqueue k2 d2 te (enqueue k1 d1 te Sched.init)) =
      { sched :=
          { queue := [{ handleKey := k2, handle := d2, enqueuedAt := te }]
            queued := [k2]
            inflight := [k1]
            requestTimes := [t0]
            activeScrapes := 1
            rateLimitUntil := JSNum.fin 0 }
        dispatched := [{ handleKey := k1, handle := d1, enqueuedAt := te }]
        wakes := [JSNum.ofInt (t0 + 60000 + 200)] } := by
  have hne2 : ¬ k2 = k1 := fun h => hne h.symm
  have hs0 : enqueue k2 d2 te (enqueue k1 d1 te Sched.init) =
      { queue := [{ handleKey := k1, handle := d1, enqueuedAt := te },
                  { handleKey := k2, handle := d2, enqueuedAt := te }]
        queued := [k1, k2]
        inflight := []
        requestTimes := []
        activeScrapes := 0
        rateLimitUntil := JSNum.fin 0 } := by
    simp [enqueue, Sched.init, setHas, setAdd, hne2]
  rw [hs0]
  simp [processQueue, hen, effectiveRpm_one settings h1, effectiveMaxTabs_five settings h5,
    isPausedForRateLimit, JSNum.truthy, dispatchLoop, JSNum.ge, JSNum.lt, JSNum.ofInt,
    pruneRequestTimes, popDispatch, setDelete, setAdd, nextAllowedTime, hne2, hne]

/-- C5: with rpm_cap = 1 and maxConcurrentTabs = 5, from the initial state
(empty rate window, no active fetch, no pause) with two distinct keys
enqueued, the activation of processQueue at time t0 starts exactly one fetch,
that of the first enqueued task, and leaves the second task queued; and along
every later sequence of events (enqueues, completions, pause expiry, and
activations with rpm_cap = 1 at times earlier than t0 + 60000) no fetch is
started, the second task is still in the queue and its key is not in flight. -/
theorem rpm_one_two_keys_scenario (settings : Settings)
    (hen : settings.enabled.truthy = true)
    (h1 : settings.maxRequestsPerMinute = JSVal.num (JSNum.fin 1))
    (h5 : settings.maxConcurrentTabs = JSVal.num (JSNum.fin 5))
    (k1 d1 k2 d2 : String) (te t0 : Int) (hne : k1 ≠ k2)
    (evs : List Event) (hevs : activationsCappedBefore (JSNum.fin 1) (t0 + 60000) evs) :
    (processQueue settings true t0
        (enqueue k2 d2 te (enqueue k1 d1 te Sched.init))).dispatched =
      [{ handleKey := k1, handle := d1, enqueuedAt := te }] ∧
    (processQueue settings true t0
        (enqueue k2 d2 te (enqueue k1 d1 te Sched.init))).sched.queue =
      [{ handleKey := k2, handle := d2, enqueuedAt := te }] ∧
    (processQueue settings true t0
        (enqueue k2 d2 te (enqueue k1 d1 te Sched.init))).sched.inflight = [k1] ∧
    dispatchedAlong evs (processQueue settings true t0
        (enqueue k2 d2 te (enqueue k1 d1 te Sched.init))).sched = [] ∧
    ({ handleKey := k2, handle := d2, enqueuedAt := te } : Task) ∈
      (runEvents evs (processQueue settings true t0
        (enqueue k2 d2 te (enqueue k1 d1 te Sched.init))).sched).queue ∧
    k2 ∉ (runEvents evs (processQueue settings true t0
        (enqueue k2 d2 te (enqueue k1 d1 te Sched.init))).sched).inflight := by
  rw [scenario_first_activation settings hen h1 h5 k1 d1 k2 d2 te t0 hne]
  refine ⟨rfl, rfl, rfl, ?_⟩
  have h0 : SecondDeferred t0 { handleKey := k2, handle := d2, enqueuedAt := te }
      { queue := [{ handleKey := k2, handle := d2, enqueuedAt := te }]
        queued := [k2]
        inflight := [k1]
        requestTimes := [t0]
        activeScrapes := 1
        rateLimitUntil := JSNum.fin 0 } := by
    refine ⟨rfl, ⟨[], rfl⟩, ?_, ?_⟩
    · simp
    · simpa using fun h => hne h.symm
  obtain ⟨⟨_, ⟨more, hq⟩, _, hi⟩, hd⟩ := SecondDeferred_run t0 _ evs _ hevs h0
  refine ⟨hd, ?_, hi⟩
  rw [hq]
  exact List.mem_cons_self _ _

/-- Witness for C5: keys alice and bob, first activation at time 1000, then
the completion of the first fetch and two more activations at 1150 and 60999. -/
theorem rpm_one_two_keys_scenario_witness :
    (processQueue { DEFAULT_SETTINGS with
          maxRequestsPerMinute := JSVal.num (JSNum.fin 1)
          maxConcurrentTabs := JSVal.num (JSNum.fin 5) } true 1000
        (enqueue "bob" "bob" 990 (enqueue "alice" "Alice" 990 Sched.init))).dispatched =
      [{ handleKey := "alice", handle := "Alice", enqueuedAt := 990 }] ∧
    dispatchedAlong
      [Event.complete "alice" false DEFAULT_SETTINGS 1100,
       Event.activate { DEFAULT_SETTINGS with
          maxRequestsPerMinute := JSVal.num (JSNum.fin 1)
          maxConcurrentTabs := JSVal.num (JSNum.fin 5) } true 1150,
       Event.activate { DEFAULT_SETTINGS with
          maxRequestsPerMinute := JSVal.num (JSNum.fin 1)
          maxConcurrentTabs := JSVal.num (JSNum.fin 5) } true 60999]
      (processQueue { DEFAULT_SETTINGS with
          maxRequestsPerMinute := JSVal.num (JSNum.fin 1)
          maxConcurrentTabs := JSVal.num (JSNum.fin 5) } true 1000
        (enqueue "bob" "bob" 990 (enqueue "alice" "Alice" 990 Sched.init))).sched = [] :=
  have h := rpm_one_two_keys_scenario
    { DEFAULT_SETTINGS with
      maxRequestsPerMinute := JSVal.num (JSNum.fin 1)
      maxConcurrentTabs := JSVal.num (JSNum.fin 5) }
    (by decide) rfl rfl "alice" "Alice" "bob" "bob" 990 1000 (by decide)
    [Event.complete "alice" false DEFAULT_SETTINGS 1100,
     Event.activate { DEFAULT_SETTINGS with
        maxRequestsPerMinute := JSVal.num (JSNum.fin 1)
        maxConcurrentTabs := JSVal.num (JSNum.fin 5) } true 1150,
     Event.activate { DEFAULT_SETTINGS with
        maxRequestsPerMinute := JSVal.num (JSNum.fin 1)
        maxConcurrentTabs := JSVal.num (JSNum.fin 5) } true 60999]
    (by
      intro e he
      simp only [List.mem_cons, List.mem_singleton, List.not_mem_nil, or_false] at he
      rcases he with rfl | rfl | rfl
      · trivial
      · exact ⟨by decide, by decide⟩
      · exact ⟨by decide, by decide⟩)
  ⟨h.1, h.2.2.2.1⟩

/-! ### Effective caps -/

theorem JSNum.clamp_range (lo hi : ℚ) (hlh : lo ≤ hi) (n : JSNum) :
    JSNum.min (JSNum.fin hi) (JSNum.max (JSNum.fin lo) n) = JSNum.nan ∨
    ∃ q : ℚ, JSNum.min (JSNum.fin hi) (JSNum.max (JSNum.fin lo) n) = JSNum.fin q ∧
      lo ≤ q ∧ q ≤ hi := by
  have hmin : ∀ x : ℚ, lo ≤ x →
      ∃ q : ℚ, JSNum.min (JSNum.fin hi) (JSNum.fin x) = JSNum.fin q ∧ lo ≤ q ∧ q ≤ hi := by
    intro x hx
    by_cases h : x < hi
    · exact ⟨x, by simp [JSNum.min, JSNum.lt, h], hx, h.le⟩
    · exact ⟨hi, by simp [JSNum.min, JSNum.lt, h], hlh, le_refl _⟩
  cases n with
  | nan => left; rfl
  | negInf =>
    right
    have : JSNum.max (JSNum.fin lo) JSNum.negInf = JSNum.fin lo := by
      simp [JSNum.max, JSNum.lt]
    rw [this]
    exact hmin lo (le_refl _)
  | posInf =>
    right
    exact ⟨hi, by simp [JSNum.max, JSNum.min, JSNum.lt], hlh, le_refl _⟩
  | fin q =>
    right
    by_cases h1 : lo < q
    · have : JSNum.max (JSNum.fin lo) (JSNum.fin q) = JSNum.fin q := by
        simp [JSNum.max, JSNum.lt, h1]
      rw [this]
      exact hmin q h1.le
    · have : JSNum.max (JSNum.fin lo) (JSNum.fin q) = JSNum.fin lo := by
        simp [JSNum.max, JSNum.lt, h1]
      rw [this]
      exact hmin lo (le_refl _)

theorem effective_caps_range_or_nan (settings : Settings) :
    (effectiveRpm settings = JSNum.nan ∨
      ∃ q : ℚ, effectiveRpm settings = JSNum.fin q ∧ 1 ≤ q ∧ q ≤ 120) ∧
    (effectiveMaxTabs settings = JSNum.nan ∨
      ∃ q : ℚ, effectiveMaxTabs settings = JSNum.fin q ∧ 1 ≤ q ∧ q ≤ 10) :=
  ⟨JSNum.clamp_range 1 120 (by norm_num) _, JSNum.clamp_range 1 10 (by norm_num) _⟩

/-- C6 (the code at the failing input): with the stored value "abc" for
maxRequestsPerMinute and for maxConcurrentTabs, the effective rpm cap and the
effective concurrency cap computed by processQueue are both NaN, not numbers
in [1,120] and [1,10]; with these caps the admission check refuses every
dispatch and the concurrency test never stops the loop. -/
theorem effective_caps_nan_on_non_numeric :
    effectiveRpm { DEFAULT_SETTINGS with maxRequestsPerMinute := JSVal.str "abc" } =
      JSNum.nan ∧
    effectiveMaxTabs { DEFAULT_SETTINGS with maxConcurrentTabs := JSVal.str "abc" } =
      JSNum.nan ∧
    (pruneRequestTimes
      (effectiveRpm { DEFAULT_SETTINGS with maxRequestsPerMinute := JSVal.str "abc" })
      1000 Sched.init).1 = false ∧
    JSNum.ge (JSNum.ofInt 1000)
      (effectiveMaxTabs { DEFAULT_SETTINGS with maxConcurrentTabs := JSVal.str "abc" }) =
      false := by
  decide

/-! ### Freshness -/

/-- C7: for an available entry whose fetchedAt is a non-zero number f and a
cacheTTLdays setting d >= 1, isFresh is true exactly when the age now - f is
strictly less than d * 86400000 ms; in particular it is true at age
d * 86400000 - 1 and false at age d * 86400000. -/
theorem isFresh_boundary (e : Entry) (settings : Settings) (now : Int) (f d : ℚ)
    (hav : e.unavailable.truthy = false) (hf : e.fetchedAt = JSVal.num (JSNum.fin f))
    (hf0 : f ≠ 0) (hd : settings.cacheTTLdays = JSVal.num (JSNum.fin d)) (hd1 : 1 ≤ d) :
    (isFresh (some e) settings now = true ↔ (now : ℚ) - f < d * 86400000) ∧
    ((now : ℚ) - f = d * 86400000 - 1 → isFresh (some e) settings now = true) ∧
    ((now : ℚ) - f = d * 86400000 → isFresh (some e) settings now = false) := by
  have hd0 : d ≠ 0 := by
    intro h
    rw [h] at hd1
    norm_num at hd1
  have hmax : JSNum.max (JSNum.fin 1) (JSNum.fin d) = JSNum.fin d := by
    by_cases h : (1 : ℚ) < d
    · simp [JSNum.max, JSNum.lt, h]
    · have : d = 1 := le_antisymm (not_lt.1 h) hd1
      simp [JSNum.max, JSNum.lt, this]
  have key : isFresh (some e) settings now = decide ((now : ℚ) - f < d * 86400000) := by
    have ht : (JSVal.num (JSNum.fin f)).truthy = true := by
      simp [JSVal.truthy, JSNum.truthy, hf0]
    have hor : (JSVal.num (JSNum.fin d)).or (JSVal.num (JSNum.fin 30)) =
        JSVal.num (JSNum.fin d) := by
      simp [JSVal.or, JSVal.truthy, JSNum.truthy, hd0]
    simp only [isFresh, hf, hd, hav, ht, hor, JSVal.toNumber, hmax, JSNum.mul, JSNum.sub,
      JSNum.neg, JSNum.add, JSNum.ofInt, JSNum.lt, Bool.not_true, Bool.false_eq_true,
      if_false, sub_eq_add_neg]
  refine ⟨?_, ?_, ?_⟩
  · rw [key]
    simp
  · intro h
    rw [key, h]
    simp
  · intro h
    rw [key, h]
    simp

/-- Witness for C7: a complete entry fetched at time 1000 with the default TTL
of 30 days. -/
theorem isFresh_boundary_witness :
    (isFresh (some { makeUnavailable 0 with
        fetchedAt := JSVal.num (JSNum.fin 1000), unavailable := JSVal.bool false })
      DEFAULT_SETTINGS (30 * 86400000 + 1000) = false) :=
  (isFresh_boundary
    { makeUnavailable 0 with
      fetchedAt := JSVal.num (JSNum.fin 1000), unavailable := JSVal.bool false }
    DEFAULT_SETTINGS (30 * 86400000 + 1000) 1000 30 rfl rfl (by norm_num) rfl
    (by norm_num)).2.2 (by norm_num)

/-! ### Object maps -/

theorem ObjMap.get_set {α : Type} (m : ObjMap α) (k k2 : String) (v : α) :
    (m.set k v).get k2 = if k = k2 then some v else m.get k2 := by
  induction m with
  | nil =>
    by_cases h : k = k2 <;> simp [ObjMap.set, ObjMap.get, h]
  | cons p rest ih =>
    obtain ⟨k1, v1⟩ := p
    by_cases h1 : k1 = k
    · subst h1
      by_cases h : k1 = k2 <;> simp [ObjMap.set, ObjMap.get, h]
    · by_cases h2 : k1 = k2
      · subst h2
        simp [ObjMap.set, ObjMap.get, h1, Ne.symm h1]
      · simp [ObjMap.set, ObjMap.get, h1, h2, ih]

theorem ObjMap.get_append {α : Type} (a b : ObjMap α) (k : String) :
    ObjMap.get (a ++ b) k =
      match ObjMap.get a k with
      | some v => some v
      | none => ObjMap.get b k := by
  induction a with
  | nil => rfl
  | cons p rest ih =>
    obtain ⟨k1, v1⟩ := p
    by_cases h : k1 = k
    · simp [ObjMap.get, h]
    · simp only [List.cons_append, ObjMap.get, h, if_false]
      exact ih

theorem ObjMap.get_insertNew {α : Type} (m : ObjMap α) (k k2 : String) (v : α)
    (hk : m.get k = none) :
    (m.insertNew k v).get k2 = if k = k2 then some v else m.get k2 := by
  unfold ObjMap.insertNew
  cases arrayIndex k with
  | none =>
    rw [ObjMap.get_append]
    by_cases h : k = k2
    · subst h
      simp [hk, ObjMap.get]
    · cases hm : ObjMap.get m k2 <;> simp [ObjMap.get, h]
  | some n =>
    simp only
    have hsplit : m = m.takeWhile (indexBefore n) ++ m.dropWhile (indexBefore n) :=
      (List.takeWhile_append_dropWhile _ _).symm
    have hget : ∀ x, ObjMap.get m x =
        match ObjMap.get (m.takeWhile (indexBefore n)) x with
        | some w => some w
        | none => ObjMap.get (m.dropWhile (indexBefore n)) x := by
      intro x
      conv_lhs => rw [hsplit]
      exact ObjMap.get_append _ _ x
    rw [ObjMap.get_append]
    by_cases h : k = k2
    · subst h
      have h1 := hget k
      rw [hk] at h1
      cases ht : ObjMap.get (m.takeWhile (indexBefore n)) k with
      | some w => rw [ht] at h1; cases h1
      | none => simp [ObjMap.get]
    · rw [hget k2]
      cases ht : ObjMap.get (m.takeWhile (indexBefore n)) k2 <;> simp [ObjMap.get, h]

theorem ObjMap.get_assign {α : Type} (m : ObjMap α) (k k2 : String) (v : α) :
    (m.assign k v).get k2 =
      if k = "__proto__" then m.get k2 else if k = k2 then some v else m.get k2 := by
  unfold ObjMap.assign
  by_cases hp : k = "__proto__"
  · simp [hp]
  · simp only [hp, if_false]
    cases hk : ObjMap.get m k with
    | some w =>
      simp only [Option.isSome_some, if_true]
      exact ObjMap.get_set m k k2 v
    | none =>
      simp only [Option.isSome_none, Bool.false_eq_true, if_false]
      exact ObjMap.get_insertNew m k k2 v hk

theorem ObjMap.assign_nil {α : Type} (k : String) (v : α) (hp : k ≠ "__proto__") :
    ObjMap.assign ([] : ObjMap α) k v = [(k, v)] := by
  unfold ObjMap.assign ObjMap.insertNew
  simp only [hp, if_false, ObjMap.get, Option.isSome_none, Bool.false_eq_true]
  cases arrayIndex k <;> rfl

theorem ObjMap.assign_proto {α : Type} (m : ObjMap α) (v : α) :
    m.assign "__proto__" v = m := by
  simp [ObjMap.assign]

/-! ### The request handler -/

theorem requestOne_none (settings : Settings) (paused : Bool) (now : Int)
    (acc : ObjMap UserResult × State) (h : String) (hn : normalizeHandle h = none) :
    requestOne settings paused now acc h = acc := by
  simp [requestOne, hn]

theorem requestOne_some (settings : Settings) (paused : Bool) (now : Int)
    (acc : ObjMap UserResult × State) (h : String) (norm : NormalizedHandle)
    (hn : normalizeHandle h = some norm) :
    requestOne settings paused now acc h =
      (acc.1.assign norm.handleKey
          { status :=
              if enqueuesFor settings paused now (acc.2.users.get norm.handleKey) then "queued"
              else "fresh"
            user := acc.2.users.get norm.handleKey },
        if enqueuesFor settings paused now (acc.2.users.get norm.handleKey) then
          { acc.2 with sched := enqueue norm.handleKey norm.displayHandle now acc.2.sched }
        else acc.2) := by
  simp only [requestOne, hn, enqueuesFor]
  split
  · simp
  · split
    · split <;> simp_all
    · simp

theorem requestOne_users (settings : Settings) (paused : Bool) (now : Int)
    (acc : ObjMap UserResult × State) (h : String) :
    (requestOne settings paused now acc h).2.users = acc.2.users := by
  cases hn : normalizeHandle h with
  | none => rw [requestOne_none _ _ _ _ _ hn]
  | some norm =>
    rw [requestOne_some _ _ _ _ _ norm hn]
    simp only
    split <;> rfl

theorem requestFold_users (settings : Settings) (paused : Bool) (now : Int)
    (hs : List String) :
    ∀ acc : ObjMap UserResult × State,
      (hs.foldl (requestOne settings paused now) acc).2.users = acc.2.users := by
  induction hs with
  | nil => intro acc; rfl
  | cons h rest ih =>
    intro acc
    rw [List.foldl_cons, ih, requestOne_users]

theorem requestFold_result_untouched (settings : Settings) (paused : Bool) (now : Int)
    (hk : String) (hs : List String) :
    ∀ acc : ObjMap UserResult × State,
      (∀ h ∈ hs, ∀ n, normalizeHandle h = some n → n.handleKey ≠ hk) →
      (hs.foldl (requestOne settings paused now) acc).1.get hk = acc.1.get hk := by
  induction hs with
  | nil => intro acc _; rfl
  | cons h rest ih =>
    intro acc hno
    rw [List.foldl_cons, ih _ (fun h2 hm => hno h2 (List.mem_cons_of_mem _ hm))]
    cases hn : normalizeHandle h with
    | none => rw [requestOne_none _ _ _ _ _ hn]
    | some norm =>
      rw [requestOne_some _ _ _ _ _ norm hn]
      simp only [ObjMap.get_assign]
      rw [if_neg (hno h (List.mem_cons_self _ _) norm hn)]
      simp

theorem requestFold_proto (settings : Settings) (paused : Bool) (now : Int)
    (hs : List String) :
    ∀ acc : ObjMap UserResult × State,
      (hs.foldl (requestOne settings paused now) acc).1.get "__proto__" =
        acc.1.get "__proto__" := by
  induction hs with
  | nil => intro acc; rfl
  | cons h rest ih =>
    intro acc
    rw [List.foldl_cons, ih]
    cases hn : normalizeHandle h with
    | none => rw [requestOne_none _ _ _ _ _ hn]
    | some norm =>
      rw [requestOne_some _ _ _ _ _ norm hn]
      simp only [ObjMap.get_assign]
      by_cases hp : norm.handleKey = "__proto__"
      · rw [if_pos hp]
      · rw [if_neg hp, if_neg hp]

theorem requestFold_result (settings : Settings) (paused : Bool) (now : Int)
    (hk : String) (hproto : hk ≠ "__proto__") (hs : List String) :
    ∀ acc : ObjMap UserResult × State,
      (∃ h ∈ hs, ∃ n, normalizeHandle h = some n ∧ n.handleKey = hk) →
      (hs.foldl (requestOne settings paused now) acc).1.get hk =
        some { status :=
                 if enqueuesFor settings paused now (acc.2.users.get hk) then "queued"
                 else "fresh"
               user := acc.2.users.get hk } := by
  induction hs with
  | nil => intro acc hex; obtain ⟨h, hm, _⟩ := hex; cases hm
  | cons h rest ih =>
    intro acc hex
    rw [List.foldl_cons]
    by_cases hlater : ∃ h2 ∈ rest, ∃ n, normalizeHandle h2 = some n ∧ n.handleKey = hk
    · rw [ih _ hlater, requestOne_users]
    · have hno : ∀ h2 ∈ rest, ∀ n, normalizeHandle h2 = some n → n.handleKey ≠ hk := by
        intro h2 hm n hn hkey
        exact hlater ⟨h2, hm, n, hn, hkey⟩
      rw [requestFold_result_untouched _ _ _ _ _ _ hno]
      obtain ⟨h2, hm, n, hn, hkey⟩ := hex
      rcases List.mem_cons.1 hm with rfl | hm
      · rw [requestOne_some _ _ _ _ _ n hn]
        subst hkey
        simp [ObjMap.get_assign, hproto]
      · exact absurd ⟨h2, hm, n, hn, hkey⟩ hlater

theorem requestUsers_enabled (settings : Settings) (now : Int) (handles : List String)
    (st : State) (hen : settings.enabled.truthy = true) :
    requestUsers settings now handles st =
      (handles.take 400).foldl
        (requestOne settings (isPausedForRateLimit now st.sched) now) ([], st) := by
  simp [requestUsers, hen]

theorem enqueue_inflight (k d : String) (now : Int) (s : Sched) :
    (enqueue k d now s).inflight = s.inflight := by
  unfold enqueue
  split <;> rfl

theorem enqueue_queued_mono (k d : String) (now : Int) (s : Sched) (x : String)
    (hx : x ∈ s.queued) : x ∈ (enqueue k d now s).queued := by
  unfold enqueue
  split
  · exact hx
  · exact (mem_setAdd _ _ _).2 (Or.inl hx)

theorem enqueue_held (k d : String) (now : Int) (s : Sched) :
    k ∈ (enqueue k d now s).queued ∨ k ∈ (enqueue k d now s).inflight := by
  unfold enqueue
  by_cases hq : k ∈ s.queued
  · simp [setHas, hq]
  · by_cases hi : k ∈ s.inflight
    · simp [setHas, hi]
    · simp [setHas, hq, hi, mem_setAdd]

theorem enqueue_other (k d : String) (now : Int) (s : Sched) (hk : String) (hne : k ≠ hk) :
    (enqueue k d now s).queue.filter (fun t => decide (t.handleKey = hk)) =
      s.queue.filter (fun t => decide (t.handleKey = hk)) ∧
    (hk ∈ (enqueue k d now s).queued ↔ hk ∈ s.queued) := by
  unfold enqueue
  split
  · exact ⟨rfl, Iff.rfl⟩
  · refine ⟨by simp [List.filter_append, List.filter_cons, hne], ?_⟩
    simp only [mem_setAdd]
    constructor
    · rintro (h | h)
      · exact h
      · exact absurd h.symm hne
    · exact Or.inl

theorem requestOne_sched_held (settings : Settings) (paused : Bool) (now : Int)
    (acc : ObjMap UserResult × State) (h : String) (x : String)
    (hx : x ∈ acc.2.sched.queued ∨ x ∈ acc.2.sched.inflight) :
    x ∈ (requestOne settings paused now acc h).2.sched.queued ∨
      x ∈ (requestOne settings paused now acc h).2.sched.inflight := by
  cases hn : normalizeHandle h with
  | none => rw [requestOne_none _ _ _ _ _ hn]; exact hx
  | some norm =>
    rw [requestOne_some _ _ _ _ _ norm hn]
    simp only
    split
    · rcases hx with hx | hx
      · exact Or.inl (enqueue_queued_mono _ _ _ _ _ hx)
      · right
        simpa only [enqueue_inflight] using hx
    · exact hx

theorem requestFold_sched_held (settings : Settings) (paused : Bool) (now : Int)
    (x : String) (hs : List String) :
    ∀ acc : ObjMap UserResult × State,
      (x ∈ acc.2.sched.queued ∨ x ∈ acc.2.sched.inflight) →
      (x ∈ (hs.foldl (requestOne settings paused now) acc).2.sched.queued ∨
        x ∈ (hs.foldl (requestOne settings paused now) acc).2.sched.inflight) := by
  induction hs with
  | nil => intro acc hx; exact hx
  | cons h rest ih =>
    intro acc hx
    rw [List.foldl_cons]
    exact ih _ (requestOne_sched_held _ _ _ _ _ _ hx)

theorem requestFold_enqueued (settings : Settings) (paused : Bool) (now : Int)
    (hk : String) (hs : List String) :
    ∀ acc : ObjMap UserResult × State,
      (∃ h ∈ hs, ∃ n, normalizeHandle h = some n ∧ n.handleKey = hk) →
      enqueuesFor settings paused now (acc.2.users.get hk) = true →
      (hk ∈ (hs.foldl (requestOne settings paused now) acc).2.sched.queued ∨
        hk ∈ (hs.foldl (requestOne settings paused now) acc).2.sched.inflight) := by
  induction hs with
  | nil => intro acc hex; obtain ⟨h, hm, _⟩ := hex; cases hm
  | cons h rest ih =>
    intro acc hex henq
    rw [List.foldl_cons]
    obtain ⟨h2, hm, n, hn, hkey⟩ := hex
    rcases List.mem_cons.1 hm with rfl | hm
    · apply requestFold_sched_held
      rw [requestOne_some _ _ _ _ _ n hn]
      subst hkey
      simp only [henq, if_true]
      exact enqueue_held _ _ _ _
    · apply ih _ ⟨h2, hm, n, hn, hkey⟩
      rw [requestOne_users]
      exact henq

theorem requestFold_not_enqueued (settings : Settings) (paused : Bool) (now : Int)
    (hk : String) (hs : List String) :
    ∀ acc : ObjMap UserResult × State,
      enqueuesFor settings paused now (acc.2.users.get hk) = false →
      (hs.foldl (requestOne settings paused now) acc).2.sched.queue.filter
          (fun t => decide (t.handleKey = hk)) =
        acc.2.sched.queue.filter (fun t => decide (t.handleKey = hk)) ∧
      (hk ∈ (hs.foldl (requestOne settings paused now) acc).2.sched.queued ↔
        hk ∈ acc.2.sched.queued) := by
  induction hs with
  | nil => intro acc _; exact ⟨rfl, Iff.rfl⟩
  | cons h rest ih =>
    intro acc henq
    rw [List.foldl_cons]
    have hstep :
        (requestOne settings paused now acc h).2.sched.queue.filter
            (fun t => decide (t.handleKey = hk)) =
          acc.2.sched.queue.filter (fun t => decide (t.handleKey = hk)) ∧
        (hk ∈ (requestOne settings paused now acc h).2.sched.queued ↔
          hk ∈ acc.2.sched.queued) := by
      cases hn : normalizeHandle h with
      | none => rw [requestOne_none _ _ _ _ _ hn]; exact ⟨rfl, Iff.rfl⟩
      | some norm =>
        rw [requestOne_some _ _ _ _ _ norm hn]
        simp only
        split
        · next hq =>
          have hne : norm.handleKey ≠ hk := by
            rintro rfl
            rw [henq] at hq
            cases hq
          exact enqueue_other _ _ _ _ _ hne
        · exact ⟨rfl, Iff.rfl⟩
    have hrest := ih (requestOne settings paused now acc h)
      (by rw [requestOne_users]; exact henq)
    exact ⟨hrest.1.trans hstep.1, hrest.2.trans hstep.2⟩

/-- C8 (the code at the failing input): the cache holds for "alice" an
unavailable entry fetched at time 1000 and the unavailable-entry TTL is the
default 24 hours; a request for "alice" at time 2000, when the entry is one
second old and isFresh still holds for it, answers status queued and enqueues
the key. -/
theorem unavailable_entry_enqueued_before_ttl :
    isFresh (some (makeUnavailable 1000)) DEFAULT_SETTINGS 2000 = true ∧
    requestUsers DEFAULT_SETTINGS 2000 ["alice"]
        { users := [("alice", makeUnavailable 1000)], sched := Sched.init } =
      ([("alice", { status := "queued", user := some (makeUnavailable 1000) })],
       { users := [("alice", makeUnavailable 1000)],
         sched :=
           { Sched.init with
             queue := [{ handleKey := "alice", handle := "alice", enqueuedAt := 2000 }]
             queued := ["alice"] } }) := by
  have hn : normalizeHandle "alice" =
      some { handleKey := "alice", displayHandle := "alice" } := by decide
  refine ⟨?_, ?_⟩
  · norm_num [isFresh, makeUnavailable, DEFAULT_SETTINGS, unavailableTtlMs, JSVal.truthy,
      JSNum.truthy, JSVal.or, JSVal.toNumber, JSNum.max, JSNum.mul, JSNum.sub, JSNum.neg,
      JSNum.add, JSNum.ofInt, JSNum.lt]
  · have ha := fun v : UserResult => ObjMap.assign_nil "alice" v (by decide)
    simp [requestUsers, requestOne, hn, cachedUnavailable, ObjMap.get, ha,
      makeUnavailable, DEFAULT_SETTINGS, JSVal.truthy, enqueue, setHas, setAdd, Sched.init]

/-- C9 (counterexample): the entry for "alice" is available, fresh by TTL,
has followers null and was fetched 99 seconds ago, yet a request made while
the global pause is active answers status fresh and enqueues nothing. -/
theorem partial_retry_counterexample :
    partialEntry.unavailable.truthy = false ∧
    isFresh (some partialEntry) DEFAULT_SETTINGS 100000 = true ∧
    partialEntry.followers.isNullish = true ∧
    JSNum.gt (JSNum.sub (JSNum.ofInt 100000) partialEntry.fetchedAt.toNumber)
      (JSNum.fin 30000) = true ∧
    requestUsers DEFAULT_SETTINGS 100000 ["alice"]
        { users := [("alice", partialEntry)],
          sched := { Sched.init with rateLimitUntil := JSNum.fin 200000 } } =
      ([("alice", { status := "fresh", user := some partialEntry })],
       { users := [("alice", partialEntry)],
         sched := { Sched.init with rateLimitUntil := JSNum.fin 200000 } }) := by
  have hn : normalizeHandle "alice" =
      some { handleKey := "alice", displayHandle := "alice" } := by decide
  have hfresh : isFresh (some partialEntry) DEFAULT_SETTINGS 100000 = true := by
    norm_num [isFresh, partialEntry, DEFAULT_SETTINGS, JSVal.truthy, JSNum.truthy, JSVal.or,
      JSVal.toNumber, JSNum.max, JSNum.mul, JSNum.sub, JSNum.neg, JSNum.add, JSNum.ofInt,
      JSNum.lt]
  have hpaused : isPausedForRateLimit 100000
      { Sched.init with rateLimitUntil := JSNum.fin 200000 } = true := by
    norm_num [isPausedForRateLimit, JSNum.truthy, JSNum.lt, JSNum.ofInt]
  refine ⟨rfl, hfresh, rfl, ?_, ?_⟩
  · norm_num [partialEntry, JSVal.toNumber, JSNum.gt, JSNum.sub, JSNum.neg, JSNum.add,
      JSNum.ofInt, JSNum.lt]
  · have ht : List.take 400 ["alice"] = ["alice"] := rfl
    have hu : cachedUnavailable (some partialEntry) = false := rfl
    have he : enqueuesFor DEFAULT_SETTINGS true 100000 (some partialEntry) = false := by
      simp [enqueuesFor, hu, hfresh]
    have hg : ObjMap.get [("alice", partialEntry)] "alice" = some partialEntry := by
      simp [ObjMap.get]
    rw [requestUsers_enabled _ _ _ _ (by decide), ht, List.foldl_cons, List.foldl_nil,
      requestOne_some _ _ _ _ _ _ hn, hpaused]
    simp only [hg, he]
    rw [ObjMap.assign_nil "alice" _ (by decide)]
    simp

theorem fetchedAt_truthy_of_isFresh (e : Entry) (settings : Settings) (now : Int)
    (hfresh : isFresh (some e) settings now = true) : e.fetchedAt.truthy = true := by
  by_contra hc
  have hf : e.fetchedAt.truthy = false := by simpa using hc
  simp [isFresh, hf] at hfresh

theorem enqueuesFor_fresh_available (settings : Settings) (paused : Bool) (now : Int)
    (e : Entry) (hav : e.unavailable.truthy = false)
    (hfresh : isFresh (some e) settings now = true) :
    enqueuesFor settings paused now (some e) =
      (!paused && ((e.followers.isNullish || e.following.isNullish) &&
        JSNum.gt (JSNum.sub (JSNum.ofInt now) e.fetchedAt.toNumber) (JSNum.fin 30000))) := by
  have hft := fetchedAt_truthy_of_isFresh e settings now hfresh
  have hor : e.fetchedAt.or (JSVal.num (JSNum.fin 0)) = e.fetchedAt := by
    simp [JSVal.or, hft]
  simp only [enqueuesFor, cachedUnavailable, hav, hfresh, shouldRetryMissing, hor,
    Option.isSome_some, Bool.and_self, Bool.false_eq_true, if_false, if_true]
  cases e.followers.isNullish <;> cases e.following.isNullish <;> simp

/-- C9 (amended): for a cached entry that is available and fresh by TTL,
requested among the first 400 handles of a batch with the feature enabled:
when followers or following is null/undefined, more than 30000 ms have passed
since its fetchedAt and the global pause is not active, the key is enqueued
(it is in the queued or the in-flight set after the call) and, unless the key
is `__proto__`, it is reported queued with the cached entry; when both
headline fields are present, or at most 30000 ms have passed, or the pause is
active, the key is not enqueued (its tasks in the queue and its membership of
the queued set are as before the call) and, unless the key is `__proto__`, it
is reported fresh with the cached entry. The results object is an object
literal, so nothing is ever reported under the key `__proto__`. -/
theorem partial_entry_retry_unless_paused (settings : Settings) (now : Int)
    (handles : List String) (st : State) (h : String) (norm : NormalizedHandle) (e : Entry)
    (hen : settings.enabled.truthy = true) (hmem : h ∈ handles.take 400)
    (hnorm : normalizeHandle h = some norm)
    (hc : st.users.get norm.handleKey = some e) (hav : e.unavailable.truthy = false)
    (hfresh : isFresh (some e) settings now = true) :
    (((e.followers.isNullish = true ∨ e.following.isNullish = true) ∧
        JSNum.gt (JSNum.sub (JSNum.ofInt now) e.fetchedAt.toNumber) (JSNum.fin 30000) = true ∧
        isPausedForRateLimit now st.sched = false) →
      (norm.handleKey ≠ "__proto__" →
        (requestUsers settings now handles st).1.get norm.handleKey =
          some { status := "queued", user := some e }) ∧
        (norm.handleKey ∈ (requestUsers settings now handles st).2.sched.queued ∨
          norm.handleKey ∈ (requestUsers settings now handles st).2.sched.inflight)) ∧
    (((e.followers.isNullish = false ∧ e.following.isNullish = false) ∨
        JSNum.gt (JSNum.sub (JSNum.ofInt now) e.fetchedAt.toNumber) (JSNum.fin 30000) = false ∨
        isPausedForRateLimit now st.sched = true) →
      (norm.handleKey ≠ "__proto__" →
        (requestUsers settings now handles st).1.get norm.handleKey =
          some { status := "fresh", user := some e }) ∧
        (requestUsers settings now handles st).2.sched.queue.filter
            (fun t => decide (t.handleKey = norm.handleKey)) =
          st.sched.queue.filter (fun t => decide (t.handleKey = norm.handleKey)) ∧
        (norm.handleKey ∈ (requestUsers settings now handles st).2.sched.queued ↔
          norm.handleKey ∈ st.sched.queued)) ∧
    (requestUsers settings now handles st).1.get "__proto__" = none := by
  have hex : ∃ h2 ∈ handles.take 400, ∃ n, normalizeHandle h2 = some n ∧
      n.handleKey = norm.handleKey := ⟨h, hmem, norm, hnorm, rfl⟩
  have hres := fun hp => requestFold_result settings (isPausedForRateLimit now st.sched) now
    norm.handleKey hp (handles.take 400) ([], st) hex
  have hcls := enqueuesFor_fresh_available settings (isPausedForRateLimit now st.sched) now e
    hav hfresh
  rw [requestUsers_enabled settings now handles st hen]
  simp only [hc] at hres
  refine ⟨?_, ?_, ?_⟩
  · rintro ⟨hmiss, hage, hp⟩
    have henq : enqueuesFor settings (isPausedForRateLimit now st.sched) now (some e) = true := by
      rw [hcls, hp, hage]
      rcases hmiss with hm | hm <;> simp [hm]
    refine ⟨?_, ?_⟩
    · intro hproto
      rw [hres hproto, henq]
      rfl
    · apply requestFold_enqueued _ _ _ _ _ _ hex
      simp only [hc]
      exact henq
  · intro hcase
    have henq : enqueuesFor settings (isPausedForRateLimit now st.sched) now (some e) =
        false := by
      rw [hcls]
      rcases hcase with ⟨h1, h2⟩ | hage | hp
      · simp [h1, h2]
      · simp [hage]
      · simp [hp]
    refine ⟨?_, ?_⟩
    · intro hproto
      rw [hres hproto, henq]
      rfl
    · apply requestFold_not_enqueued
      simp only [hc]
      exact henq
  · rw [requestFold_proto]
    rfl

/-- Witness for C9: the entry for "alice" with followers null, fetched at time
1000 and requested at time 100000 with no pause, is reported queued. -/
theorem partial_entry_retry_unless_paused_witness :
    (requestUsers DEFAULT_SETTINGS 100000 ["alice"]
        { users := [("alice", partialEntry)], sched := Sched.init }).1.get "alice" =
      some { status := "queued", user := some partialEntry } :=
  (((partial_entry_retry_unless_paused DEFAULT_SETTINGS 100000 ["alice"]
      { users := [("alice", partialEntry)], sched := Sched.init } "alice"
      { handleKey := "alice", displayHandle := "alice" } partialEntry
      (by decide) (by decide) (by decide) (by decide) rfl
      (by norm_num [isFresh, partialEntry, DEFAULT_SETTINGS, JSVal.truthy, JSNum.truthy,
        JSVal.or, JSVal.toNumber, JSNum.max, JSNum.mul, JSNum.sub, JSNum.neg, JSNum.add,
        JSNum.ofInt, JSNum.lt])).1
    ⟨Or.inl rfl,
     by norm_num [partialEntry, JSVal.toNumber, JSNum.gt, JSNum.sub, JSNum.neg, JSNum.add,
        JSNum.ofInt, JSNum.lt],
     by decide⟩).1) (by decide)

/-- The request never changes the cache; and with the feature enabled, for
every handle among the first 400 of the batch that normalizes to a key other
than `__proto__`, the results object holds for that key an answer whose status
is fresh or queued and whose value is the cache entry held for the key before
the call, or null when there is none. Nothing is reported under `__proto__`. -/
theorem request_answers_for_other_keys (settings : Settings) (now : Int)
    (handles : List String) (st : State) :
    (requestUsers settings now handles st).2.users = st.users ∧
    (settings.enabled.truthy = true →
      ∀ h ∈ handles.take 400, ∀ norm, normalizeHandle h = some norm →
        norm.handleKey ≠ "__proto__" →
        ∃ r : UserResult,
          (requestUsers settings now handles st).1.get norm.handleKey = some r ∧
          (r.status = "fresh" ∨ r.status = "queued") ∧
          r.user = st.users.get norm.handleKey) ∧
    (requestUsers settings now handles st).1.get "__proto__" = none := by
  refine ⟨?_, ?_, ?_⟩
  · unfold requestUsers
    split
    · rfl
    · exact requestFold_users _ _ _ _ _
  · intro hen h hmem norm hnorm hproto
    have hex : ∃ h2 ∈ handles.take 400, ∃ n, normalizeHandle h2 = some n ∧
        n.handleKey = norm.handleKey := ⟨h, hmem, norm, hnorm, rfl⟩
    have hres := requestFold_result settings (isPausedForRateLimit now st.sched) now
      norm.handleKey hproto (handles.take 400) ([], st) hex
    rw [requestUsers_enabled settings now handles st hen, hres]
    refine ⟨_, rfl, ?_, rfl⟩
    simp only
    split
    · exact Or.inr rfl
    · exact Or.inl rfl
  · unfold requestUsers
    split
    · rfl
    · rw [requestFold_proto]
      rfl

/-- C10 (the code at the failing input): with the feature enabled and an empty
cache, the batch ["alice", "__proto__"] holds two handles that normalize to a
key; both keys are enqueued, but the results object carries an answer for
alice only: the write `results['__proto__'] = ...` on the object literal
creates no property, so the key `__proto__` has no result. -/
theorem request_gives_no_answer_for_proto :
    normalizeHandle "__proto__" =
      some { handleKey := "__proto__", displayHandle := "__proto__" } ∧
    requestUsers DEFAULT_SETTINGS 5000 ["alice", "__proto__"]
        { users := [], sched := Sched.init } =
      ([("alice", { status := "queued", user := none })],
       { users := [],
         sched :=
           { Sched.init with
             queue := [{ handleKey := "alice", handle := "alice", enqueuedAt := 5000 },
                       { handleKey := "__proto__", handle := "__proto__", enqueuedAt := 5000 }]
             queued := ["alice", "__proto__"] } }) ∧
    (requestUsers DEFAULT_SETTINGS 5000 ["alice", "__proto__"]
        { users := [], sched := Sched.init }).1.get "__proto__" = none := by
  have hn1 : normalizeHandle "alice" =
      some { handleKey := "alice", displayHandle := "alice" } := by decide
  have hn2 : normalizeHandle "__proto__" =
      some { handleKey := "__proto__", displayHandle := "__proto__" } := by decide
  have ha := fun v : UserResult => ObjMap.assign_nil "alice" v (by decide)
  have hreq : requestUsers DEFAULT_SETTINGS 5000 ["alice", "__proto__"]
        { users := [], sched := Sched.init } =
      ([("alice", { status := "queued", user := none })],
       { users := [],
         sched :=
           { Sched.init with
             queue := [{ handleKey := "alice", handle := "alice", enqueuedAt := 5000 },
                       { handleKey := "__proto__", handle := "__proto__", enqueuedAt := 5000 }]
             queued := ["alice", "__proto__"] } }) := by
    simp [requestUsers, requestOne, hn1, hn2, cachedUnavailable, ObjMap.get, ha,
      ObjMap.assign_proto, DEFAULT_SETTINGS, JSVal.truthy, enqueue, setHas, setAdd, Sched.init]
  refine ⟨hn2, hreq, ?_⟩
  rw [hreq]
  rfl

theorem requestFold_result_origin (settings : Settings) (paused : Bool) (now : Int)
    (hk : String) (hs : List String) (st : State) (r : UserResult)
    (hr : (hs.foldl (requestOne settings paused now) ([], st)).1.get hk = some r) :
    (∃ h ∈ hs, ∃ n, normalizeHandle h = some n ∧ n.handleKey = hk) ∧
    r.status = (if enqueuesFor settings paused now (st.users.get hk) then "queued"
      else "fresh") := by
  have hproto : hk ≠ "__proto__" := by
    rintro rfl
    rw [requestFold_proto] at hr
    cases hr
  by_cases hex : ∃ h ∈ hs, ∃ n, normalizeHandle h = some n ∧ n.handleKey = hk
  · refine ⟨hex, ?_⟩
    rw [requestFold_result settings paused now hk hproto hs ([], st) hex] at hr
    cases hr
    rfl
  · have hno : ∀ h ∈ hs, ∀ n, normalizeHandle h = some n → n.handleKey ≠ hk := by
      intro h hm n hn hkey
      exact hex ⟨h, hm, n, hn, hkey⟩
    rw [requestFold_result_untouched settings paused now hk hs ([], st) hno] at hr
    cases hr

/-- C11: every key that the response of the request handler reports with
status queued is, right after the call, in the queued set or in the in-flight
set; every key reported fresh is not enqueued by the call (its tasks in the
queue and its membership of the queued set are as before the call). -/
theorem reported_status_matches_enqueue (settings : Settings) (now : Int)
    (handles : List String) (st : State) (hk : String) (r : UserResult)
    (hr : (requestUsers settings now handles st).1.get hk = some r) :
    (r.status = "queued" →
      hk ∈ (requestUsers settings now handles st).2.sched.queued ∨
      hk ∈ (requestUsers settings now handles st).2.sched.inflight) ∧
    (r.status = "fresh" →
      (requestUsers settings now handles st).2.sched.queue.filter
          (fun t => decide (t.handleKey = hk)) =
        st.sched.queue.filter (fun t => decide (t.handleKey = hk)) ∧
      (hk ∈ (requestUsers settings now handles st).2.sched.queued ↔
        hk ∈ st.sched.queued)) := by
  by_cases hen : settings.enabled.truthy = true
  · rw [requestUsers_enabled settings now handles st hen] at hr ⊢
    obtain ⟨hex, hst⟩ := requestFold_result_origin settings
      (isPausedForRateLimit now st.sched) now hk (handles.take 400) st r hr
    constructor
    · intro hq
      apply requestFold_enqueued _ _ _ _ _ _ hex
      by_contra hc
      rw [if_neg hc] at hst
      rw [hst] at hq
      exact absurd hq (by decide)
    · intro hf
      apply requestFold_not_enqueued
      by_contra hc
      have hc2 : enqueuesFor settings (isPausedForRateLimit now st.sched) now
          (st.users.get hk) = true := by simpa using hc
      rw [if_pos hc2] at hst
      rw [hst] at hf
      exact absurd hf (by decide)
  · have hd : requestUsers settings now handles st = ([], st) := by
      simp [requestUsers, hen]
    rw [hd] at hr
    cases hr

/-- Witness for C11: alice has no cache entry and is reported queued. -/
theorem reported_status_matches_enqueue_witness :
    "alice" ∈ (requestUsers DEFAULT_SETTINGS 5000 ["alice"]
        { users := [], sched := Sched.init }).2.sched.queued ∨
    "alice" ∈ (requestUsers DEFAULT_SETTINGS 5000 ["alice"]
        { users := [], sched := Sched.init }).2.sched.inflight :=
  (reported_status_matches_enqueue DEFAULT_SETTINGS 5000 ["alice"]
    { users := [], sched := Sched.init } "alice" { status := "queued", user := none }
    (by decide)).1 rfl

/-! ### Handle normalisation -/

theorem normalizeHandle_eq_core (handle : String) :
    normalizeHandle handle =
      if handle = "" then none
      else if isWellFormedHandle (handleCore handle) then
        some { handleKey := String.mk ((handleCore handle).map Char.toLower)
               displayHandle := String.mk (handleCore handle) }
      else none := by
  rfl

theorem isHandleChar_not_space (c : Char) (h : isHandleChar c = true) :
    isStrWhiteSpace c = false := by
  unfold isHandleChar at h
  unfold isStrWhiteSpace
  simp only [Bool.or_eq_true, Bool.and_eq_true, decide_eq_true_eq] at h
  simp only [Bool.or_eq_false_iff, Bool.and_eq_false_iff, decide_eq_false_iff_not]
  omega

theorem isHandleChar_ne_at (c : Char) (h : isHandleChar c = true) : c ≠ '@' := by
  rintro rfl
  revert h
  decide

theorem upper_cases (c : Char) (h1 : 65 ≤ c.toNat) (h2 : c.toNat ≤ 90) :
    isHandleChar c = true ∧ isKeyChar c.toLower = true ∧ isHandleChar c.toLower = true := by
  have hc : c = Char.ofNat c.toNat := (Char.ofNat_toNat c).symm
  generalize c.toNat = n at hc h1 h2
  subst hc
  interval_cases n <;> decide

theorem toLower_of_not_upper (c : Char) (h : ¬ (65 ≤ c.toNat ∧ c.toNat ≤ 90)) :
    c.toLower = c := by
  unfold Char.toLower
  simp only [ge_iff_le]
  rw [if_neg h]

theorem isHandleChar_toLower (c : Char) (h : isHandleChar c = true) :
    isKeyChar c.toLower = true ∧ isHandleChar c.toLower = true := by
  by_cases hu : 65 ≤ c.toNat ∧ c.toNat ≤ 90
  · exact (upper_cases c hu.1 hu.2).2
  · rw [toLower_of_not_upper c hu]
    refine ⟨?_, h⟩
    unfold isHandleChar at h
    unfold isKeyChar
    simp only [Bool.or_eq_true, Bool.and_eq_true, decide_eq_true_eq] at h ⊢
    omega

theorem isKeyChar_toLower (c : Char) (h : isKeyChar c = true) : c.toLower = c := by
  apply toLower_of_not_upper
  unfold isKeyChar at h
  simp only [Bool.or_eq_true, Bool.and_eq_true, decide_eq_true_eq] at h
  omega

theorem isHandleChar_of_toLower_eq (c c2 : Char) (h : isHandleChar c = true)
    (he : c2.toLower = c.toLower) : isHandleChar c2 = true := by
  by_cases hu : 65 ≤ c2.toNat ∧ c2.toNat ≤ 90
  · exact (upper_cases c2 hu.1 hu.2).1
  · rw [toLower_of_not_upper c2 hu] at he
    rw [he]
    exact (isHandleChar_toLower c h).2

theorem dropWhile_all (p : Char → Bool) (ws : List Char) (rest : List Char)
    (h : ∀ c ∈ ws, p c = true) : (ws ++ rest).dropWhile p = rest.dropWhile p := by
  induction ws with
  | nil => rfl
  | cons c cs ih =>
    have hc := h c (List.mem_cons_self _ _)
    simp only [List.cons_append, List.dropWhile_cons, hc, if_true]
    exact ih (fun x hx => h x (List.mem_cons_of_mem _ hx))

theorem dropWhile_none (p : Char → Bool) (l : List Char) (rest : List Char)
    (h : ∀ c ∈ l, p c = false) (hrest : l = [] → rest.dropWhile p = rest) :
    (l ++ rest).dropWhile p = l ++ rest := by
  cases l with
  | nil => simpa using hrest rfl
  | cons c cs =>
    have hc := h c (List.mem_cons_self _ _)
    simp [List.dropWhile_cons, hc]

theorem trimChars_padded (ws1 body ws2 : List Char)
    (h1 : ∀ c ∈ ws1, isStrWhiteSpace c = true) (h2 : ∀ c ∈ ws2, isStrWhiteSpace c = true)
    (hb : ∀ c ∈ body, isStrWhiteSpace c = false) :
    trimChars (ws1 ++ body ++ ws2) = body := by
  unfold trimChars
  rw [List.append_assoc, dropWhile_all _ ws1 _ h1]
  cases body with
  | nil =>
    have : ws2.dropWhile isStrWhiteSpace = [] := by
      have := dropWhile_all isStrWhiteSpace ws2 [] h2
      simpa using this
    simp [this]
  | cons c cs =>
    have hc := hb c (List.mem_cons_self _ _)
    have hd : ((c :: cs) ++ ws2).dropWhile isStrWhiteSpace = (c :: cs) ++ ws2 := by
      simp [List.dropWhile_cons, hc]
    rw [hd, List.reverse_append, dropWhile_all _ ws2.reverse _
      (fun x hx => h2 x (List.mem_reverse.1 hx))]
    have hr := dropWhile_none isStrWhiteSpace (c :: cs).reverse []
      (fun x hx => hb x (List.mem_reverse.1 hx)) (fun _ => rfl)
    simp only [List.append_nil] at hr
    rw [hr, List.reverse_reverse]

theorem trimChars_of_no_space (cs : List Char) (h : ∀ c ∈ cs, isStrWhiteSpace c = false) :
    trimChars cs = cs := by
  have := trimChars_padded [] cs [] (by simp) (by simp) h
  simpa using this

theorem stripAt_of_no_at (cs : List Char) (h : ∀ c ∈ cs, c ≠ '@') :
    stripAt cs = cs := by
  unfold stripAt
  split
  · next r => exact absurd rfl (h '@' (List.mem_cons_self _ _))
  · rfl

theorem handleCore_of_clean (cs : List Char) (h : ∀ c ∈ cs, isHandleChar c = true) :
    handleCore (String.mk cs) = cs := by
  unfold handleCore
  simp only
  rw [trimChars_of_no_space cs (fun c hc => isHandleChar_not_space c (h c hc))]
  exact stripAt_of_no_at cs (fun c hc => isHandleChar_ne_at c (h c hc))

theorem handleCore_padded (ws1 ws2 cs : List Char) (withAt : Bool)
    (h1 : ∀ c ∈ ws1, isStrWhiteSpace c = true) (h2 : ∀ c ∈ ws2, isStrWhiteSpace c = true)
    (h : ∀ c ∈ cs, isHandleChar c = true) :
    handleCore (String.mk (ws1 ++ ((if withAt then ['@'] else []) ++ cs) ++ ws2)) = cs := by
  unfold handleCore
  simp only
  have hb : ∀ c ∈ (if withAt then ['@'] else []) ++ cs, isStrWhiteSpace c = false := by
    intro c hc
    rcases List.mem_append.1 hc with hc | hc
    · cases withAt
      · simp at hc
      · simp only [if_true, List.mem_singleton] at hc
        subst hc
        decide
    · exact isHandleChar_not_space c (h c hc)
  rw [trimChars_padded ws1 _ ws2 h1 h2 hb]
  cases withAt
  · simp only [Bool.false_eq_true, if_false, List.nil_append]
    exact stripAt_of_no_at cs (fun c hc => isHandleChar_ne_at c (h c hc))
  · rfl

theorem normalizeHandle_some (handle : String) (n : NormalizedHandle)
    (hn : normalizeHandle handle = some n) :
    handle ≠ "" ∧ isWellFormedHandle (handleCore handle) ∧
    n.displayHandle = String.mk (handleCore handle) ∧
    n.handleKey = String.mk ((handleCore handle).map Char.toLower) := by
  rw [normalizeHandle_eq_core] at hn
  by_cases h0 : handle = ""
  · simp [h0] at hn
  · by_cases hw : isWellFormedHandle (handleCore handle)
    · simp only [h0, hw, if_false, if_true, Option.some.injEq] at hn
      subst hn
      exact ⟨h0, hw, rfl, rfl⟩
    · simp [h0, hw] at hn

theorem normalizeHandle_of_core (handle : String) (h0 : handle ≠ "")
    (hw : isWellFormedHandle (handleCore handle)) :
    normalizeHandle handle =
      some { handleKey := String.mk ((handleCore handle).map Char.toLower)
             displayHandle := String.mk (handleCore handle) } := by
  rw [normalizeHandle_eq_core]
  simp [h0, hw]

theorem string_mk_ne_empty (cs : List Char) (h : 1 ≤ cs.length) : String.mk cs ≠ "" := by
  intro he
  have : (String.mk cs).data = ("" : String).data := by rw [he]
  simp only at this
  rw [this] at h
  simp at h

theorem wellFormed_lower (cs : List Char) (hw : isWellFormedHandle cs) :
    isWellFormedHandle (cs.map Char.toLower) ∧
    (∀ c ∈ cs.map Char.toLower, isKeyChar c = true) ∧
    (cs.map Char.toLower).map Char.toLower = cs.map Char.toLower := by
  obtain ⟨h1, h2, h3⟩ := hw
  rw [List.all_eq_true] at h3
  have hk : ∀ c ∈ cs.map Char.toLower, isKeyChar c = true ∧ isHandleChar c = true := by
    intro c hc
    obtain ⟨c0, hc0, rfl⟩ := List.mem_map.1 hc
    exact isHandleChar_toLower c0 (h3 c0 hc0)
  refine ⟨⟨by simpa using h1, by simpa using h2, ?_⟩, fun c hc => (hk c hc).1, ?_⟩
  · rw [List.all_eq_true]
    exact fun c hc => (hk c hc).2
  · conv_rhs => rw [← List.map_id (cs.map Char.toLower)]
    apply List.map_congr_left
    intro c hc
    simp only [id]
    exact isKeyChar_toLower c (hk c hc).1

/-- C13: normalizeHandle returns null exactly when the input is empty or,
after trimming white space and removing one leading @, is not a string of 1 to
15 characters of [A-Za-z0-9_]; otherwise displayHandle is that string and
handleKey is its lowercase form, which has 1 to 15 characters, all of
[a-z0-9_], and is a fixed point: normalizeHandle(handleKey) is
{handleKey, displayHandle: handleKey}. -/
theorem normalizeHandle_rejects_exactly_malformed (handle : String) :
    (normalizeHandle handle = none ↔
      handle = "" ∨ ¬ isWellFormedHandle (handleCore handle)) ∧
    (∀ n, normalizeHandle handle = some n →
      n.displayHandle = String.mk (handleCore handle) ∧
      n.handleKey = String.mk ((handleCore handle).map Char.toLower) ∧
      1 ≤ n.handleKey.data.length ∧ n.handleKey.data.length ≤ 15 ∧
      (∀ c ∈ n.handleKey.data, isKeyChar c = true) ∧
      normalizeHandle n.handleKey =
        some { handleKey := n.handleKey, displayHandle := n.handleKey }) := by
  constructor
  · rw [normalizeHandle_eq_core]
    by_cases h0 : handle = ""
    · simp [h0]
    · by_cases hw : isWellFormedHandle (handleCore handle) <;> simp [h0, hw]
  · intro n hn
    obtain ⟨_, hw, hd, hk⟩ := normalizeHandle_some handle n hn
    obtain ⟨hwl, hkc, hidem⟩ := wellFormed_lower (handleCore handle) hw
    have hall : ∀ c ∈ (handleCore handle).map Char.toLower, isHandleChar c = true := by
      have := hwl.2.2
      rwa [List.all_eq_true] at this
    refine ⟨hd, hk, ?_, ?_, ?_, ?_⟩
    · rw [hk]
      exact hwl.1
    · rw [hk]
      exact hwl.2.1
    · rw [hk]
      exact hkc
    · have hcore : handleCore n.handleKey = (handleCore handle).map Char.toLower := by
        rw [hk]
        exact handleCore_of_clean _ hall
      have hne : n.handleKey ≠ "" := by
        rw [hk]
        exact string_mk_ne_empty _ hwl.1
      rw [normalizeHandle_of_core n.handleKey hne (by rw [hcore]; exact hwl), hcore, hidem, ← hk]

/-- Witness for C13: the handle " @Bob_1 " gives displayHandle "Bob_1" and the
key "bob_1", which normalizes to itself. -/
theorem normalizeHandle_rejects_exactly_malformed_witness :
    normalizeHandle " @Bob_1 " = some { handleKey := "bob_1", displayHandle := "Bob_1" } ∧
    normalizeHandle "bob_1" = some { handleKey := "bob_1", displayHandle := "bob_1" } :=
  ⟨by decide,
   ((normalizeHandle_rejects_exactly_malformed " @Bob_1 ").2
      { handleKey := "bob_1", displayHandle := "Bob_1" } (by decide)).2.2.2.2.2⟩

/-! ### A request adds at most one task per key -/

theorem enqueue_tasksFor (k d : String) (now : Int) (s : Sched) (hk : String) :
    ((hk ∈ s.queued ∨ hk ∈ s.inflight) →
      tasksFor hk (enqueue k d now s) = tasksFor hk s) ∧
    (tasksFor hk (enqueue k d now s) = tasksFor hk s ∨
      ((tasksFor hk (enqueue k d now s)).length = (tasksFor hk s).length + 1 ∧
        (hk ∈ (enqueue k d now s).queued ∨ hk ∈ (enqueue k d now s).inflight))) := by
  by_cases hne : k = hk
  · subst hne
    by_cases hheld : k ∈ s.queued ∨ k ∈ s.inflight
    · have : enqueue k d now s = s := by
        unfold enqueue
        rcases hheld with hq | hi
        · simp [setHas, hq]
        · simp [setHas, hi]
      rw [this]
      exact ⟨fun _ => rfl, Or.inl rfl⟩
    · refine ⟨fun hh => absurd hh hheld, Or.inr ⟨?_, enqueue_held k d now s⟩⟩
      have hq : k ∉ s.queued := fun hq => hheld (Or.inl hq)
      have hi : k ∉ s.inflight := fun hi => hheld (Or.inr hi)
      simp [tasksFor, enqueue, setHas, hq, hi, List.filter_append]
  · have := (enqueue_other k d now s hk hne).1
    exact ⟨fun _ => this, Or.inl this⟩

theorem requestOne_tasksFor (settings : Settings) (paused : Bool) (now : Int)
    (acc : ObjMap UserResult × State) (h : String) (hk : String) :
    ((hk ∈ acc.2.sched.queued ∨ hk ∈ acc.2.sched.inflight) →
      tasksFor hk (requestOne settings paused now acc h).2.sched = tasksFor hk acc.2.sched) ∧
    (tasksFor hk (requestOne settings paused now acc h).2.sched = tasksFor hk acc.2.sched ∨
      ((tasksFor hk (requestOne settings paused now acc h).2.sched).length =
          (tasksFor hk acc.2.sched).length + 1 ∧
        (hk ∈ (requestOne settings paused now acc h).2.sched.queued ∨
          hk ∈ (requestOne settings paused now acc h).2.sched.inflight))) := by
  cases hn : normalizeHandle h with
  | none =>
    rw [requestOne_none _ _ _ _ _ hn]
    exact ⟨fun _ => rfl, Or.inl rfl⟩
  | some norm =>
    rw [requestOne_some _ _ _ _ _ norm hn]
    simp only
    split
    · exact enqueue_tasksFor _ _ _ _ _
    · exact ⟨fun _ => rfl, Or.inl rfl⟩

theorem requestFold_tasksFor (settings : Settings) (paused : Bool) (now : Int)
    (hk : String) (hs : List String) :
    ∀ acc : ObjMap UserResult × State,
      ((hk ∈ acc.2.sched.queued ∨ hk ∈ acc.2.sched.inflight) →
        tasksFor hk (hs.foldl (requestOne settings paused now) acc).2.sched =
          tasksFor hk acc.2.sched) ∧
      (tasksFor hk (hs.foldl (requestOne settings paused now) acc).2.sched).length ≤
        (tasksFor hk acc.2.sched).length + 1 := by
  induction hs with
  | nil => intro acc; exact ⟨fun _ => rfl, Nat.le_succ _⟩
  | cons h rest ih =>
    intro acc
    rw [List.foldl_cons]
    obtain ⟨ih1, ih2⟩ := ih (requestOne settings paused now acc h)
    obtain ⟨s1, s2⟩ := requestOne_tasksFor settings paused now acc h hk
    constructor
    · intro hheld
      rw [ih1 (requestOne_sched_held _ _ _ _ _ _ hheld), s1 hheld]
    · rcases s2 with heq | ⟨hlen, hheld⟩
      · rw [← heq]
        exact ih2
      · rw [ih1 hheld, hlen]

/-- For a valid handle h and every spelling h2 made of the same characters up
to letter case, optionally with a leading @ and surrounding white space,
normalizeHandle gives h2 the handleKey of h, and a request adds at most one
task for the key to the queue; when the key is not `__proto__`, a request with
the two spellings has the single result key handleKey and any request
containing h answers under that key with the one cache entry held for it. -/
theorem case_variants_share_other_key (h : String) (n : NormalizedHandle)
    (hn : normalizeHandle h = some n) (ws1 ws2 cs2 : List Char) (withAt : Bool)
    (hws1 : ∀ c ∈ ws1, isStrWhiteSpace c = true) (hws2 : ∀ c ∈ ws2, isStrWhiteSpace c = true)
    (hcase : cs2.map Char.toLower = n.displayHandle.data.map Char.toLower)
    (settings : Settings) (now : Int) (handles : List String) (st : State)
    (hen : settings.enabled.truthy = true) (hmem : h ∈ handles.take 400) :
    normalizeHandle (String.mk (ws1 ++ ((if withAt then ['@'] else []) ++ cs2) ++ ws2)) =
      some { handleKey := n.handleKey, displayHandle := String.mk cs2 } ∧
    (n.handleKey ≠ "__proto__" →
      (requestUsers settings now
        [h, String.mk (ws1 ++ ((if withAt then ['@'] else []) ++ cs2) ++ ws2)] st).1.map
          Prod.fst = [n.handleKey]) ∧
    (n.handleKey ≠ "__proto__" →
      ∃ r : UserResult,
        (requestUsers settings now handles st).1.get n.handleKey = some r ∧
        r.user = st.users.get n.handleKey) ∧
    (tasksFor n.handleKey (requestUsers settings now handles st).2.sched).length ≤
      (tasksFor n.handleKey st.sched).length + 1 := by
  obtain ⟨_, hw, hd, hk⟩ := normalizeHandle_some h n hn
  have hdd : n.displayHandle.data = handleCore h := by rw [hd]
  rw [hdd] at hcase
  obtain ⟨hw1, hw2, hw3⟩ := hw
  rw [List.all_eq_true] at hw3
  have hlen : cs2.length = (handleCore h).length := by
    have := congrArg List.length hcase
    simpa using this
  have hall2 : ∀ c ∈ cs2, isHandleChar c = true := by
    intro c hc
    have hm : c.toLower ∈ (handleCore h).map Char.toLower := by
      rw [← hcase]
      exact List.mem_map_of_mem _ hc
    obtain ⟨c0, hc0, he⟩ := List.mem_map.1 hm
    exact isHandleChar_of_toLower_eq c0 c (hw3 c0 hc0) he.symm
  have hcore := handleCore_padded ws1 ws2 cs2 withAt hws1 hws2 hall2
  have hwf2 : isWellFormedHandle cs2 :=
    ⟨by omega, by omega, by rw [List.all_eq_true]; exact hall2⟩
  have hne2 : String.mk (ws1 ++ ((if withAt then ['@'] else []) ++ cs2) ++ ws2) ≠ "" := by
    apply string_mk_ne_empty
    simp only [List.length_append]
    have := hwf2.1
    omega
  have hn2 : normalizeHandle
      (String.mk (ws1 ++ ((if withAt then ['@'] else []) ++ cs2) ++ ws2)) =
      some { handleKey := n.handleKey, displayHandle := String.mk cs2 } := by
    rw [normalizeHandle_of_core _ hne2 (by rw [hcore]; exact hwf2), hcore, hcase, ← hk]
  refine ⟨hn2, ?_, ?_, ?_⟩
  · intro hproto
    rw [requestUsers_enabled settings now _ st hen]
    have ht : ∀ a b : String, List.take 400 [a, b] = [a, b] := fun _ _ => rfl
    rw [ht, List.foldl_cons, List.foldl_cons, List.foldl_nil,
      requestOne_some _ _ _ _ _ _ hn2, requestOne_some _ _ _ _ _ _ hn]
    simp only
    rw [ObjMap.assign_nil _ _ hproto]
    simp [ObjMap.assign, hproto, ObjMap.get, ObjMap.set]
  · intro hproto
    have hex : ∃ h2 ∈ handles.take 400, ∃ n2, normalizeHandle h2 = some n2 ∧
        n2.handleKey = n.handleKey := ⟨h, hmem, n, hn, rfl⟩
    rw [requestUsers_enabled settings now handles st hen,
      requestFold_result settings _ now n.handleKey hproto (handles.take 400) ([], st) hex]
    exact ⟨_, rfl, rfl⟩
  · rw [requestUsers_enabled settings now handles st hen]
    exact (requestFold_tasksFor settings _ now n.handleKey (handles.take 400) ([], st)).2

/-- C12 (the code at the failing input): the spellings "__proto__" and
" @__PROTO__" differ only in letter case, a leading @ and white space, and
normalizeHandle gives both the key `__proto__`; the request that contains both
reads the one cache entry and adds one task, but its results object has no
result key at all, since the writes under `__proto__` create no property of
the object literal. -/
theorem proto_case_variants_yield_no_result_key :
    normalizeHandle "__proto__" =
      some { handleKey := "__proto__", displayHandle := "__proto__" } ∧
    normalizeHandle " @__PROTO__" =
      some { handleKey := "__proto__", displayHandle := "__PROTO__" } ∧
    requestUsers DEFAULT_SETTINGS 5000 ["__proto__", " @__PROTO__"]
        { users := [], sched := Sched.init } =
      ([],
       { users := [],
         sched :=
           { Sched.init with
             queue := [{ handleKey := "__proto__", handle := "__proto__", enqueuedAt := 5000 }]
             queued := ["__proto__"] } }) := by
  have hn1 : normalizeHandle "__proto__" =
      some { handleKey := "__proto__", displayHandle := "__proto__" } := by decide
  have hn2 : normalizeHandle " @__PROTO__" =
      some { handleKey := "__proto__", displayHandle := "__PROTO__" } := by decide
  refine ⟨hn1, hn2, ?_⟩
  simp [requestUsers, requestOne, hn1, hn2, cachedUnavailable, ObjMap.get,
    ObjMap.assign_proto, DEFAULT_SETTINGS, JSVal.truthy, enqueue, setHas, setAdd, Sched.init]

/-! ### Completion of a fetch -/

theorem complete_sched (task : Task) (fetch : Option PageOutcome) (settings : Settings)
    (scrapedAt now : Int) (persistOk : Bool) (st : State) :
    (complete task fetch settings scrapedAt now persistOk st).sched =
      completeSched task.handleKey
        (match fetch with
          | some page => (scrapeProfileViaTab page task.handleKey scrapedAt).rateLimited
          | none => false)
        settings now st.sched := by
  cases fetch with
  | none => simp [complete, completeSched]
  | some page => simp [complete, completeSched]

theorem enterPause_other_fields (settings : Settings) (now : Int) (s : Sched) :
    (enterPause settings now s).inflight = s.inflight ∧
    (enterPause settings now s).activeScrapes = s.activeScrapes ∧
    (enterPause settings now s).queue = s.queue ∧
    (enterPause settings now s).queued = s.queued ∧
    (enterPause settings now s).requestTimes = s.requestTimes := by
  unfold enterPause
  simp only
  split <;> exact ⟨rfl, rfl, rfl, rfl, rfl⟩

theorem completeSched_release (handleKey : String) (rateLimited : Bool)
    (settings : Settings) (now : Int) (s : Sched) :
    (completeSched handleKey rateLimited settings now s).inflight =
      setDelete s.inflight handleKey ∧
    (completeSched handleKey rateLimited settings now s).activeScrapes =
      max 0 (s.activeScrapes - 1) := by
  unfold completeSched releaseSlot
  cases rateLimited
  · exact ⟨rfl, rfl⟩
  · obtain ⟨h1, h2, _⟩ := enterPause_other_fields settings now s
    simp only [if_true, h1, h2, and_self]

/-- C20: for every dispatched task and every completion outcome (a rejected
fetch, a failed or unavailable extraction, data returned, with or without the
throttle flag, and with or without an exception thrown by the durable write or
the broadcast inside the handler), after the completion step the key of the
task is not in the in-flight set and activeScrapes is max(0, activeScrapes - 1),
that is one less whenever a fetch was counted as active. -/
theorem completion_releases_slot (task : Task) (fetch : Option PageOutcome)
    (settings : Settings) (scrapedAt now : Int) (persistOk : Bool) (st : State) :
    task.handleKey ∉ (complete task fetch settings scrapedAt now persistOk st).sched.inflight ∧
    (complete task fetch settings scrapedAt now persistOk st).sched.activeScrapes =
      max 0 (st.sched.activeScrapes - 1) ∧
    (1 ≤ st.sched.activeScrapes →
      (complete task fetch settings scrapedAt now persistOk st).sched.activeScrapes =
        st.sched.activeScrapes - 1) := by
  rw [complete_sched]
  obtain ⟨h1, h2⟩ := completeSched_release task.handleKey
    (match fetch with
      | some page => (scrapeProfileViaTab page task.handleKey scrapedAt).rateLimited
      | none => false) settings now st.sched
  rw [h1, h2]
  refine ⟨?_, rfl, ?_⟩
  · simp [mem_setDelete]
  · intro h
    omega

/-- Witness for C20: the fetch of alice returns a throttle-flagged failure and
the durable write throws; the slot is released all the same. -/
theorem completion_releases_slot_witness :
    (complete { handleKey := "alice", handle := "alice", enqueuedAt := 0 }
      (some (PageOutcome.failed true)) DEFAULT_SETTINGS 900 1000 false
      { users := [],
        sched := popDispatch 500 (enqueue "alice" "alice" 0 Sched.init) }).sched.activeScrapes =
      (popDispatch 500 (enqueue "alice" "alice" 0 Sched.init)).activeScrapes - 1 :=
  (completion_releases_slot { handleKey := "alice", handle := "alice", enqueuedAt := 0 }
    (some (PageOutcome.failed true)) DEFAULT_SETTINGS 900 1000 false
    { users := [],
      sched := popDispatch 500 (enqueue "alice" "alice" 0 Sched.init) }).2.2 (by decide)

/-! ### Rounding to binary64 -/

theorem JSNum.roundHalfEven_ge_floor (x : ℚ) : ⌊x⌋ ≤ JSNum.roundHalfEven x := by
  unfold JSNum.roundHalfEven
  split
  · exact le_refl _
  · split
    · omega
    · split
      · exact le_refl _
      · omega

theorem JSNum.roundHalfEven_nonneg (x : ℚ) (h : 0 ≤ x) : 0 ≤ JSNum.roundHalfEven x :=
  le_trans (Int.floor_nonneg.2 h) (JSNum.roundHalfEven_ge_floor x)

theorem JSNum.roundHalfEven_of_near (x : ℚ) (m : Int) (h : |x - m| < 1 / 2) :
    JSNum.roundHalfEven x = m := by
  rw [abs_lt] at h
  obtain ⟨h1, h2⟩ := h
  by_cases hle : (m : ℚ) ≤ x
  · have hf : ⌊x⌋ = m := by
      rw [Int.floor_eq_iff]
      constructor
      · exact hle
      · linarith
    unfold JSNum.roundHalfEven
    rw [hf, if_pos h2]
  · have hlt : x < m := not_le.1 hle
    have hf : ⌊x⌋ = m - 1 := by
      rw [Int.floor_eq_iff]
      push_cast
      constructor
      · linarith
      · linarith
    unfold JSNum.roundHalfEven
    rw [hf]
    push_cast
    have hn : ¬ (x - ((m : ℚ) - 1) < 1 / 2) := by
      intro hc
      linarith
    have hp : 1 / 2 < x - ((m : ℚ) - 1) := by linarith
    rw [if_neg hn, if_pos hp]
    ring

theorem JSNum.binadeExp_eq (a : ℚ) (e : Int) (ha : 0 < a) (he : -1022 ≤ e)
    (hlo : (2 : ℚ) ^ e ≤ a ∨ e = -1022) (hhi : a < (2 : ℚ) ^ (e + 1)) :
    JSNum.binadeExp a = e := by
  unfold JSNum.binadeExp
  have hup : Int.log 2 a < e + 1 := (Int.lt_zpow_iff_log_lt (by norm_num) ha).1 (by exact_mod_cast hhi)
  rcases hlo with hlo | hlo
  · have hdown : e ≤ Int.log 2 a := (Int.zpow_le_iff_le_log (by norm_num) ha).1 (by exact_mod_cast hlo)
    have : Int.log 2 a = e := by omega
    rw [this]
    exact max_eq_left he
  · subst hlo
    have : Int.log 2 a ≤ -1022 := by omega
    exact max_eq_right this

theorem JSNum.roundMagnitude_of_nearest (a : ℚ) (e m : Int) (ha : 0 < a) (he : -1022 ≤ e)
    (hlo : (2 : ℚ) ^ e ≤ a ∨ e = -1022) (hhi : a < (2 : ℚ) ^ (e + 1))
    (hm : |a / (2 : ℚ) ^ (e - 52) - m| < 1 / 2) :
    JSNum.roundMagnitude a = (m : ℚ) * (2 : ℚ) ^ (e - 52) := by
  unfold JSNum.roundMagnitude
  rw [JSNum.binadeExp_eq a e ha he hlo hhi, JSNum.roundHalfEven_of_near _ m hm]

theorem JSNum.roundMagnitude_nonneg (a : ℚ) (ha : 0 ≤ a) : 0 ≤ JSNum.roundMagnitude a := by
  unfold JSNum.roundMagnitude
  apply mul_nonneg
  · have := JSNum.roundHalfEven_nonneg (a / (2 : ℚ) ^ (JSNum.binadeExp a - 52)) (by positivity)
    exact_mod_cast this
  · positivity

theorem JSNum.roundMagnitude_nat_exact (n : ℕ) (h : n < 2 ^ 53) : JSNum.roundMagnitude (n : ℚ) = n := by
  rcases Nat.eq_zero_or_pos n with rfl | hpos
  · unfold JSNum.roundMagnitude
    have : JSNum.roundHalfEven ((0 : ℕ) / (2 : ℚ) ^ (JSNum.binadeExp ((0 : ℕ) : ℚ) - 52)) = 0 := by
      apply JSNum.roundHalfEven_of_near
      simp
    rw [this]
    simp
  · have hne : n ≠ 0 := Nat.pos_iff_ne_zero.1 hpos
    have h1 : 2 ^ Nat.log 2 n ≤ n := Nat.pow_log_le_self 2 hne
    have h2 : n < 2 ^ (Nat.log 2 n + 1) := Nat.lt_pow_succ_log_self (by norm_num) n
    have h3 : Nat.log 2 n < 53 := Nat.log_lt_of_lt_pow hne h
    have hz : (2 : ℚ) ^ ((Nat.log 2 n : Int) - 52) = ((2 : ℚ) ^ (52 - Nat.log 2 n))⁻¹ := by
      rw [← zpow_natCast, ← zpow_neg]
      congr 1
      omega
    have key := JSNum.roundMagnitude_of_nearest (n : ℚ) (Nat.log 2 n : Int)
      ((n * 2 ^ (52 - Nat.log 2 n) : ℕ) : Int) (by exact_mod_cast hpos) (by omega)
      (Or.inl (by rw [zpow_natCast]; exact_mod_cast h1))
      (by
        have : ((Nat.log 2 n : Int) + 1) = ((Nat.log 2 n + 1 : ℕ) : Int) := by push_cast; ring
        rw [this, zpow_natCast]
        exact_mod_cast h2)
      (by
        rw [hz]
        push_cast
        simp)
    rw [key, hz]
    push_cast
    field_simp

theorem JSNum.roundMagnitude_nat (n : ℕ) : ∃ k : ℕ, JSNum.roundMagnitude (n : ℚ) = k := by
  by_cases h : n < 2 ^ 53
  · exact ⟨n, JSNum.roundMagnitude_nat_exact n h⟩
  · have hge : 2 ^ 53 ≤ n := not_lt.1 h
    have hne : n ≠ 0 := by
      intro h0
      rw [h0] at hge
      norm_num at hge
    have hlog : 53 ≤ Nat.log 2 n := by
      have := Nat.log_mono_right (b := 2) hge
      rwa [Nat.log_pow (by norm_num)] at this
    have hb : JSNum.binadeExp (n : ℚ) = (Nat.log 2 n : Int) := by
      unfold JSNum.binadeExp
      rw [Int.log_natCast]
      apply max_eq_left
      omega
    have hz : (2 : ℚ) ^ ((Nat.log 2 n : Int) - 52) = ((2 ^ (Nat.log 2 n - 52) : ℕ) : ℚ) := by
      push_cast
      rw [← zpow_natCast]
      congr 1
      omega
    have hr := JSNum.roundHalfEven_nonneg ((n : ℚ) / (2 : ℚ) ^ (JSNum.binadeExp (n : ℚ) - 52)) (by positivity)
    refine ⟨(JSNum.roundHalfEven ((n : ℚ) / (2 : ℚ) ^ (JSNum.binadeExp (n : ℚ) - 52))).toNat *
      2 ^ (Nat.log 2 n - 52), ?_⟩
    unfold JSNum.roundMagnitude
    rw [hb, hz] at hr ⊢
    generalize JSNum.roundHalfEven ((n : ℚ) / ((2 ^ (Nat.log 2 n - 52) : ℕ) : ℚ)) = r at hr ⊢
    have ht : ((r.toNat : Int) : ℚ) = (r : ℚ) := by rw [Int.toNat_of_nonneg hr]
    rw [← ht]
    push_cast
    rfl

theorem JSNum.toBinary64_fin (q : ℚ) :
    JSNum.toBinary64 (JSNum.fin q) =
      if (2 : ℚ) ^ 1024 ≤ JSNum.roundMagnitude |q| then
        (if 0 < q then JSNum.posInf else JSNum.negInf)
      else JSNum.fin (if 0 < q then JSNum.roundMagnitude |q| else -JSNum.roundMagnitude |q|) :=
  rfl

theorem JSNum.toBinary64_nonneg (q : ℚ) (h : 0 ≤ q) :
    JSNum.toBinary64 (JSNum.fin q) = JSNum.posInf ∨
      ∃ v : ℚ, 0 ≤ v ∧ JSNum.toBinary64 (JSNum.fin q) = JSNum.fin v := by
  simp only [JSNum.toBinary64_fin]
  rcases eq_or_lt_of_le h with h0 | hpos
  · subst h0
    have hz : JSNum.roundMagnitude |(0 : ℚ)| = 0 := by
      have := JSNum.roundMagnitude_nat_exact 0 (by norm_num)
      simpa using this
    right
    refine ⟨0, le_refl _, ?_⟩
    rw [hz]
    norm_num
  · by_cases hbig : (2 : ℚ) ^ 1024 ≤ JSNum.roundMagnitude |q|
    · left
      rw [if_pos hbig, if_pos hpos]
    · right
      refine ⟨JSNum.roundMagnitude |q|, JSNum.roundMagnitude_nonneg _ (abs_nonneg q), ?_⟩
      rw [if_neg hbig, if_pos hpos]

theorem JSNum.toBinary64_nonNegOrNaN (n : JSNum) (h : JSNum.NonNegOrNaN n) :
    JSNum.NonNegOrNaN (JSNum.toBinary64 n) := by
  rcases h with h | h | ⟨q, hq, h⟩
  · subst h
    exact Or.inl rfl
  · subst h
    exact Or.inr (Or.inl rfl)
  · subst h
    rcases JSNum.toBinary64_nonneg q hq with h1 | ⟨v, hv, h1⟩
    · exact Or.inr (Or.inl h1)
    · exact Or.inr (Or.inr ⟨v, hv, h1⟩)

theorem JSNum.toBinary64_nat (n : ℕ) :
    JSNum.toBinary64 (JSNum.fin (n : ℚ)) = JSNum.posInf ∨
      ∃ k : ℕ, JSNum.toBinary64 (JSNum.fin (n : ℚ)) = JSNum.fin (k : ℚ) := by
  obtain ⟨k, hk⟩ := JSNum.roundMagnitude_nat n
  have habs : |(n : ℚ)| = (n : ℚ) := abs_of_nonneg (Nat.cast_nonneg n)
  simp only [JSNum.toBinary64_fin]
  rw [habs, hk]
  by_cases hbig : (2 : ℚ) ^ 1024 ≤ (k : ℚ)
  · rw [if_pos hbig]
    by_cases hpos : (0 : ℚ) < (n : ℚ)
    · left
      rw [if_pos hpos]
    · have hn : n = 0 := by
        have : ¬ (0 < n) := by exact_mod_cast hpos
        omega
      subst hn
      have h0 := JSNum.roundMagnitude_nat_exact 0 (by norm_num)
      rw [hk] at h0
      rw [h0] at hbig
      norm_num at hbig
  · right
    rw [if_neg hbig]
    by_cases hpos : (0 : ℚ) < (n : ℚ)
    · exact ⟨k, by rw [if_pos hpos]⟩
    · have hn : n = 0 := by
        have : ¬ (0 < n) := by exact_mod_cast hpos
        omega
      subst hn
      have h0 := JSNum.roundMagnitude_nat_exact 0 (by norm_num)
      rw [hk] at h0
      refine ⟨0, ?_⟩
      rw [h0]
      norm_num

theorem JSNum.toBinary64_nat_exact (n : ℕ) (h : n < 2 ^ 53) :
    JSNum.toBinary64 (JSNum.fin (n : ℚ)) = JSNum.fin (n : ℚ) := by
  have habs : |(n : ℚ)| = (n : ℚ) := abs_of_nonneg (Nat.cast_nonneg n)
  have hlt : ¬ ((2 : ℚ) ^ 1024 ≤ (n : ℚ)) := by
    have h1 : (n : ℚ) < 2 ^ 53 := by exact_mod_cast h
    have h2 : (2 : ℚ) ^ 53 < 2 ^ 1024 := pow_lt_pow_right₀ (by norm_num) (by norm_num)
    intro hc
    linarith
  simp only [JSNum.toBinary64_fin]
  rw [habs, JSNum.roundMagnitude_nat_exact n h, if_neg hlt]
  by_cases hpos : (0 : ℚ) < (n : ℚ)
  · rw [if_pos hpos]
  · have hn : n = 0 := by
      have : ¬ (0 < n) := by exact_mod_cast hpos
      omega
    subst hn
    norm_num

theorem JSNum.toBinary64_of_nearest (q : ℚ) (e m : Int) (hq : 0 < q) (he : -1022 ≤ e)
    (hlo : (2 : ℚ) ^ e ≤ q ∨ e = -1022) (hhi : q < (2 : ℚ) ^ (e + 1))
    (hm : |q / (2 : ℚ) ^ (e - 52) - m| < 1 / 2) :
    JSNum.toBinary64 (JSNum.fin q) =
      if (2 : ℚ) ^ 1024 ≤ (m : ℚ) * (2 : ℚ) ^ (e - 52) then JSNum.posInf
      else JSNum.fin ((m : ℚ) * (2 : ℚ) ^ (e - 52)) := by
  simp only [JSNum.toBinary64_fin]
  rw [abs_of_pos hq, JSNum.roundMagnitude_of_nearest q e m hq he hlo hhi hm]
  simp only [hq, if_true]

/-! ### Numbers read from text -/

theorem JSNum.ofLiteral_nonneg (q : ℚ) (h : 0 ≤ q) :
    JSNum.ofLiteral q = JSNum.posInf ∨ JSNum.ofLiteral q = JSNum.fin q := by
  unfold JSNum.ofLiteral
  by_cases h1 : (2 : ℚ) ^ 1024 - 2 ^ 970 ≤ q
  · left
    rw [if_pos h1]
  · right
    have hpos : (0 : ℚ) < 2 ^ 1024 - 2 ^ 970 := by
      have : (2 : ℚ) ^ 970 < 2 ^ 1024 := pow_lt_pow_right₀ (by norm_num) (by norm_num)
      linarith
    have h2 : ¬ q ≤ -((2 : ℚ) ^ 1024 - 2 ^ 970) := by
      intro hc
      linarith
    rw [if_neg h1, if_neg h2]

theorem JSNum.ofLiteral_nonNegOrNaN (q : ℚ) (h : 0 ≤ q) :
    JSNum.NonNegOrNaN (JSNum.ofLiteral q) := by
  rcases JSNum.ofLiteral_nonneg q h with h1 | h1
  · exact Or.inr (Or.inl h1)
  · exact Or.inr (Or.inr ⟨q, h, h1⟩)

theorem readUnsignedDecimal_nonneg (cs : List Char) :
    JSNum.NonNegOrNaN (readUnsignedDecimal cs) := by
  unfold readUnsignedDecimal
  split
  · exact Or.inr (Or.inl rfl)
  · generalize readDigits 10 cs 0 0 = x
    obtain ⟨iv, icnt, r1⟩ := x
    simp only
    generalize (match r1 with
      | '.' :: r => readDigits 10 r 0 0
      | r => (0, 0, r)) = y
    obtain ⟨fv, fcnt, r2⟩ := y
    simp only
    split
    · exact Or.inl rfl
    · split
      · exact Or.inl rfl
      · apply JSNum.ofLiteral_nonNegOrNaN
        positivity

theorem readRadix_nonneg (radix : Nat) (cs : List Char) :
    JSNum.NonNegOrNaN (readRadix radix cs) := by
  unfold readRadix
  split
  · split
    · exact Or.inl rfl
    · apply JSNum.ofLiteral_nonNegOrNaN
      positivity
  · exact Or.inl rfl

theorem stringToNumber_nonneg (s : String) (h : ∀ r, trimChars s.data ≠ '-' :: r) :
    JSNum.NonNegOrNaN (stringToNumber s) := by
  unfold stringToNumber
  split
  · exact Or.inr (Or.inr ⟨0, le_refl _, rfl⟩)
  · exact readRadix_nonneg _ _
  · exact readRadix_nonneg _ _
  · exact readRadix_nonneg _ _
  · exact readRadix_nonneg _ _
  · exact readRadix_nonneg _ _
  · exact readRadix_nonneg _ _
  · exact readUnsignedDecimal_nonneg _
  · next r heq => exact absurd heq (h r)
  · exact readUnsignedDecimal_nonneg _

theorem isDecDigit_not_space (c : Char) (h : isDecDigit c = true) :
    isStrWhiteSpace c = false := by
  unfold isDecDigit at h
  unfold isStrWhiteSpace
  simp only [Bool.and_eq_true, decide_eq_true_eq] at h
  simp only [Bool.or_eq_false_iff, Bool.and_eq_false_iff, decide_eq_false_iff_not]
  omega

theorem digitValue_of_isDecDigit (c : Char) (h : isDecDigit c = true) :
    ∃ d, digitValue 10 c = some d := by
  unfold isDecDigit at h
  simp only [Bool.and_eq_true, decide_eq_true_eq] at h
  refine ⟨c.toNat - 48, ?_⟩
  unfold digitValue
  have h1 : 48 ≤ c.toNat ∧ c.toNat ≤ 57 := h
  have h2 : c.toNat - 48 < 10 := by omega
  simp [h1, h2]

theorem readDigits_all (cs : List Char) (h : ∀ c ∈ cs, isDecDigit c = true) :
    ∀ acc cnt, ∃ v, readDigits 10 cs acc cnt = (v, cnt + cs.length, []) := by
  induction cs with
  | nil => intro acc cnt; exact ⟨acc, rfl⟩
  | cons c rest ih =>
    intro acc cnt
    obtain ⟨d, hd⟩ := digitValue_of_isDecDigit c (h c (List.mem_cons_self _ _))
    obtain ⟨v, hv⟩ := ih (fun x hx => h x (List.mem_cons_of_mem _ hx)) (acc * 10 + d) (cnt + 1)
    refine ⟨v, ?_⟩
    simp only [readDigits, hd, hv, List.length_cons]
    congr 2
    omega

theorem stringToNumber_digits (ds : List Char) (hne : ds ≠ [])
    (h : ∀ c ∈ ds, isDecDigit c = true) :
    ∃ v : Nat, stringToNumber (String.mk ds) = JSNum.ofLiteral (v : ℚ) := by
  have htrim : trimChars ds = ds :=
    trimChars_of_no_space ds (fun c hc => isDecDigit_not_space c (h c hc))
  obtain ⟨v, hv⟩ := readDigits_all ds h 0 0
  have hlen : 0 < ds.length := List.length_pos.2 hne
  have hdec : readUnsignedDecimal ds = JSNum.ofLiteral (v : ℚ) := by
    unfold readUnsignedDecimal
    have hinf : ds ≠ "Infinity".data := by
      intro he
      have := h 'I' (by rw [he]; decide)
      revert this
      decide
    rw [if_neg hinf, hv]
    simp [readExponent, hne]
  refine ⟨v, ?_⟩
  unfold stringToNumber
  simp only [htrim]
  have hnot : ∀ x : Char, isDecDigit x = false → x ∉ ds := by
    intro x hx hm
    rw [h x hm] at hx
    cases hx
  split
  · exact absurd rfl hne
  · exact absurd (by simp) (hnot 'x' (by decide))
  · exact absurd (by simp) (hnot 'X' (by decide))
  · exact absurd (by simp) (hnot 'o' (by decide))
  · exact absurd (by simp) (hnot 'O' (by decide))
  · exact absurd (by simp) (hnot 'b' (by decide))
  · exact absurd (by simp) (hnot 'B' (by decide))
  · exact absurd (by simp) (hnot '+' (by decide))
  · exact absurd (by simp) (hnot '-' (by decide))
  · exact hdec

theorem splitDots_chars (cs : List Char) :
    ∀ p ∈ splitDots cs, ∀ c ∈ p, c ∈ cs := by
  induction cs with
  | nil =>
    intro p hp c hc
    simp only [splitDots, List.mem_singleton] at hp
    subst hp
    cases hc
  | cons x rest ih =>
    intro p hp c hc
    unfold splitDots at hp
    cases hs : splitDots rest with
    | nil =>
      rw [hs] at hp
      simp only [List.mem_singleton] at hp
      subst hp
      cases hc
    | cons q qs =>
      rw [hs] at hp ih
      simp only at hp
      by_cases hx : x = '.'
      · rw [if_pos hx] at hp
        rcases List.mem_cons.1 hp with rfl | hp
        · cases hc
        · exact List.mem_cons_of_mem _ (ih p hp c hc)
      · rw [if_neg hx] at hp
        rcases List.mem_cons.1 hp with rfl | hp
        · rcases List.mem_cons.1 hc with rfl | hc
          · exact List.mem_cons_self _ _
          · exact List.mem_cons_of_mem _ (ih q (List.mem_cons_self _ _) c hc)
        · exact List.mem_cons_of_mem _ (ih p (List.mem_cons_of_mem _ hp) c hc)

theorem round_nonneg_isCount (q : ℚ) (h : 0 ≤ q) :
    isNullOrCount (JSVal.num (JSNum.round (JSNum.fin q))) := by
  right
  have hf : 0 ≤ ⌊q + 1 / 2⌋ := Int.floor_nonneg.2 (by linarith)
  refine ⟨⌊q + 1 / 2⌋.toNat, ?_⟩
  simp only [JSNum.round]
  congr 2
  have := Int.toNat_of_nonneg hf
  exact_mod_cast this.symm

theorem getLastD_mem {α : Type} (l : List α) :
    ∀ d : α, l ≠ [] → l.getLastD d ∈ l := by
  induction l with
  | nil => intro d h; exact absurd rfl h
  | cons a rest ih =>
    intro d _
    cases rest with
    | nil => simp [List.getLastD]
    | cons b bs =>
      have := ih a (List.cons_ne_nil _ _)
      simp only [List.getLastD] at this ⊢
      exact List.mem_cons_of_mem _ this

theorem stringToNumber_digits_dots (cs : List Char)
    (h : ∀ c ∈ cs, isDecDigit c = true ∨ c = '.') :
    JSNum.NonNegOrNaN (stringToNumber (String.mk cs)) := by
  have hns : ∀ c ∈ cs, isStrWhiteSpace c = false := by
    intro c hc
    rcases h c hc with hd | rfl
    · exact isDecDigit_not_space c hd
    · decide
  apply stringToNumber_nonneg
  intro r hr
  have htrim : trimChars cs = cs := trimChars_of_no_space cs hns
  simp only at hr
  rw [htrim] at hr
  have hm : '-' ∈ cs := by rw [hr]; exact List.mem_cons_self _ _
  rcases h '-' hm with hd | hd
  · revert hd; decide
  · revert hd; decide

theorem round_nonneg_count_or_infinity (n : JSNum)
    (h : n = JSNum.posInf ∨ ∃ v : ℚ, 0 ≤ v ∧ n = JSNum.fin v) :
    isNullOrCount (JSVal.num (JSNum.round n)) ∨
      JSVal.num (JSNum.round n) = JSVal.num JSNum.posInf := by
  rcases h with h | ⟨v, hv, h⟩
  · subst h
    exact Or.inr rfl
  · subst h
    exact Or.inl (round_nonneg_isCount v hv)

theorem countOfToken_count_or_infinity (token suf : List Char) :
    isNullOrCount (countOfToken token suf) ∨
      ((suf = ['k'] ∨ suf = ['m']) ∧ countOfToken token suf = JSVal.num JSNum.posInf) := by
  unfold countOfToken
  simp only
  split
  · -- a k or m suffix
    next hsuf =>
    generalize hcl : ((token.filter (fun c => !isStrWhiteSpace c)).map
      (fun c => if c = ',' then '.' else c)).filter (fun c => isDecDigit c || c = '.') = cleaned
    have hclean : ∀ c ∈ cleaned, isDecDigit c = true ∨ c = '.' := by
      intro c hc
      rw [← hcl] at hc
      have := (List.mem_filter.1 hc).2
      simpa using this
    have hparts : ∀ c ∈ (if (splitDots cleaned).length > 2 then
        (splitDots cleaned).dropLast.flatten ++ '.' :: (splitDots cleaned).getLastD []
        else cleaned), isDecDigit c = true ∨ c = '.' := by
      intro c hc
      split at hc
      · rcases List.mem_append.1 hc with hc | hc
        · obtain ⟨p, hp, hcp⟩ := List.mem_flatten.1 hc
          exact hclean c (splitDots_chars cleaned p (List.mem_of_mem_dropLast hp) c hcp)
        · rcases List.mem_cons.1 hc with rfl | hc
          · exact Or.inr rfl
          · by_cases hsp : splitDots cleaned = []
            · rw [hsp] at hc
              cases hc
            · exact hclean c (splitDots_chars cleaned _ (getLastD_mem _ [] hsp) c hc)
      · exact hclean c hc
    have hnn := JSNum.toBinary64_nonNegOrNaN _ (stringToNumber_digits_dots _ hparts)
    split
    · next v hv =>
      rw [hv] at hnn
      rcases hnn with h1 | h1 | ⟨q, hq, h1⟩
      · cases h1
      · cases h1
      · cases h1
        simp only [JSNum.mul]
        have hprod : (0 : ℚ) ≤ v * (if suf = ['k'] then 1000 else 1000000) := by
          split <;> positivity
        rcases round_nonneg_count_or_infinity _ (JSNum.toBinary64_nonneg _ hprod) with h2 | h2
        · exact Or.inl h2
        · exact Or.inr ⟨hsuf, h2⟩
    · exact Or.inl (Or.inl rfl)
  · -- no suffix
    left
    split
    · exact Or.inl rfl
    · next hne =>
      obtain ⟨v, hv⟩ := stringToNumber_digits _ hne
        (fun c hc => (List.mem_filter.1 hc).2)
      rw [hv]
      rcases JSNum.ofLiteral_nonneg (v : ℚ) (Nat.cast_nonneg v) with h1 | h1
      · rw [h1]
        exact Or.inl rfl
      · rw [h1]
        rcases JSNum.toBinary64_nat v with h2 | ⟨k, h2⟩
        · rw [h2]
          exact Or.inl rfl
        · rw [h2]
          exact Or.inr ⟨k, rfl⟩

/-- Every value returned by parseCountText is null, a non-negative integer, or
Infinity. -/
theorem parseCountText_count_or_infinity (text : Option String) :
    isNullCountOrInfinity (parseCountText text) := by
  unfold parseCountText
  split
  · exact Or.inl (Or.inl rfl)
  · split
    · exact Or.inl (Or.inl rfl)
    · simp only
      split
      · exact Or.inl (Or.inl rfl)
      · split
        · exact Or.inl (Or.inl rfl)
        · rcases countOfToken_count_or_infinity _ _ with h | ⟨_, h⟩
          · exact Or.inl h
          · exact Or.inr h

/-! ### Import of a cache payload -/

theorem isEmptyClean_cleanEntry (entry : Entry) :
    isEmptyClean (cleanEntry entry) = payloadAllEmpty entry := by
  unfold isEmptyClean cleanEntry payloadAllEmpty
  simp only
  have h1 : (JSVal.num (if entry.fetchedAt.toNumber.truthy then entry.fetchedAt.toNumber
      else JSNum.fin 0)).truthy = entry.fetchedAt.toNumber.truthy := by
    cases h : entry.fetchedAt.toNumber.truthy
    · simp [JSVal.truthy, JSNum.truthy]
    · simp [JSVal.truthy, h]
  have h2 : ∀ v : JSVal, (if v.isNullish then JSVal.null else JSVal.num v.toNumber).isNullish =
      v.isNullish := by
    intro v
    cases h : v.isNullish <;> simp [JSVal.isNullish]
  have h3 : (entry.location.or JSVal.null).truthy = entry.location.truthy := by
    unfold JSVal.or
    cases h : entry.location.truthy
    · simp [JSVal.truthy]
    · simp only [if_true, h]
  have h4 : (if entry.joinedYear.isNullish then JSVal.null else entry.joinedYear).truthy =
      entry.joinedYear.truthy := by
    cases h : entry.joinedYear.isNullish
    · simp
    · cases hj : entry.joinedYear <;> simp_all [JSVal.isNullish, JSVal.truthy]
  rw [h1, h2, h2, h3, h4]

theorem importOne_eq (acc : ObjMap Entry × Nat) (item : String × Option Entry) :
    importOne acc item =
      match importAccepted item with
      | some w => (acc.1.set w.1 w.2, acc.2 + 1)
      | none => acc := by
  unfold importOne importAccepted
  cases h2 : item.2 with
  | none => simp
  | some entry =>
    cases hn : normalizeHandle item.1 with
    | none => simp
    | some norm =>
      simp only [isEmptyClean_cleanEntry]
      cases payloadAllEmpty entry <;> simp

theorem importFold_eq (items : List (String × Option Entry)) :
    ∀ acc : ObjMap Entry × Nat,
      items.foldl importOne acc =
        (applyWrites (items.filterMap importAccepted) acc.1,
          acc.2 + (items.filterMap importAccepted).length) := by
  induction items with
  | nil => intro acc; rfl
  | cons item rest ih =>
    intro acc
    rw [List.foldl_cons, ih, importOne_eq]
    cases h : importAccepted item with
    | none => simp [List.filterMap_cons, h]
    | some w =>
      simp only [List.filterMap_cons, h, applyWrites, List.foldl_cons, List.length_cons]
      congr 1
      omega

theorem applyWrites_cons_map {α : Type} (ws : List (String × α)) :
    ∀ (k0 : String) (v0 : α) (rest : ObjMap α),
      applyWrites ws ((k0, v0) :: rest) =
        (k0, lastWritten ws k0 v0) ::
          applyWrites (ws.filter (fun w => decide (w.1 ≠ k0))) rest := by
  induction ws with
  | nil => intro k0 v0 rest; rfl
  | cons w ws1 ih =>
    intro k0 v0 rest
    by_cases hk : k0 = w.1
    · have hset : ObjMap.set ((k0, v0) :: rest) w.1 w.2 = (k0, w.2) :: rest := by
        simp [ObjMap.set, hk]
      simp only [applyWrites, List.foldl_cons] at ih ⊢
      rw [hset, ih]
      simp [lastWritten, List.filter_cons, hk]
    · have hset : ObjMap.set ((k0, v0) :: rest) w.1 w.2 =
          (k0, v0) :: ObjMap.set rest w.1 w.2 := by
        simp [ObjMap.set, hk]
      have hk2 : ¬ w.1 = k0 := fun h => hk h.symm
      simp only [applyWrites, List.foldl_cons] at ih ⊢
      rw [hset, ih]
      simp [lastWritten, List.filter_cons, hk2]

theorem lastWritten_filter_none {α : Type} (ws : List (String × α)) (k : String) :
    ∀ v : α, (∀ w ∈ ws, w.1 ≠ k) → lastWritten ws k v = v := by
  induction ws with
  | nil => intro v _; rfl
  | cons w ws1 ih =>
    intro v h
    have h1 : ¬ w.1 = k := h w (List.mem_cons_self _ _)
    simp only [lastWritten, List.foldl_cons, h1, if_false]
    exact ih v (fun x hx => h x (List.mem_cons_of_mem _ hx))

theorem lastWritten_idem {α : Type} (ws : List (String × α)) (k : String) :
    ∀ v : α, lastWritten ws k (lastWritten ws k v) = lastWritten ws k v := by
  induction ws with
  | nil => intro v; rfl
  | cons w ws1 ih =>
    intro v
    by_cases h1 : w.1 = k
    · simp only [lastWritten, List.foldl_cons, h1, if_true]
    · have e1 : ∀ u : α, lastWritten (w :: ws1) k u = lastWritten ws1 k u := by
        intro u
        simp only [lastWritten, List.foldl_cons, h1, if_false]
      rw [e1, e1, ih]

theorem applyWrites_nil_idem {α : Type} (n : Nat) :
    ∀ ws : List (String × α), ws.length ≤ n →
      applyWrites ws (applyWrites ws []) = applyWrites ws [] := by
  induction n with
  | zero =>
    intro ws h
    have : ws = [] := List.length_eq_zero.1 (Nat.le_zero.1 h)
    subst this
    rfl
  | succ n ih =>
    intro ws h
    cases ws with
    | nil => rfl
    | cons w ws1 =>
      have hfirst : applyWrites (w :: ws1) [] = applyWrites ws1 [(w.1, w.2)] := by
        simp [applyWrites, ObjMap.set]
      have hlen : (ws1.filter (fun x => decide (x.1 ≠ w.1))).length ≤ n := by
        have := List.length_filter_le (fun x => decide (x.1 ≠ w.1)) ws1
        simp only [List.length_cons] at h
        omega
      rw [hfirst, applyWrites_cons_map ws1, applyWrites_cons_map (w :: ws1)]
      have hl : lastWritten (w :: ws1) w.1 (lastWritten ws1 w.1 w.2) =
          lastWritten ws1 w.1 w.2 := by
        simp [lastWritten]
      have hf : (w :: ws1).filter (fun x => decide (x.1 ≠ w.1)) =
          ws1.filter (fun x => decide (x.1 ≠ w.1)) := by
        simp [List.filter_cons]
      rw [hl, hf, ih _ hlen]

theorem applyWrites_idem {α : Type} (m : ObjMap α) :
    ∀ ws : List (String × α), applyWrites ws (applyWrites ws m) = applyWrites ws m := by
  induction m with
  | nil => intro ws; exact applyWrites_nil_idem ws.length ws (le_refl _)
  | cons p rest ih =>
    intro ws
    obtain ⟨k0, v0⟩ := p
    rw [applyWrites_cons_map ws k0 v0 rest, applyWrites_cons_map ws, lastWritten_idem, ih]

theorem importCache_users (items : List (String × Option Entry)) (st : State) :
    (importCache (some items) st).2.users =
      applyWrites ((items.take 10000).filterMap importAccepted) st.users := by
  simp [importCache, importFold_eq]

/-- C16: for every cache state and every import payload, handling
importCache with the same payload twice in a row leaves the same users map as
handling it once (also when the payload is rejected as invalid). -/
theorem importCache_idempotent (incoming : Option (List (String × Option Entry)))
    (st : State) :
    (importCache incoming (importCache incoming st).2).2.users =
      (importCache incoming st).2.users := by
  cases incoming with
  | none => rfl
  | some items =>
    rw [importCache_users, importCache_users]
    exact applyWrites_idem _ _

/-- C17: in one iteration of the importCache loop a payload pair is stored
under its normalized key (as its cleaned entry) and counted exactly when it is
accepted, that is when its value is an object, its key normalizes to a handle
and its fields are not all empty; a rejected pair leaves the cache and the
counter as they are. For the whole handler, over the first 10000 pairs, the
returned count is the number of accepted pairs and the cache is the old one
with the accepted writes applied in order; a payload that is not an object is
answered with the error invalid_payload and changes nothing. -/
theorem importCache_accepts_exactly (items : List (String × Option Entry)) (st : State) :
    (∀ item : String × Option Entry,
      (importAccepted item).isSome = true ↔
        ∃ entry norm, item.2 = some entry ∧ normalizeHandle item.1 = some norm ∧
          payloadAllEmpty entry = false) ∧
    (∀ (acc : ObjMap Entry × Nat) (item : String × Option Entry) (entry : Entry)
        (norm : NormalizedHandle),
      item.2 = some entry → normalizeHandle item.1 = some norm →
      payloadAllEmpty entry = false →
      importOne acc item = (acc.1.set norm.handleKey (cleanEntry entry), acc.2 + 1)) ∧
    (∀ (acc : ObjMap Entry × Nat) (item : String × Option Entry),
      (importAccepted item).isSome = false → importOne acc item = acc) ∧
    (importCache (some items) st).1 =
      ImportResponse.ok
        ((items.take 10000).filter (fun i => (importAccepted i).isSome)).length ∧
    (importCache (some items) st).2.users =
      applyWrites ((items.take 10000).filterMap importAccepted) st.users ∧
    (importCache (some items) st).2.sched = st.sched ∧
    importCache none st = (ImportResponse.error "invalid_payload", st) := by
  refine ⟨?_, ?_, ?_, ?_, importCache_users items st, rfl, rfl⟩
  · intro item
    unfold importAccepted
    cases h2 : item.2 with
    | none => simp
    | some entry =>
      cases hn : normalizeHandle item.1 with
      | none => simp
      | some norm => cases payloadAllEmpty entry <;> simp
  · intro acc item entry norm h2 hn he
    rw [importOne_eq]
    simp [importAccepted, h2, hn, he]
  · intro acc item h
    rw [importOne_eq]
    cases ha : importAccepted item with
    | none => rfl
    | some w => rw [ha] at h; cases h
  · simp only [importCache, importFold_eq, Nat.zero_add]
    congr 1
    generalize items.take 10000 = l
    induction l with
    | nil => rfl
    | cons i rest ih =>
      cases h : importAccepted i <;> simp [List.filterMap_cons, List.filter_cons, h, ih]

/-- Witness for C17: a payload with a complete entry under " @Bob" and an
entry with no field under "carol" imports one entry. -/
theorem importCache_accepts_exactly_witness :
    (importCache (some [(" @Bob", some negativeCountEntry),
        ("carol", some (cleanEntry (makeUnavailable 0)))])
      { users := [], sched := Sched.init }).1 = ImportResponse.ok 1 :=
  (importCache_accepts_exactly [(" @Bob", some negativeCountEntry),
      ("carol", some (cleanEntry (makeUnavailable 0)))]
    { users := [], sched := Sched.init }).2.2.2.1.trans (by decide)

/-! ### Invariants of the entries written to the cache -/

theorem applyWrites_get {α : Type} (ws : List (String × α)) (k : String) (e : α) :
    ∀ m : ObjMap α, (applyWrites ws m).get k = some e →
      m.get k = some e ∨ ∃ w ∈ ws, w.1 = k ∧ w.2 = e := by
  induction ws with
  | nil => intro m h; exact Or.inl h
  | cons w rest ih =>
    intro m h
    simp only [applyWrites, List.foldl_cons] at h ih
    rcases ih _ h with h1 | ⟨w2, hw2, hk, he⟩
    · rw [ObjMap.get_set] at h1
      by_cases hkk : w.1 = k
      · rw [if_pos hkk] at h1
        cases h1
        exact Or.inr ⟨w, List.mem_cons_self _ _, hkk, rfl⟩
      · rw [if_neg hkk] at h1
        exact Or.inl h1
    · exact Or.inr ⟨w2, List.mem_cons_of_mem _ hw2, hk, he⟩

theorem importCache_get_origin (items : List (String × Option Entry)) (st : State)
    (k : String) (e : Entry)
    (h : (importCache (some items) st).2.users.get k = some e) :
    st.users.get k = some e ∨
      ∃ item ∈ items.take 10000, ∃ entry, item.2 = some entry ∧ e = cleanEntry entry := by
  rw [importCache_users] at h
  rcases applyWrites_get _ k e _ h with h1 | ⟨w, hw, _, he⟩
  · exact Or.inl h1
  · right
    obtain ⟨item, hitem, hacc⟩ := List.mem_filterMap.1 hw
    refine ⟨item, hitem, ?_⟩
    unfold importAccepted at hacc
    cases h2 : item.2 with
    | none => simp [h2] at hacc
    | some entry =>
      cases hn : normalizeHandle item.1 with
      | none => simp [h2, hn] at hacc
      | some norm =>
        refine ⟨entry, rfl, ?_⟩
        simp only [h2, hn] at hacc
        split at hacc
        · cases hacc
        · cases hacc
          exact he.symm

theorem complete_users (task : Task) (fetch : Option PageOutcome) (settings : Settings)
    (scrapedAt now : Int) (persistOk : Bool) (st : State) :
    (complete task fetch settings scrapedAt now persistOk st).users.get task.handleKey =
      some (match fetch with
        | none => makeUnavailable now
        | some page =>
          if persistOk then (scrapeProfileViaTab page task.handleKey scrapedAt).user
          else makeUnavailable now) ∧
    (∀ k, k ≠ task.handleKey →
      (complete task fetch settings scrapedAt now persistOk st).users.get k =
        st.users.get k) := by
  cases fetch with
  | none =>
    refine ⟨by simp [complete, ObjMap.get_set], ?_⟩
    intro k hk
    simp [complete, ObjMap.get_set, Ne.symm hk]
  | some page =>
    cases persistOk
    · refine ⟨by simp [complete, ObjMap.get_set], ?_⟩
      intro k hk
      simp [complete, ObjMap.get_set, Ne.symm hk]
    · refine ⟨by simp [complete, ObjMap.get_set], ?_⟩
      intro k hk
      simp [complete, ObjMap.get_set, Ne.symm hk]

theorem makeUnavailable_inv (now : Int) :
    UnavailableInv (makeUnavailable now) ∧ CountInv (makeUnavailable now) :=
  ⟨fun _ => ⟨rfl, rfl, rfl, rfl⟩, Or.inl rfl, Or.inl rfl⟩

theorem count_or_null (v : JSVal) (h : isNullCountOrInfinity v) :
    isNullCountOrInfinity (if v.isNullish then JSVal.null else v) := by
  by_cases hn : v.isNullish = true
  · rw [if_pos hn]
    exact Or.inl (Or.inl rfl)
  · rw [if_neg hn]
    exact h

theorem CountOrInfinityInv_of_CountInv {e : Entry} (h : CountInv e) :
    CountOrInfinityInv e :=
  ⟨Or.inl h.1, Or.inl h.2⟩

theorem extractUser_inv (raw : Option RawScrape) (handleKey : String) (now : Int) :
    UnavailableInv (extractUser raw handleKey now) ∧
    CountOrInfinityInv (extractUser raw handleKey now) := by
  have key : ∀ (c : Bool) (u : Entry), u.unavailable = JSVal.undefined →
      CountOrInfinityInv u →
      UnavailableInv (if c = true then makeUnavailable now else u) ∧
      CountOrInfinityInv (if c = true then makeUnavailable now else u) := by
    intro c u hu hc
    cases c
    · refine ⟨fun h => ?_, hc⟩
      simp [hu, JSVal.truthy] at h
    · exact ⟨(makeUnavailable_inv now).1,
        CountOrInfinityInv_of_CountInv (makeUnavailable_inv now).2⟩
  unfold extractUser
  cases raw with
  | none =>
    exact ⟨(makeUnavailable_inv now).1,
      CountOrInfinityInv_of_CountInv (makeUnavailable_inv now).2⟩
  | some r =>
    simp only
    by_cases hm : (match r.actualHandle with
        | some a => decide (a ≠ "") && decide (toLowerCase a.data ≠ toLowerCase handleKey.data)
        | none => false) = true
    · rw [if_pos hm]
      exact ⟨(makeUnavailable_inv now).1,
        CountOrInfinityInv_of_CountInv (makeUnavailable_inv now).2⟩
    · rw [if_neg hm]
      exact key _ _ rfl
        ⟨count_or_null _ (parseCountText_count_or_infinity _),
          count_or_null _ (parseCountText_count_or_infinity _)⟩

theorem scrapeProfileViaTab_inv (page : PageOutcome) (handleKey : String) (now : Int) :
    UnavailableInv (scrapeProfileViaTab page handleKey now).user ∧
    CountOrInfinityInv (scrapeProfileViaTab page handleKey now).user := by
  cases page with
  | failed rl =>
    exact ⟨(makeUnavailable_inv now).1,
      CountOrInfinityInv_of_CountInv (makeUnavailable_inv now).2⟩
  | extracted raw rl => exact extractUser_inv raw handleKey now

theorem complete_written_inv (task : Task) (fetch : Option PageOutcome)
    (settings : Settings) (scrapedAt now : Int) (persistOk : Bool) (st : State) :
    ∃ e, (complete task fetch settings scrapedAt now persistOk st).users.get
        task.handleKey = some e ∧ UnavailableInv e ∧ CountOrInfinityInv e := by
  refine ⟨_, (complete_users task fetch settings scrapedAt now persistOk st).1, ?_⟩
  cases fetch with
  | none =>
    exact ⟨(makeUnavailable_inv now).1,
      CountOrInfinityInv_of_CountInv (makeUnavailable_inv now).2⟩
  | some page =>
    cases persistOk
    · exact ⟨(makeUnavailable_inv now).1,
        CountOrInfinityInv_of_CountInv (makeUnavailable_inv now).2⟩
    · exact scrapeProfileViaTab_inv page task.handleKey scrapedAt

theorem cleanEntry_unavailableInv (entry : Entry) :
    UnavailableInv (cleanEntry entry) ↔
      (entry.unavailable.truthy = true →
        entry.followers.isNullish = true ∧ entry.following.isNullish = true ∧
        entry.joinedYear.isNullish = true ∧ entry.location.truthy = false) := by
  have h2 : ∀ v : JSVal, (if v.isNullish then JSVal.null else JSVal.num v.toNumber).isNullish =
      v.isNullish := by
    intro v
    cases h : v.isNullish <;> simp [JSVal.isNullish]
  have h3 : (entry.location.or JSVal.null).isNullish = !entry.location.truthy := by
    unfold JSVal.or
    cases h : entry.location.truthy
    · simp [JSVal.isNullish]
    · simp only [if_true, Bool.not_true]
      cases hl : entry.location <;> simp_all [JSVal.isNullish, JSVal.truthy]
  have h4 : (if entry.joinedYear.isNullish then JSVal.null else entry.joinedYear).isNullish =
      entry.joinedYear.isNullish := by
    cases h : entry.joinedYear.isNullish
    · simp [h]
    · simp [JSVal.isNullish]
  unfold UnavailableInv cleanEntry
  simp only [h2, h3, h4, JSVal.truthy, Bool.not_eq_true']

theorem cleanEntry_countInv (entry : Entry) :
    CountInv (cleanEntry entry) ↔
      (entry.followers.isNullish = true ∨
        ∃ n : Nat, entry.followers.toNumber = JSNum.fin (n : ℚ)) ∧
      (entry.following.isNullish = true ∨
        ∃ n : Nat, entry.following.toNumber = JSNum.fin (n : ℚ)) := by
  have h : ∀ v : JSVal,
      isNullOrCount (if v.isNullish then JSVal.null else JSVal.num v.toNumber) ↔
        (v.isNullish = true ∨ ∃ n : Nat, v.toNumber = JSNum.fin (n : ℚ)) := by
    intro v
    unfold isNullOrCount
    cases hv : v.isNullish
    · simp [JSVal.isNullish]
    · simp [JSVal.isNullish]
  unfold CountInv cleanEntry
  simp only [h]

/-- C14 (counterexample): importCache stores, for the payload entry
{fetchedAt: 1000, followers: 5, unavailable: true} under the key bob, an entry
that has unavailable = true and followers = 5. -/
theorem import_writes_unavailable_with_count :
    (importCache (some [("bob", some unavailableWithCount)])
      { users := [], sched := Sched.init }).2.users.get "bob" =
        some (cleanEntry unavailableWithCount) ∧
    (cleanEntry unavailableWithCount).unavailable = JSVal.bool true ∧
    (cleanEntry unavailableWithCount).followers = JSVal.num (JSNum.fin 5) ∧
    ¬ UnavailableInv (cleanEntry unavailableWithCount) := by
  refine ⟨by decide, rfl, rfl, ?_⟩
  intro h
  have := (h rfl).1
  revert this
  decide

/-- C14 (amended): every cache entry written by a fetch completion (the user
returned by the post-processing of an extraction result, the unavailable entry
of the failure paths, and the entry left under the key of the task) that has
unavailable = true carries no followers, following, joinedYear or location
value; importCache copies the unavailable flag and the measurement fields of
the payload entry, so the entry it writes keeps this property exactly when the
payload entry is not marked unavailable or carries no measurement value, and
every entry found in the cache after an import is an entry held before or a
cleaned payload entry. -/
theorem unavailable_invariant_of_written_entries (task : Task)
    (fetch : Option PageOutcome) (settings : Settings) (scrapedAt now : Int)
    (persistOk : Bool) (st : State) (items : List (String × Option Entry)) (entry : Entry) :
    (∃ e, (complete task fetch settings scrapedAt now persistOk st).users.get
        task.handleKey = some e ∧ UnavailableInv e) ∧
    (∀ k, k ≠ task.handleKey →
      (complete task fetch settings scrapedAt now persistOk st).users.get k =
        st.users.get k) ∧
    (∀ page, UnavailableInv (scrapeProfileViaTab page task.handleKey scrapedAt).user) ∧
    UnavailableInv (makeUnavailable now) ∧
    (UnavailableInv (cleanEntry entry) ↔
      (entry.unavailable.truthy = true →
        entry.followers.isNullish = true ∧ entry.following.isNullish = true ∧
        entry.joinedYear.isNullish = true ∧ entry.location.truthy = false)) ∧
    (∀ k e, (importCache (some items) st).2.users.get k = some e →
      st.users.get k = some e ∨
        ∃ item ∈ items.take 10000, ∃ en, item.2 = some en ∧ e = cleanEntry en) := by
  obtain ⟨e, he, hu, _⟩ := complete_written_inv task fetch settings scrapedAt now persistOk st
  exact ⟨⟨e, he, hu⟩, (complete_users task fetch settings scrapedAt now persistOk st).2,
    fun page => (scrapeProfileViaTab_inv page task.handleKey scrapedAt).1,
    (makeUnavailable_inv now).1, cleanEntry_unavailableInv entry,
    fun k e h => importCache_get_origin items st k e h⟩

/-- Witness for C14: the completion of a fetch of alice whose extraction found
nothing leaves an unavailable entry without measurement values. -/
theorem unavailable_invariant_of_written_entries_witness :
    ∃ e, (complete { handleKey := "alice", handle := "alice", enqueuedAt := 0 }
        (some (PageOutcome.extracted none false)) DEFAULT_SETTINGS 900 1000 true
        { users := [], sched := Sched.init }).users.get "alice" = some e ∧
      UnavailableInv e :=
  (unavailable_invariant_of_written_entries
    { handleKey := "alice", handle := "alice", enqueuedAt := 0 }
    (some (PageOutcome.extracted none false)) DEFAULT_SETTINGS 900 1000 true
    { users := [], sched := Sched.init } [] unavailableWithCount).1

/-- C15 (counterexample): importCache stores, for the payload entry
{fetchedAt: 1000, followers: -5} under the key bob, an entry whose followers
is -5, neither null nor a non-negative integer. -/
theorem import_writes_negative_count :
    (importCache (some [("bob", some negativeCountEntry)])
      { users := [], sched := Sched.init }).2.users.get "bob" =
        some (cleanEntry negativeCountEntry) ∧
    (cleanEntry negativeCountEntry).followers = JSVal.num (JSNum.fin (-5)) ∧
    ¬ isNullOrCount (cleanEntry negativeCountEntry).followers := by
  refine ⟨by decide, rfl, ?_⟩
  have hf : (cleanEntry negativeCountEntry).followers = JSVal.num (JSNum.fin (-5)) := rfl
  rw [hf]
  rintro (h | ⟨n, hn⟩)
  · cases h
  · injection hn with h1
    injection h1 with h2
    have h3 : (0 : ℚ) ≤ (n : ℚ) := Nat.cast_nonneg n
    rw [← h2] at h3
    norm_num at h3

/-- C15 (amended): every cache entry written by a fetch completion (through
parseCountText in the post-processing of an extraction result, the unavailable
entry of the failure paths, and the entry left under the key of the task) has
followers and following each null (or absent), a non-negative integer, or
Infinity; parseCountText returns Infinity only for a number with a k or m
suffix (the finiteness test comes before the product, which can round beyond
the binary64 range), without suffix the value is null or a non-negative
integer. importCache stores Number(followers) and Number(following) of the
payload entry without a range check, so the entry it writes has followers and
following null or a non-negative integer exactly when each payload value is
null, absent, or converts to a non-negative integer. -/
theorem count_invariant_of_written_entries (task : Task) (fetch : Option PageOutcome)
    (settings : Settings) (scrapedAt now : Int) (persistOk : Bool) (st : State)
    (text : Option String) (token suf : List Char) (entry : Entry) :
    (∃ e, (complete task fetch settings scrapedAt now persistOk st).users.get
        task.handleKey = some e ∧ CountOrInfinityInv e) ∧
    (∀ page, CountOrInfinityInv (scrapeProfileViaTab page task.handleKey scrapedAt).user) ∧
    CountInv (makeUnavailable now) ∧
    isNullCountOrInfinity (parseCountText text) ∧
    (isNullOrCount (countOfToken token suf) ∨
      ((suf = ['k'] ∨ suf = ['m']) ∧ countOfToken token suf = JSVal.num JSNum.posInf)) ∧
    (CountInv (cleanEntry entry) ↔
      (entry.followers.isNullish = true ∨
        ∃ n : Nat, entry.followers.toNumber = JSNum.fin (n : ℚ)) ∧
      (entry.following.isNullish = true ∨
        ∃ n : Nat, entry.following.toNumber = JSNum.fin (n : ℚ))) := by
  obtain ⟨e, he, _, hc⟩ := complete_written_inv task fetch settings scrapedAt now persistOk st
  exact ⟨⟨e, he, hc⟩, fun page => (scrapeProfileViaTab_inv page task.handleKey scrapedAt).2,
    (makeUnavailable_inv now).2, parseCountText_count_or_infinity text,
    countOfToken_count_or_infinity token suf, cleanEntry_countInv entry⟩

/-! ### Settings -/

theorem clampNumber_range (v : JSVal) (lo hi fb : ℚ) (hlh : lo ≤ hi) (hfb1 : lo ≤ fb)
    (hfb2 : fb ≤ hi) :
    inRange (JSVal.num (clampNumber v (JSNum.fin lo) (JSNum.fin hi) (JSNum.fin fb))) lo hi := by
  unfold clampNumber
  cases hn : v.toNumber with
  | nan => exact ⟨fb, rfl, hfb1, hfb2⟩
  | negInf => exact ⟨fb, rfl, hfb1, hfb2⟩
  | posInf => exact ⟨fb, rfl, hfb1, hfb2⟩
  | fin q =>
    simp only [JSNum.round]
    generalize ((⌊q + 1 / 2⌋ : Int) : ℚ) = r
    by_cases h1 : r < hi
    · have hmin : JSNum.min (JSNum.fin hi) (JSNum.fin r) = JSNum.fin r := by
        simp [JSNum.min, JSNum.lt, h1]
      rw [hmin]
      by_cases h2 : lo < r
      · exact ⟨r, by simp [JSNum.max, JSNum.lt, h2], h2.le, h1.le⟩
      · exact ⟨lo, by simp [JSNum.max, JSNum.lt, h2], le_refl _, hlh⟩
    · have hmin : JSNum.min (JSNum.fin hi) (JSNum.fin r) = JSNum.fin hi := by
        simp [JSNum.min, JSNum.lt, h1]
      rw [hmin]
      by_cases h2 : lo < hi
      · exact ⟨hi, by simp [JSNum.max, JSNum.lt, h2], hlh, le_refl _⟩
      · exact ⟨lo, by simp [JSNum.max, JSNum.lt, h2], le_refl _, hlh⟩

theorem clampNumber_fallback (v : JSVal) (lo hi fb : JSNum)
    (h : ∀ q : ℚ, v.toNumber ≠ JSNum.fin q) : clampNumber v lo hi fb = fb := by
  unfold clampNumber
  cases hn : v.toNumber with
  | fin q => exact absurd hn (h q)
  | nan => rfl
  | negInf => rfl
  | posInf => rfl

theorem getSettingsFromUI_inRange (ui : UIValues) : TunablesInRange (getSettingsFromUI ui) := by
  unfold TunablesInRange getSettingsFromUI clampInt
  exact ⟨clampNumber_range _ 1 120 20 (by norm_num) (by norm_num) (by norm_num),
    clampNumber_range _ 1 365 30 (by norm_num) (by norm_num) (by norm_num),
    clampNumber_range _ 1 168 24 (by norm_num) (by norm_num) (by norm_num),
    clampNumber_range _ 1 10 3 (by norm_num) (by norm_num) (by norm_num),
    clampNumber_range _ 1 60 5 (by norm_num) (by norm_num) (by norm_num),
    clampNumber_range _ 100 5000 500 (by norm_num) (by norm_num) (by norm_num),
    clampNumber_range _ 20 1000 200 (by norm_num) (by norm_num) (by norm_num),
    clampNumber_range _ 3000 60000 15000 (by norm_num) (by norm_num) (by norm_num),
    clampNumber_range _ 1000 60000 10000 (by norm_num) (by norm_num) (by norm_num)⟩

/-- C18 (counterexample): the saveSettings handler stores the incoming value
9999 for maxRequestsPerMinute as it is, outside [1,120]. -/
theorem saveSettings_stores_out_of_range :
    (saveSettings hugeRpmMessage).maxRequestsPerMinute = JSVal.num (JSNum.fin 9999) ∧
    ¬ TunablesInRange (saveSettings hugeRpmMessage) := by
  refine ⟨rfl, ?_⟩
  rintro ⟨⟨q, hq, _, h2⟩, _⟩
  have hq2 : JSVal.num (JSNum.fin 9999) = JSVal.num (JSNum.fin q) := hq
  injection hq2 with h3
  injection h3 with h4
  rw [← h4] at h2
  norm_num at h2

/-- C18 (amended): the settings object that the options page builds
(getSettingsFromUI) has every numeric tunable inside its fixed [min,max] range,
because clampInt/clampNumber returns a value of the range for every input, the
fallback when Number(input) is not finite; the saveSettings handler stores
every incoming value as given, and the default for an absent key, so the
stored tunables are in range after a save sent by the options page. -/
theorem settings_in_range_from_options_page (ui : UIValues) (incoming : IncomingSettings)
    (v : JSVal) (lo hi fb : ℚ) (hlh : lo ≤ hi) (hfb1 : lo ≤ fb) (hfb2 : fb ≤ hi) :
    TunablesInRange (getSettingsFromUI ui) ∧
    TunablesInRange (saveSettings (saveMessage ui)) ∧
    TunablesInRange DEFAULT_SETTINGS ∧
    inRange (JSVal.num (clampNumber v (JSNum.fin lo) (JSNum.fin hi) (JSNum.fin fb))) lo hi ∧
    ((∀ q : ℚ, v.toNumber ≠ JSNum.fin q) →
      clampNumber v (JSNum.fin lo) (JSNum.fin hi) (JSNum.fin fb) = JSNum.fin fb) ∧
    (saveSettings incoming).maxRequestsPerMinute =
      incoming.maxRequestsPerMinute.getD DEFAULT_SETTINGS.maxRequestsPerMinute ∧
    (saveSettings incoming).cacheTTLdays =
      incoming.cacheTTLdays.getD DEFAULT_SETTINGS.cacheTTLdays ∧
    (saveSettings incoming).unavailableTTLhours =
      incoming.unavailableTTLhours.getD DEFAULT_SETTINGS.unavailableTTLhours ∧
    (saveSettings incoming).maxConcurrentTabs =
      incoming.maxConcurrentTabs.getD DEFAULT_SETTINGS.maxConcurrentTabs ∧
    (saveSettings incoming).rateLimitPauseMinutes =
      incoming.rateLimitPauseMinutes.getD DEFAULT_SETTINGS.rateLimitPauseMinutes ∧
    (saveSettings incoming).scrollPauseMs =
      incoming.scrollPauseMs.getD DEFAULT_SETTINGS.scrollPauseMs ∧
    (saveSettings incoming).prefetchBatchSize =
      incoming.prefetchBatchSize.getD DEFAULT_SETTINGS.prefetchBatchSize ∧
    (saveSettings incoming).scrapeTabLoadTimeoutMs =
      incoming.scrapeTabLoadTimeoutMs.getD DEFAULT_SETTINGS.scrapeTabLoadTimeoutMs ∧
    (saveSettings incoming).scrapeProfileHeaderWaitMs =
      incoming.scrapeProfileHeaderWaitMs.getD DEFAULT_SETTINGS.scrapeProfileHeaderWaitMs := by
  refine ⟨getSettingsFromUI_inRange ui, getSettingsFromUI_inRange ui, ?_,
    clampNumber_range v lo hi fb hlh hfb1 hfb2, clampNumber_fallback v _ _ _,
    rfl, rfl, rfl, rfl, rfl, rfl, rfl, rfl, rfl⟩
  unfold TunablesInRange DEFAULT_SETTINGS
  exact ⟨⟨20, rfl, by norm_num, by norm_num⟩, ⟨30, rfl, by norm_num, by norm_num⟩,
    ⟨24, rfl, by norm_num, by norm_num⟩, ⟨3, rfl, by norm_num, by norm_num⟩,
    ⟨5, rfl, by norm_num, by norm_num⟩, ⟨500, rfl, by norm_num, by norm_num⟩,
    ⟨200, rfl, by norm_num, by norm_num⟩, ⟨15000, rfl, by norm_num, by norm_num⟩,
    ⟨10000, rfl, by norm_num, by norm_num⟩⟩

/-- Witness for C18: the input "9999" for a tunable of range [1,120] with
fallback 20 is clamped into the range. -/
theorem settings_in_range_from_options_page_witness :
    inRange (JSVal.num (clampNumber (JSVal.str "9999") (JSNum.fin 1) (JSNum.fin 120)
      (JSNum.fin 20))) 1 120 :=
  (settings_in_range_from_options_page
    { enabled := true, showFollowers := true, showFollowing := true, showJoined := true,
      showLocation := false, themeMode := "auto", maxRequestsPerMinute := "9999",
      cacheTTLdays := "30", rateLimitPauseMinutes := "5", scrollPauseMs := "500",
      prefetchBatchSize := "200", maxConcurrentTabs := "3", scrapeTabLoadTimeoutMs := "15000",
      scrapeProfileHeaderWaitMs := "10000", unavailableTTLhours := "24",
      colorGt1m := "#f4212e", colorK250to1m := "#ff9f0a", colorK25to250k := "#ffd60a",
      colorK5to25k := "#00ba7c", colorK1to5k := "#40dca0", colorLt1k := "#d02ed9" }
    hugeRpmMessage (JSVal.str "9999") 1 120 20 (by norm_num) (by norm_num)
    (by norm_num)).2.2.2.1

/-! ### Colours -/

theorem normalizeFollowerColors_fallback (src : ColorSource) :
    (normalizeFollowerColors src).gt1m = src.gt1m.orNullish src.red ∧
    (normalizeFollowerColors src).k250to1m = src.k250to1m.orNullish src.orange ∧
    (normalizeFollowerColors src).k25to250k = src.k25to250k.orNullish src.yellow ∧
    (normalizeFollowerColors src).k5to25k = src.k5to25k.orNullish src.green ∧
    (normalizeFollowerColors src).k1to5k = src.k1to5k.orNullish src.lightGreen ∧
    ((normalizeFollowerColors src).lt1k = src.lt1k.orNullish src.white ∨
      (normalizeFollowerColors src).lt1k = JSVal.str "#D02ED9") := by
  refine ⟨rfl, rfl, rfl, rfl, rfl, ?_⟩
  unfold normalizeFollowerColors
  simp only
  split
  · split
    · exact Or.inr rfl
    · exact Or.inl rfl
  · exact Or.inl rfl

/-- C19 (the code at the failing input): for the colour map {lt1k: "#fff"} the
function normalizeFollowerColors keeps lt1k = "#fff", which hexToRgb decodes to
(255,255,255), pure white; the same holds for "ffffff" without the hash sign,
while the spelling "#FFFFFF" with white space around it is replaced. -/
theorem short_white_is_kept :
    (normalizeFollowerColors shortWhiteColors).lt1k = JSVal.str "#fff" ∧
    hexToRgb "#fff" = some (255, 255, 255) ∧
    (normalizeFollowerColors { shortWhiteColors with lt1k := JSVal.str "ffffff" }).lt1k =
      JSVal.str "ffffff" ∧
    hexToRgb "ffffff" = some (255, 255, 255) ∧
    (normalizeFollowerColors { shortWhiteColors with lt1k := JSVal.str " #FFFFFF " }).lt1k =
      JSVal.str "#D02ED9" := by
  decide

/-! ### Contracts of the rate limiter and of the queue -/

/-- C22: pruneRequestTimes(rpm) at time now returns true exactly when fewer
than rpm recorded timestamps t satisfy t >= now - 60000, and it records
nothing: the rate window it leaves is the previous window restricted to those
timestamps, in the same order, and every other scheduler variable is
unchanged. -/
theorem admit_contract (rpm : ℚ) (now : Int) (s : Sched) :
    ((pruneRequestTimes (JSNum.fin rpm) now s).1 = true ↔
      ((s.requestTimes.countP (fun t => decide (t ≥ now - 60000)) : Nat) : ℚ) < rpm) ∧
    (pruneRequestTimes (JSNum.fin rpm) now s).2.requestTimes =
      s.requestTimes.filter (fun t => decide (t ≥ now - 60000)) ∧
    List.Sublist (pruneRequestTimes (JSNum.fin rpm) now s).2.requestTimes s.requestTimes ∧
    (pruneRequestTimes (JSNum.fin rpm) now s).2.queue = s.queue ∧
    (pruneRequestTimes (JSNum.fin rpm) now s).2.queued = s.queued ∧
    (pruneRequestTimes (JSNum.fin rpm) now s).2.inflight = s.inflight ∧
    (pruneRequestTimes (JSNum.fin rpm) now s).2.activeScrapes = s.activeScrapes ∧
    (pruneRequestTimes (JSNum.fin rpm) now s).2.rateLimitUntil = s.rateLimitUntil := by
  refine ⟨?_, rfl, List.filter_sublist _, rfl, rfl, rfl, rfl, rfl⟩
  unfold pruneRequestTimes
  simp only [JSNum.ofInt, JSNum.lt, decide_eq_true_eq, List.countP_eq_length_filter]
  norm_cast

theorem foldl_min_spec (ts : List Int) :
    ∀ t : Int, ts.foldl min t ∈ t :: ts ∧ ∀ u ∈ t :: ts, ts.foldl min t ≤ u := by
  induction ts with
  | nil => intro t; simp
  | cons a rest ih =>
    intro t
    obtain ⟨h1, h2⟩ := ih (min t a)
    simp only [List.foldl_cons]
    constructor
    · rcases List.mem_cons.1 h1 with h | h
      · rw [h]
        rcases min_choice t a with hm | hm
        · rw [hm]; exact List.mem_cons_self _ _
        · rw [hm]; exact List.mem_cons_of_mem _ (List.mem_cons_self _ _)
      · exact List.mem_cons_of_mem _ (List.mem_cons_of_mem _ h)
    · intro u hu
      have hm := h2 (min t a) (List.mem_cons_self _ _)
      rcases List.mem_cons.1 hu with rfl | hu
      · exact le_trans hm (min_le_left _ _)
      · rcases List.mem_cons.1 hu with rfl | hu
        · exact le_trans hm (min_le_right _ _)
        · exact h2 u (List.mem_cons_of_mem _ hu)

/-- The time returned by nextAllowedTime for a non-empty pruned window is
oldest + 60000, and at that time the oldest request is still kept by the
pruning (it leaves the window one millisecond later). -/
theorem nextAllowedTime_oldest_still_counted (now : Int) (s : Sched)
    (hne : s.requestTimes.filter (fun t => decide (t ≥ now - 60000)) ≠ []) :
    ∃ oldest ∈ s.requestTimes.filter (fun t => decide (t ≥ now - 60000)),
      (∀ u ∈ s.requestTimes.filter (fun t => decide (t ≥ now - 60000)), oldest ≤ u) ∧
      (nextAllowedTime now s).1 = oldest + 60000 ∧
      oldest ∈ (pruneRequestTimes (JSNum.fin 1) (oldest + 60000)
        (nextAllowedTime now s).2).2.requestTimes ∧
      oldest ∉ (pruneRequestTimes (JSNum.fin 1) (oldest + 60001)
        (nextAllowedTime now s).2).2.requestTimes := by
  rw [nextAllowedTime_snd]
  unfold nextAllowedTime pruneRequestTimes
  simp only
  generalize s.requestTimes.filter (fun t => decide (t ≥ now - 60000)) = kept at hne
  cases kept with
  | nil => exact absurd rfl hne
  | cons t ts =>
    obtain ⟨h1, h2⟩ := foldl_min_spec ts t
    refine ⟨ts.foldl min t, h1, h2, rfl, ?_, ?_⟩
    · rw [List.mem_filter]
      refine ⟨h1, ?_⟩
      simp
    · rw [List.mem_filter]
      rintro ⟨_, h⟩
      simp only [ge_iff_le, decide_eq_true_eq] at h
      omega

/-- C23 (the code at the failing input): with the single recorded request
1000, nextAllowedTime at time 2000 returns 61000; the admission check with a
cap of 1 at time 61000 still counts the request 1000 and returns false, and
returns true only from 61001 on. For an empty window nextAllowedTime returns
now. -/
theorem nextAllowedTime_one_ms_early :
    (nextAllowedTime 2000 { Sched.init with requestTimes := [1000] }).1 = 61000 ∧
    (pruneRequestTimes (JSNum.fin 1) 61000
      { Sched.init with requestTimes := [1000] }).2.requestTimes = [1000] ∧
    (pruneRequestTimes (JSNum.fin 1) 61000
      { Sched.init with requestTimes := [1000] }).1 = false ∧
    (pruneRequestTimes (JSNum.fin 1) 61001
      { Sched.init with requestTimes := [1000] }).1 = true ∧
    (nextAllowedTime 2000 Sched.init).1 = 2000 := by
  decide

/-- C24: enqueue(key, displayForm) leaves every scheduler variable unchanged
when the key is already queued or in flight; otherwise it appends exactly one
task for the key at the tail of the queue, adds the key to the queued set, and
leaves the in-flight set, activeScrapes, the rate window and the pause
unchanged. -/
theorem enqueue_contract (handleKey handle : String) (now : Int) (s : Sched) :
    ((handleKey ∈ s.queued ∨ handleKey ∈ s.inflight) →
      enqueue handleKey handle now s = s) ∧
    (handleKey ∉ s.queued → handleKey ∉ s.inflight →
      (enqueue handleKey handle now s).queue =
        s.queue ++ [{ handleKey := handleKey, handle := handle, enqueuedAt := now }] ∧
      (enqueue handleKey handle now s).queued = s.queued ++ [handleKey] ∧
      (enqueue handleKey handle now s).inflight = s.inflight ∧
      (enqueue handleKey handle now s).activeScrapes = s.activeScrapes ∧
      (enqueue handleKey handle now s).requestTimes = s.requestTimes ∧
      (enqueue handleKey handle now s).rateLimitUntil = s.rateLimitUntil) := by
  constructor
  · intro h
    unfold enqueue
    rcases h with h | h
    · simp [setHas, h]
    · simp [setHas, h]
  · intro hq hi
    unfold enqueue
    simp [setHas, setAdd, hq, hi]

/-- Witness for C24: enqueueing bob again while it is queued changes nothing,
and enqueueing carol appends one task. -/
theorem enqueue_contract_witness :
    enqueue "bob" "Bob" 7 (enqueue "bob" "bob" 1 Sched.init) =
      enqueue "bob" "bob" 1 Sched.init ∧
    (enqueue "carol" "carol" 7 (enqueue "bob" "bob" 1 Sched.init)).queue =
      (enqueue "bob" "bob" 1 Sched.init).queue ++
        [{ handleKey := "carol", handle := "carol", enqueuedAt := 7 }] :=
  ⟨(enqueue_contract "bob" "Bob" 7 (enqueue "bob" "bob" 1 Sched.init)).1 (by decide),
   ((enqueue_contract "carol" "carol" 7 (enqueue "bob" "bob" 1 Sched.init)).2
      (by decide) (by decide)).1⟩

/-! ### parseCountText on texts with several numbers -/

theorem parseCountText_of_pick (t : String) (raw : List Char) (m : CountMatch)
    (hne : t ≠ "")
    (hraw : trimChars (t.data.map (fun c => if c.toNat = 0xA0 then ' ' else c)) = raw)
    (hraw2 : raw ≠ [])
    (hpick : pickMatch (scanMatches raw.length none 0 raw) (findAnchor (toLowerCase raw)) =
      some m) :
    parseCountText (some t) = countOfToken m.token m.suf := by
  unfold parseCountText
  simp only [hne, if_false, hraw, hraw2, hpick]

theorem stringToNumber_digits_value (ds : List Char) (hne : ds ≠ [])
    (h : ∀ c ∈ ds, isDecDigit c = true) :
    stringToNumber (String.mk ds) = JSNum.ofLiteral (((readDigits 10 ds 0 0).1 : Nat) : ℚ) := by
  have htrim : trimChars ds = ds :=
    trimChars_of_no_space ds (fun c hc => isDecDigit_not_space c (h c hc))
  obtain ⟨v, hv⟩ := readDigits_all ds h 0 0
  have hdec : readUnsignedDecimal ds = JSNum.ofLiteral (v : ℚ) := by
    unfold readUnsignedDecimal
    have hinf : ds ≠ "Infinity".data := by
      intro he
      have := h 'I' (by rw [he]; decide)
      revert this
      decide
    rw [if_neg hinf, hv]
    simp [readExponent, hne]
  rw [hv]
  unfold stringToNumber
  simp only [htrim]
  have hnot : ∀ x : Char, isDecDigit x = false → x ∉ ds := by
    intro x hx hm
    rw [h x hm] at hx
    cases hx
  split
  · exact absurd rfl hne
  · exact absurd (by simp) (hnot 'x' (by decide))
  · exact absurd (by simp) (hnot 'X' (by decide))
  · exact absurd (by simp) (hnot 'o' (by decide))
  · exact absurd (by simp) (hnot 'O' (by decide))
  · exact absurd (by simp) (hnot 'b' (by decide))
  · exact absurd (by simp) (hnot 'B' (by decide))
  · exact absurd (by simp) (hnot '+' (by decide))
  · exact absurd (by simp) (hnot '-' (by decide))
  · exact hdec

theorem countOfToken_plain (token digits : List Char) (v : Nat)
    (hd : (token.filter (fun c => !isStrWhiteSpace c)).filter isDecDigit = digits)
    (hne : digits ≠ []) (hv : (readDigits 10 digits 0 0).1 = v)
    (hsmall : v < 2 ^ 53) :
    countOfToken token [] = JSVal.num (JSNum.fin (v : ℚ)) := by
  have hall : ∀ c ∈ digits, isDecDigit c = true := by
    intro c hc
    rw [← hd] at hc
    exact (List.mem_filter.1 hc).2
  have hnum : stringToNumber (String.mk digits) = JSNum.fin (v : ℚ) := by
    rw [stringToNumber_digits_value digits hne hall, hv]
    unfold JSNum.ofLiteral
    have h0 : (v : ℚ) < 2 ^ 53 := by exact_mod_cast hsmall
    have h3 : (2 : ℚ) ^ 53 < 2 ^ 1024 - 2 ^ 970 := by norm_num
    have h1 : ¬ ((2 : ℚ) ^ 1024 - 2 ^ 970 ≤ (v : ℚ)) := by
      intro hc
      linarith
    have h2 : ¬ ((v : ℚ) ≤ -((2 : ℚ) ^ 1024 - 2 ^ 970)) := by
      have : (0 : ℚ) ≤ (v : ℚ) := Nat.cast_nonneg v
      intro hc
      linarith
    rw [if_neg h1, if_neg h2]
  unfold countOfToken
  simp only [hd, hnum, JSNum.toBinary64_nat_exact v hsmall]
  simp [hne]

/-- C26 (the code at the failing input): for the text
"Joined May 20 931 Following" the tokenizer reads "20 931" as one grouped
number and parseCountText returns 20931, the number 931 written right before
the label merged with the earlier, white-space separated 20; the two examples
of the strategy comment give 1366. -/
theorem parseCountText_merges_across_space :
    parseCountText (some "Joined May 20 931 Following") = JSVal.num (JSNum.fin 20931) ∧
    scanMatches 27 none 0 "Joined May 20 931 Following".data =
      [{ token := "20 931".data, suf := [], idx := 11, endIdx := 17 }] ∧
    parseCountText (some "Joined May 2024 931 Following 1,366 Followers") =
      JSVal.num (JSNum.fin 1366) ∧
    parseCountText (some "1,366 Followers") = JSVal.num (JSNum.fin 1366) := by
  refine ⟨?_, by decide, ?_, ?_⟩
  · rw [parseCountText_of_pick "Joined May 20 931 Following"
      "Joined May 20 931 Following".data
      { token := "20 931".data, suf := [], idx := 11, endIdx := 17 } (by decide) (by decide)
      (by decide) (by decide)]
    have := countOfToken_plain "20 931".data "20931".data 20931 (by decide) (by decide)
      (by decide) (by norm_num)
    exact_mod_cast this
  · rw [parseCountText_of_pick "Joined May 2024 931 Following 1,366 Followers"
      "Joined May 2024 931 Following 1,366 Followers".data
      { token := "1,366".data, suf := [], idx := 30, endIdx := 35 } (by decide) (by decide)
      (by decide) (by decide)]
    have := countOfToken_plain "1,366".data "1366".data 1366 (by decide) (by decide)
      (by decide) (by norm_num)
    exact_mod_cast this
  · rw [parseCountText_of_pick "1,366 Followers" "1,366 Followers".data
      { token := "1,366".data, suf := [], idx := 0, endIdx := 5 } (by decide) (by decide)
      (by decide) (by decide)]
    have := countOfToken_plain "1,366".data "1366".data 1366 (by decide) (by decide)
      (by decide) (by norm_num)
    exact_mod_cast this

/-! ### Throttle signal and the stored entry -/

theorem extractUser_some (r : RawScrape) (handleKey : String) (now : Int) :
    (handleMismatch r handleKey = true ∨ noFields r = true →
      extractUser (some r) handleKey now = makeUnavailable now) ∧
    (¬ (handleMismatch r handleKey = true ∨ noFields r = true) →
      (extractUser (some r) handleKey now).unavailable = JSVal.undefined ∧
      (extractUser (some r) handleKey now).fetchedAt = JSVal.num (JSNum.ofInt now)) := by
  have hnull : ∀ v : JSVal, (if v.isNullish then JSVal.null else v).isNullish = v.isNullish := by
    intro v
    cases h : v.isNullish
    · simp [h]
    · simp [JSVal.isNullish]
  have hloc : (match r.location with
      | some l => if l = "" then JSVal.null else JSVal.str l
      | none => JSVal.null).truthy =
      !(match r.location with
        | some l => decide (l = "")
        | none => true) := by
    cases r.location with
    | none => rfl
    | some l =>
      by_cases hl : l = ""
      · simp [hl, JSVal.truthy]
      · simp [hl, JSVal.truthy]
  have hyear : ((parseJoinedYear r.joinedText).or JSVal.null).truthy =
      (parseJoinedYear r.joinedText).truthy := by
    unfold JSVal.or
    cases h : (parseJoinedYear r.joinedText).truthy
    · simp [JSVal.truthy]
    · simp [h]
  have hempty : ((if (parseCountText r.followersText).isNullish then JSVal.null
        else parseCountText r.followersText).isNullish &&
      (if (parseCountText r.followingText).isNullish then JSVal.null
        else parseCountText r.followingText).isNullish &&
      !(match r.location with
        | some l => if l = "" then JSVal.null else JSVal.str l
        | none => JSVal.null).truthy &&
      !((parseJoinedYear r.joinedText).or JSVal.null).truthy) = noFields r := by
    rw [hnull, hnull, hloc, hyear]
    unfold noFields
    simp
  unfold extractUser
  simp only
  have hm : (match r.actualHandle with
      | some a => decide (a ≠ "") && decide (toLowerCase a.data ≠ toLowerCase handleKey.data)
      | none => false) = handleMismatch r handleKey := rfl
  rw [hm, hempty]
  constructor
  · rintro (h | h)
    · rw [if_pos h]
    · by_cases h1 : handleMismatch r handleKey = true
      · rw [if_pos h1]
      · rw [if_neg h1, if_pos h]
  · intro h
    have h1 : ¬ handleMismatch r handleKey = true := fun hc => h (Or.inl hc)
    have h2 : ¬ noFields r = true := fun hc => h (Or.inr hc)
    rw [if_neg h1, if_neg h2]
    exact ⟨rfl, rfl⟩

theorem extractUser_unavailable_iff (raw : Option RawScrape) (handleKey : String)
    (now : Int) :
    ((extractUser raw handleKey now).unavailable.truthy = true ↔
      (raw = none ∨
        ∃ r, raw = some r ∧ (handleMismatch r handleKey = true ∨ noFields r = true))) ∧
    ((extractUser raw handleKey now).unavailable.truthy = true →
      extractUser raw handleKey now = makeUnavailable now) := by
  cases raw with
  | none =>
    refine ⟨⟨fun _ => Or.inl rfl, fun _ => rfl⟩, fun _ => rfl⟩
  | some r =>
    obtain ⟨h1, h2⟩ := extractUser_some r handleKey now
    by_cases hc : handleMismatch r handleKey = true ∨ noFields r = true
    · refine ⟨⟨fun _ => Or.inr ⟨r, rfl, hc⟩, fun _ => ?_⟩, fun _ => h1 hc⟩
      rw [h1 hc]
      rfl
    · have hu := (h2 hc).1
      refine ⟨⟨fun h => ?_, fun h => ?_⟩, fun h => ?_⟩
      · rw [hu] at h
        cases h
      · rcases h with h | ⟨r2, hr, h⟩
        · cases h
        · cases hr
          exact absurd h hc
      · rw [hu] at h
        cases h

/-- C21 (counterexample): the extraction for the key alice returns a followers
text but under the profile header of bob, without throttle signal; the entry
stored for alice is the unavailable entry although a field was extracted. And
when the durable write throws after a successful extraction, the entry left
for the key is the unavailable entry, not the returned user. -/
theorem stored_entry_unavailable_with_fields :
    noFields bobWithFollowers = false ∧
    (complete { handleKey := "alice", handle := "alice", enqueuedAt := 0 }
      (some (PageOutcome.extracted (some bobWithFollowers) false)) DEFAULT_SETTINGS 900 1000
      true { users := [], sched := Sched.init }).users.get "alice" =
        some (makeUnavailable 900) ∧
    (complete { handleKey := "bob", handle := "bob", enqueuedAt := 0 }
      (some (PageOutcome.extracted (some bobWithFollowers) false)) DEFAULT_SETTINGS 900 1000
      false { users := [], sched := Sched.init }).users.get "bob" =
        some (makeUnavailable 1000) ∧
    (scrapeProfileViaTab (PageOutcome.extracted (some bobWithFollowers) false) "bob"
      900).user.unavailable = JSVal.undefined := by
  have hnf : noFields bobWithFollowers = false := by
    have hp : parseCountText (some "5 Followers") = JSVal.num (JSNum.fin 5) := by
      rw [parseCountText_of_pick "5 Followers" "5 Followers".data
        { token := "5".data, suf := [], idx := 0, endIdx := 1 } (by decide) (by decide)
        (by decide) (by decide)]
      have := countOfToken_plain "5".data "5".data 5 (by decide) (by decide)
        (by decide) (by norm_num)
      exact_mod_cast this
    simp [noFields, bobWithFollowers, hp, JSVal.isNullish]
  have hmis : handleMismatch bobWithFollowers "alice" = true := by decide
  have hok : handleMismatch bobWithFollowers "bob" = false := by decide
  refine ⟨hnf, ?_, ?_, ?_⟩
  · rw [(complete_users _ _ _ _ _ _ _).1]
    simp only [scrapeProfileViaTab, if_true]
    rw [(extractUser_some bobWithFollowers "alice" 900).1 (Or.inl hmis)]
  · rw [(complete_users _ _ _ _ _ _ _).1]
    simp
  · simp only [scrapeProfileViaTab]
    exact ((extractUser_some bobWithFollowers "bob" 900).2 (by simp [hnf, hok])).1

/-- C21 (amended): a throttle signal does not by itself mark the entry
unavailable. For every fetch result, when the completion handler runs without
an exception the cache entry stored for the key equals the returned user
whether rateLimited is true or false, and the returned user does not depend on
rateLimited; when the durable write or the broadcast throws, the entry left
for the key is the unavailable entry, again whatever rateLimited is. The
returned user is an unavailable entry exactly when the fetch failed in the
tab, the extraction returned no result, the profile header shows a handle
other than the requested key, or none of the four fields was extracted. -/
theorem throttle_flag_does_not_change_entry (task : Task) (raw : Option RawScrape)
    (rateLimited : Bool) (settings : Settings) (scrapedAt now : Int) (st : State) :
    (complete task (some (PageOutcome.extracted raw rateLimited)) settings scrapedAt now true
      st).users.get task.handleKey = some (extractUser raw task.handleKey scrapedAt) ∧
    (scrapeProfileViaTab (PageOutcome.extracted raw rateLimited) task.handleKey
      scrapedAt).user = extractUser raw task.handleKey scrapedAt ∧
    (complete task (some (PageOutcome.failed rateLimited)) settings scrapedAt now true
      st).users.get task.handleKey = some (makeUnavailable scrapedAt) ∧
    (complete task (some (PageOutcome.extracted raw rateLimited)) settings scrapedAt now false
      st).users.get task.handleKey = some (makeUnavailable now) ∧
    ((extractUser raw task.handleKey scrapedAt).unavailable.truthy = true ↔
      (raw = none ∨
        ∃ r, raw = some r ∧ (handleMismatch r task.handleKey = true ∨ noFields r = true))) ∧
    ((extractUser raw task.handleKey scrapedAt).unavailable.truthy = true →
      extractUser raw task.handleKey scrapedAt = makeUnavailable scrapedAt) := by
  refine ⟨?_, rfl, ?_, ?_, (extractUser_unavailable_iff raw task.handleKey scrapedAt).1,
    (extractUser_unavailable_iff raw task.handleKey scrapedAt).2⟩
  · rw [(complete_users _ _ _ _ _ _ _).1]
    rfl
  · rw [(complete_users _ _ _ _ _ _ _).1]
    rfl
  · rw [(complete_users _ _ _ _ _ _ _).1]
    rfl

/-- Witness for C21: an extraction for alice that found nothing, flagged as
throttled, leaves the unavailable entry because no field was extracted. -/
theorem throttle_flag_does_not_change_entry_witness :
    extractUser none "alice" 900 = makeUnavailable 900 :=
  (throttle_flag_does_not_change_entry
    { handleKey := "alice", handle := "alice", enqueuedAt := 0 } none true DEFAULT_SETTINGS
    900 1000 { users := [], sched := Sched.init }).2.2.2.2.2 rfl

/-! ### Characterisation of the dispatch loop -/

theorem popDispatch_cons (now : Int) (s : Sched) (t : Task) (rest : List Task)
    (hq : s.queue = t :: rest) :
    popDispatch now s =
      { s with
        queue := rest
        queued := setDelete s.queued t.handleKey
        inflight := setAdd s.inflight t.handleKey
        activeScrapes := s.activeScrapes + 1
        requestTimes := s.requestTimes ++ [now] } := by
  unfold popDispatch
  rw [hq]

theorem windowAt_append_now (now : Int) (ts : List Int) :
    (ts.filter (fun t => decide (t ≥ now - 60000)) ++ [now]).filter
        (fun t => decide (t ≥ now - 60000)) =
      ts.filter (fun t => decide (t ≥ now - 60000)) ++ [now] := by
  rw [List.filter_append, List.filter_filter]
  simp

theorem isPaused_congr (now : Int) (s t : Sched) (h : t.rateLimitUntil = s.rateLimitUntil) :
    isPausedForRateLimit now t = isPausedForRateLimit now s := by
  unfold isPausedForRateLimit
  rw [h]

theorem JSNum_lt_ofInt (a b : Int) :
    JSNum.lt (JSNum.ofInt a) (JSNum.ofInt b) = decide (a < b) := by
  simp only [JSNum.ofInt, JSNum.lt]
  by_cases h : a < b
  · have : (a : ℚ) < (b : ℚ) := by exact_mod_cast h
    simp [h, this]
  · have : ¬ ((a : ℚ) < (b : ℚ)) := by exact_mod_cast h
    simp [h, this]

theorem JSNum_ge_ofInt (a b : Int) :
    JSNum.ge (JSNum.ofInt a) (JSNum.ofInt b) = decide (b ≤ a) := by
  have h := JSNum_lt_ofInt a b
  simp only [JSNum.ge, JSNum.ofInt] at h ⊢
  rw [h]
  by_cases hb : b ≤ a
  · simp [hb]
  · simp [hb, not_le.1 hb]

theorem dispatchLoop_spec (r m : Int) (now : Int) (fuel : Nat) :
    ∀ s : Sched, s.queue.length ≤ fuel → isPausedForRateLimit now s = false →
      (dispatchLoop (JSNum.ofInt r) (JSNum.ofInt m) now fuel s).dispatched =
        s.queue.take (dispatchCount s.queue.length m s.activeScrapes r (windowAt now s).length) ∧
      (dispatchLoop (JSNum.ofInt r) (JSNum.ofInt m) now fuel s).sched.queue =
        s.queue.drop (dispatchCount s.queue.length m s.activeScrapes r (windowAt now s).length) ∧
      (dispatchLoop (JSNum.ofInt r) (JSNum.ofInt m) now fuel s).sched.activeScrapes =
        s.activeScrapes +
          (dispatchCount s.queue.length m s.activeScrapes r (windowAt now s).length : Nat) ∧
      (dispatchLoop (JSNum.ofInt r) (JSNum.ofInt m) now fuel s).sched.requestTimes =
        (if s.queue = [] ∨ m ≤ s.activeScrapes then s.requestTimes
         else windowAt now s ++ List.replicate
          (dispatchCount s.queue.length m s.activeScrapes r (windowAt now s).length) now) ∧
      (dispatchLoop (JSNum.ofInt r) (JSNum.ofInt m) now fuel s).sched.rateLimitUntil =
        s.rateLimitUntil := by
  induction fuel with
  | zero =>
    intro s hlen _
    have hq : s.queue = [] := List.length_eq_zero.1 (Nat.le_zero.1 hlen)
    simp [dispatchLoop, hq, dispatchCount]
  | succ n ih =>
    intro s hlen hp
    unfold dispatchLoop
    cases hq : s.queue with
    | nil => simp [dispatchCount, hq]
    | cons t rest =>
      simp only [hp, Bool.false_eq_true, if_false]
      have hge := JSNum_ge_ofInt s.activeScrapes m
      rw [hge]
      by_cases hm : m ≤ s.activeScrapes
      · have hk : dispatchCount (rest.length + 1) m s.activeScrapes r (windowAt now s).length =
            0 := by
          unfold dispatchCount
          omega
        simp [hm, hk, hq]
      · simp only [hm, decide_False, Bool.false_eq_true, if_false]
        have hpr : (pruneRequestTimes (JSNum.ofInt r) now s).1 =
            decide (((windowAt now s).length : Int) < r) :=
          JSNum_lt_ofInt _ r
        have hps : (pruneRequestTimes (JSNum.ofInt r) now s).2 =
            { s with requestTimes := windowAt now s } := rfl
        rw [hpr, hps]
        by_cases hc : ((windowAt now s).length : Int) < r
        · simp only [hc, decide_True, Bool.not_true, Bool.false_eq_true, if_false]
          have hq1 : ({ s with requestTimes := windowAt now s } : Sched).queue = t :: rest := hq
          rw [popDispatch_cons now _ t rest hq1]
          simp only
          have hlen2 : rest.length ≤ n := by
            rw [hq] at hlen
            simpa using hlen
          obtain ⟨h1, h2, h3, h4, h5⟩ := ih
            { s with
              queue := rest
              queued := setDelete s.queued t.handleKey
              inflight := setAdd s.inflight t.handleKey
              activeScrapes := s.activeScrapes + 1
              requestTimes := windowAt now s ++ [now] } hlen2
            (by rw [← hp]; exact isPaused_congr now s _ rfl)
          simp only at h1 h2 h3 h4 h5
          have hw : windowAt now
              { s with
                queue := rest
                queued := setDelete s.queued t.handleKey
                inflight := setAdd s.inflight t.handleKey
                activeScrapes := s.activeScrapes + 1
                requestTimes := windowAt now s ++ [now] } = windowAt now s ++ [now] := by
            simp only [windowAt]
            exact windowAt_append_now now s.requestTimes
          rw [hw] at h1 h2 h3 h4
          have hk : dispatchCount (rest.length + 1) m s.activeScrapes r (windowAt now s).length =
              dispatchCount rest.length m (s.activeScrapes + 1) r
                (windowAt now s ++ [now]).length + 1 := by
            unfold dispatchCount
            simp only [List.length_append, List.length_singleton]
            push_cast
            omega
          simp only [List.length_cons, hk]
          refine ⟨?_, ?_, ?_, ?_, h5⟩
          · rw [h1]
            rfl
          · rw [h2]
            rfl
          · rw [h3]
            push_cast
            ring
          · rw [h4]
            have hne : ¬ ((t :: rest = [] ∨ False)) := by simp
            rw [if_neg hne]
            by_cases hb : rest = [] ∨ m ≤ s.activeScrapes + 1
            · rw [if_pos hb]
              have hk0 : dispatchCount rest.length m (s.activeScrapes + 1) r
                  (windowAt now s ++ [now]).length = 0 := by
                unfold dispatchCount
                rcases hb with hb | hb
                · simp [hb]
                · omega
              rw [hk0]
              rfl
            · rw [if_neg hb, List.append_assoc]
              rfl
        · have hk : dispatchCount (rest.length + 1) m s.activeScrapes r
              (windowAt now s).length = 0 := by
            unfold dispatchCount
            omega
          simp [hc, hk, hq, hm]

theorem windowAt_append_replicate (now : Int) (ts : List Int) (k : Nat) :
    (ts.filter (fun t => decide (t ≥ now - 60000)) ++ List.replicate k now).filter
        (fun t => decide (t ≥ now - 60000)) =
      ts.filter (fun t => decide (t ≥ now - 60000)) ++ List.replicate k now := by
  rw [List.filter_append, List.filter_filter]
  have hrep : (List.replicate k now).filter (fun t => decide (t ≥ now - 60000)) =
      List.replicate k now := by
    apply List.filter_eq_self.2
    intro t ht
    have := List.eq_of_mem_replicate ht
    subst this
    simp
  rw [hrep]
  simp

/-- C25: one activation of processQueue at time now with the feature enabled,
no pause in force, a consumer tab present and integer caps rpm and maxTabs
dispatches exactly the first k tasks of the queue in their order, where
k = min(queue length, max(0, maxTabs - activeScrapes), max(0, rpm - c)) and c
counts the recorded timestamps not older than now - 60000; afterwards the queue
is the remaining suffix, activeScrapes has grown by k, and the recorded
timestamps are the ones still inside the window followed by k copies of now
(they are left untouched when the queue was empty). -/
theorem processQueue_dispatches_first_k (settings : Settings) (now rpm maxTabs : Int)
    (s : Sched) (k : Nat)
    (hen : settings.enabled.truthy = true)
    (hp : isPausedForRateLimit now s = false)
    (hr : effectiveRpm settings = JSNum.ofInt rpm)
    (hm : effectiveMaxTabs settings = JSNum.ofInt maxTabs)
    (hk : (k : Int) = min (s.queue.length : Int)
      (min (max 0 (maxTabs - s.activeScrapes))
        (max 0 (rpm - ((s.requestTimes.filter (fun t => decide (t ≥ now - 60000))).length : Int))))) :
    (processQueue settings true now s).dispatched = s.queue.take k ∧
    (processQueue settings true now s).sched.queue = s.queue.drop k ∧
    (processQueue settings true now s).sched.activeScrapes = s.activeScrapes + (k : Int) ∧
    (processQueue settings true now s).sched.requestTimes =
      (if s.queue = [] then s.requestTimes
       else s.requestTimes.filter (fun t => decide (t ≥ now - 60000)) ++ List.replicate k now) := by
  have hk2 : dispatchCount s.queue.length maxTabs s.activeScrapes rpm (windowAt now s).length =
      k := by
    unfold dispatchCount windowAt
    omega
  obtain ⟨h1, h2, h3, h4, _⟩ := dispatchLoop_spec rpm maxTabs now s.queue.length s le_rfl hp
  rw [hk2] at h1 h2 h3 h4
  have hw : windowAt now s = s.requestTimes.filter (fun t => decide (t ≥ now - 60000)) := rfl
  rw [hw] at h4
  unfold processQueue
  simp only [hen, hp, hr, hm, Bool.not_true, Bool.false_eq_true, if_false]
  split
  next heq =>
    refine ⟨h1, h2, h3, ?_⟩
    rw [h4]
    by_cases hq : s.queue = []
    · simp [hq]
    · rw [if_neg hq]
      by_cases hmt : maxTabs ≤ s.activeScrapes
      · exfalso
        have hk0 : k = 0 := by omega
        rw [h2, hk0] at heq
        exact hq heq
      · rw [if_neg (by simp [hq, hmt])]
  next t rest heq =>
    refine ⟨h1, ?_, ?_, ?_⟩
    · rw [nextAllowedTime_snd]
      exact h2
    · rw [nextAllowedTime_snd]
      exact h3
    · rw [nextAllowedTime_snd]
      simp only
      rw [h4]
      have hq : s.queue ≠ [] := by
        intro hq
        rw [h2, hq] at heq
        simp at heq
      rw [if_neg hq]
      by_cases hmt : maxTabs ≤ s.activeScrapes
      · have hk0 : k = 0 := by omega
        rw [if_pos (Or.inr hmt), hk0]
        simp
      · rw [if_neg (by simp [hq, hmt])]
        exact windowAt_append_replicate now s.requestTimes k

theorem effectiveRpm_default : effectiveRpm DEFAULT_SETTINGS = JSNum.ofInt 20 := by
  simp only [effectiveRpm, DEFAULT_SETTINGS, JSVal.or, JSVal.truthy, JSNum.truthy,
    JSVal.toNumber, JSNum.max, JSNum.min, JSNum.lt, JSNum.ofInt]
  norm_num

theorem effectiveMaxTabs_default : effectiveMaxTabs DEFAULT_SETTINGS = JSNum.ofInt 3 := by
  simp only [effectiveMaxTabs, DEFAULT_SETTINGS, JSVal.or, JSVal.truthy, JSNum.truthy,
    JSVal.toNumber, JSNum.max, JSNum.min, JSNum.lt, JSNum.ofInt]
  norm_num

/-- Witness for C25: with the default caps (20 per minute, 3 tabs), four tasks
queued, one fetch in flight and one of two recorded dispatches still inside the
window at time 70000, the activation dispatches the first two tasks. -/
theorem processQueue_dispatches_first_k_witness :
    DEFAULT_SETTINGS.enabled.truthy = true ∧
    isPausedForRateLimit 70000 fourQueued = false ∧
    effectiveRpm DEFAULT_SETTINGS = JSNum.ofInt 20 ∧
    effectiveMaxTabs DEFAULT_SETTINGS = JSNum.ofInt 3 ∧
    ((2 : Nat) : Int) = min (fourQueued.queue.length : Int)
      (min (max 0 (3 - fourQueued.activeScrapes))
        (max 0 (20 - ((fourQueued.requestTimes.filter
          (fun t => decide (t ≥ 70000 - 60000))).length : Int)))) ∧
    (processQueue DEFAULT_SETTINGS true 70000 fourQueued).dispatched =
      [{ handleKey := "alice", handle := "Alice", enqueuedAt := 60000 },
       { handleKey := "bob", handle := "bob", enqueuedAt := 60001 }] ∧
    (processQueue DEFAULT_SETTINGS true 70000 fourQueued).sched.queue =
      [{ handleKey := "carol", handle := "carol", enqueuedAt := 60002 },
       { handleKey := "erin", handle := "erin", enqueuedAt := 60003 }] ∧
    (processQueue DEFAULT_SETTINGS true 70000 fourQueued).sched.activeScrapes = 3 ∧
    (processQueue DEFAULT_SETTINGS true 70000 fourQueued).sched.requestTimes =
      [50000, 70000, 70000] :=
  ⟨by decide, by simp [isPausedForRateLimit, fourQueued, JSNum.truthy],
   effectiveRpm_default, effectiveMaxTabs_default, by decide,
   processQueue_dispatches_first_k DEFAULT_SETTINGS 70000 20 3 fourQueued 2 (by decide)
     (by simp [isPausedForRateLimit, fourQueued, JSNum.truthy])
     effectiveRpm_default effectiveMaxTabs_default (by decide)⟩

/-! ### The counter agrees with the in-flight set -/

theorem SlotInv_of_eq {s t : Sched} (hi : t.inflight = s.inflight)
    (ha : t.activeScrapes = s.activeScrapes) (h : SlotInv s) : SlotInv t := by
  unfold SlotInv at *
  rw [hi, ha]
  exact h

theorem SlotInv_init : SlotInv Sched.init := by
  simp [SlotInv, Sched.init]

theorem SlotInv_enqueue (handleKey handle : String) (now : Int) {s : Sched}
    (h : SlotInv s) : SlotInv (enqueue handleKey handle now s) := by
  unfold enqueue
  split
  · exact h
  · exact SlotInv_of_eq rfl rfl h

theorem SlotInv_popDispatch (now : Int) {s : Sched} (hd : DedupInv s) (h : SlotInv s) :
    SlotInv (popDispatch now s) := by
  unfold popDispatch
  cases hq : s.queue with
  | nil => simpa using h
  | cons task rest =>
    obtain ⟨h1, _, h3⟩ := hd
    obtain ⟨hn, ha⟩ := h
    have hqd : task.handleKey ∈ s.queued := by
      rw [h3, hq]
      simp
    have hni : task.handleKey ∉ s.inflight := fun hi => h1 _ ⟨hqd, hi⟩
    have hadd : setAdd s.inflight task.handleKey = s.inflight ++ [task.handleKey] := by
      unfold setAdd
      rw [if_neg hni]
    unfold SlotInv
    simp only [hadd, List.length_append, List.length_singleton]
    refine ⟨?_, ?_⟩
    · rw [List.nodup_append]
      refine ⟨hn, List.nodup_singleton _, ?_⟩
      intro a ha1 ha2
      rw [List.mem_singleton] at ha2
      subst ha2
      exact hni ha1
    · rw [ha]
      push_cast
      rfl

theorem SlotInv_dispatchLoop (rpm maxTabs : JSNum) (now : Int) (fuel : Nat) :
    ∀ {s : Sched}, DedupInv s → SlotInv s →
      SlotInv (dispatchLoop rpm maxTabs now fuel s).sched := by
  induction fuel with
  | zero => intro s _ h; simpa [dispatchLoop] using h
  | succ n ih =>
    intro s hd h
    unfold dispatchLoop
    split
    · exact h
    · split
      · exact h
      · split
        · exact h
        · simp only
          split
          · exact SlotInv_of_eq rfl rfl h
          · exact ih (DedupInv_popDispatch now (DedupInv_prune rpm now hd))
              (SlotInv_popDispatch now (DedupInv_prune rpm now hd) (SlotInv_of_eq rfl rfl h))

theorem SlotInv_processQueue (settings : Settings) (hasTabs : Bool) (now : Int) {s : Sched}
    (hd : DedupInv s) (h : SlotInv s) : SlotInv (processQueue settings hasTabs now s).sched := by
  unfold processQueue
  split
  · exact h
  · split
    · exact h
    · split
      · exact h
      · have hl := SlotInv_dispatchLoop (effectiveRpm settings) (effectiveMaxTabs settings)
          now s.queue.length hd h
        simp only
        split
        · exact hl
        · rw [nextAllowedTime_snd]
          exact SlotInv_of_eq rfl rfl hl

theorem length_setDelete_of_mem {l : List String} (k : String) (hn : l.Nodup) (hk : k ∈ l) :
    ((setDelete l k).length : Int) = (l.length : Int) - 1 := by
  have he : setDelete l k = l.erase k := by
    rw [hn.erase_eq_filter]
    unfold setDelete
    apply List.filter_congr
    intro x _
    by_cases hx : x = k <;> simp [hx]
  rw [he, List.length_erase_of_mem hk]
  have hpos : 0 < l.length := List.length_pos_of_mem hk
  omega

theorem SlotInv_completeSched (handleKey : String) (rateLimited : Bool)
    (settings : Settings) (now : Int) {s : Sched} (h : SlotInv s)
    (hk : handleKey ∈ s.inflight) :
    SlotInv (completeSched handleKey rateLimited settings now s) ∧
    (completeSched handleKey rateLimited settings now s).activeScrapes =
      s.activeScrapes - 1 := by
  obtain ⟨h1, h2⟩ := completeSched_release handleKey rateLimited settings now s
  obtain ⟨hn, ha⟩ := h
  have hlen := length_setDelete_of_mem handleKey hn hk
  have hpos : 0 < s.inflight.length := List.length_pos_of_mem hk
  have hact : (completeSched handleKey rateLimited settings now s).activeScrapes =
      s.activeScrapes - 1 := by
    rw [h2]
    omega
  refine ⟨⟨?_, ?_⟩, hact⟩
  · rw [h1]
    exact hn.filter _
  · rw [hact, h1, hlen, ha]

theorem SlotInv_clearRateLimit {s : Sched} (h : SlotInv s) : SlotInv (clearRateLimit s) := by
  unfold clearRateLimit
  split
  · exact SlotInv_of_eq rfl rfl h
  · exact h

theorem DedupInv_SlotInv_reachable {s : Sched} (h : Reachable s) : DedupInv s ∧ SlotInv s := by
  induction h with
  | init => exact ⟨DedupInv_init, SlotInv_init⟩
  | enqueue handleKey handle now _ ih =>
    exact ⟨DedupInv_enqueue handleKey handle now ih.1, SlotInv_enqueue handleKey handle now ih.2⟩
  | dispatch now _ ih =>
    exact ⟨DedupInv_popDispatch now ih.1, SlotInv_popDispatch now ih.1 ih.2⟩
  | activate settings hasTabs now _ ih =>
    exact ⟨DedupInv_processQueue settings hasTabs now ih.1,
      SlotInv_processQueue settings hasTabs now ih.1 ih.2⟩
  | complete handleKey rateLimited settings now _ hk ih =>
    exact ⟨DedupInv_completeSched handleKey rateLimited settings now ih.1,
      (SlotInv_completeSched handleKey rateLimited settings now ih.2 hk).1⟩
  | pauseExpired _ ih => exact ⟨DedupInv_clearRateLimit ih.1, SlotInv_clearRateLimit ih.2⟩

theorem dispatchLoop_active_le (rpm : JSNum) (m : Int) (now : Int) (fuel : Nat) :
    ∀ s : Sched,
      (dispatchLoop rpm (JSNum.ofInt m) now fuel s).sched.activeScrapes ≤
        max m s.activeScrapes := by
  induction fuel with
  | zero => intro s; simp [dispatchLoop]
  | succ n ih =>
    intro s
    unfold dispatchLoop
    cases hq : s.queue with
    | nil => simp
    | cons t rest =>
      simp only
      split
      · simp
      · rw [JSNum_ge_ofInt]
        by_cases hm : m ≤ s.activeScrapes
        · simp [hm]
        · simp only [hm, decide_False, Bool.false_eq_true, if_false]
          split
          · exact le_max_right _ _
          · have hq1 : (pruneRequestTimes rpm now s).2.queue = t :: rest := hq
            have hpa : (popDispatch now (pruneRequestTimes rpm now s).2).activeScrapes =
                s.activeScrapes + 1 := by
              rw [popDispatch_cons now _ t rest hq1]
              rfl
            have h := ih (popDispatch now (pruneRequestTimes rpm now s).2)
            rw [hpa] at h
            refine le_trans h ?_
            omega

theorem processQueue_active_le (settings : Settings) (hasTabs : Bool) (now : Int) (m : Int)
    (s : Sched) (hm : effectiveMaxTabs settings = JSNum.ofInt m) :
    (processQueue settings hasTabs now s).sched.activeScrapes ≤ max m s.activeScrapes := by
  unfold processQueue
  split
  · exact le_max_right _ _
  · split
    · exact le_max_right _ _
    · split
      · exact le_max_right _ _
      · have hl := dispatchLoop_active_le (effectiveRpm settings) m now s.queue.length s
        rw [hm]
        simp only
        split
        · exact hl
        · rw [nextAllowedTime_snd]
          exact hl

/-- C27: in every state reachable from the initial state by enqueues, pops of
the dispatch loop (alone or inside an activation of processQueue), completions
of in-flight fetches and pause expiry, the in-flight set holds each key once
and activeScrapes equals the number of its keys; hence the completion of any
in-flight fetch lowers activeScrapes by exactly one (the floor at 0 does not
come into play), and an activation with an integer concurrency cap leaves at
most max(cap, keys in flight before) keys in flight. -/
theorem activeScrapes_counts_inflight (s : Sched) (h : Reachable s) :
    s.inflight.Nodup ∧
    s.activeScrapes = (s.inflight.length : Int) ∧
    (∀ handleKey ∈ s.inflight, ∀ (rateLimited : Bool) (settings : Settings) (now : Int),
      (completeSched handleKey rateLimited settings now s).activeScrapes =
        s.activeScrapes - 1) ∧
    (∀ (settings : Settings) (hasTabs : Bool) (now maxTabs : Int),
      effectiveMaxTabs settings = JSNum.ofInt maxTabs →
      ((processQueue settings hasTabs now s).sched.inflight.length : Int) ≤
        max maxTabs (s.inflight.length : Int)) := by
  obtain ⟨hd, hs⟩ := DedupInv_SlotInv_reachable h
  refine ⟨hs.1, hs.2, ?_, ?_⟩
  · intro handleKey hk rateLimited settings now
    exact (SlotInv_completeSched handleKey rateLimited settings now hs hk).2
  · intro settings hasTabs now maxTabs hm
    have h2 := (SlotInv_processQueue settings hasTabs now hd hs).2
    have h3 := processQueue_active_le settings hasTabs now maxTabs s hm
    rw [← h2, ← hs.2]
    exact h3

/-- Witness for C27: after two enqueues, one pop, a repeated enqueue of the
second key and a second pop, two keys are in flight and activeScrapes is 2. -/
theorem activeScrapes_counts_inflight_witness :
    Reachable (popDispatch 4 (enqueue "bob" "Bob" 3 (popDispatch 2 (enqueue "bob" "bob" 1
      (enqueue "alice" "alice" 0 Sched.init))))) ∧
    (popDispatch 4 (enqueue "bob" "Bob" 3 (popDispatch 2 (enqueue "bob" "bob" 1
      (enqueue "alice" "alice" 0 Sched.init))))).inflight = ["alice", "bob"] ∧
    (popDispatch 4 (enqueue "bob" "Bob" 3 (popDispatch 2 (enqueue "bob" "bob" 1
      (enqueue "alice" "alice" 0 Sched.init))))).activeScrapes = 2 ∧
    (popDispatch 4 (enqueue "bob" "Bob" 3 (popDispatch 2 (enqueue "bob" "bob" 1
      (enqueue "alice" "alice" 0 Sched.init))))).activeScrapes =
      ((popDispatch 4 (enqueue "bob" "Bob" 3 (popDispatch 2 (enqueue "bob" "bob" 1
        (enqueue "alice" "alice" 0 Sched.init))))).inflight.length : Int) :=
  ⟨Reachable.dispatch _ (Reachable.enqueue _ _ _ (Reachable.dispatch _
      (Reachable.enqueue _ _ _ (Reachable.enqueue _ _ _ Reachable.init)))),
   by decide, by decide,
   (activeScrapes_counts_inflight _ (Reachable.dispatch _ (Reachable.enqueue _ _ _
      (Reachable.dispatch _ (Reachable.enqueue _ _ _
        (Reachable.enqueue _ _ _ Reachable.init)))))).2.1⟩

/-! ### parseCountText and binary64 -/

theorem countOfToken_suffixed (token suf numPart2 : List Char) (v : ℚ) (w : JSNum)
    (hs : suf = ['k'] ∨ suf = ['m'])
    (hnum :
      (if (splitDots (((token.filter (fun c => !isStrWhiteSpace c)).map
            (fun c => if c = ',' then '.' else c)).filter
              (fun c => isDecDigit c || c = '.'))).length > 2 then
          (splitDots (((token.filter (fun c => !isStrWhiteSpace c)).map
            (fun c => if c = ',' then '.' else c)).filter
              (fun c => isDecDigit c || c = '.'))).dropLast.flatten ++
            '.' :: (splitDots (((token.filter (fun c => !isStrWhiteSpace c)).map
              (fun c => if c = ',' then '.' else c)).filter
                (fun c => isDecDigit c || c = '.'))).getLastD []
        else ((token.filter (fun c => !isStrWhiteSpace c)).map
            (fun c => if c = ',' then '.' else c)).filter
              (fun c => isDecDigit c || c = '.')) = numPart2)
    (hv : JSNum.toBinary64 (stringToNumber (String.mk numPart2)) = JSNum.fin v)
    (hw : JSNum.toBinary64
      (JSNum.fin (v * (if suf = ['k'] then 1000 else 1000000))) = w) :
    countOfToken token suf = JSVal.num (JSNum.round w) := by
  unfold countOfToken
  simp only [hs, if_true, hnum, hv, JSNum.mul, hw]

/-- The text "1024.1235k": Number("1024.1235") is the binary64 value nearest
to 1024.1235, its product with 1000 rounds to the binary64 value just below
1024123.5, and Math.round gives 1024123. -/
theorem parseCountText_decimal_k :
    parseCountText (some "1024.1235k") = JSVal.num (JSNum.fin 1024123) := by
  have hnumber : stringToNumber (String.mk "1024.1235".data) =
      JSNum.fin (10241235 / 10000) := by
    have h1 : trimChars "1024.1235".data = "1024.1235".data := by decide
    have h2 : readDigits 10 "1024.1235".data 0 0 = (1024, 4, ".1235".data) := by decide
    have h3 : readDigits 10 "1235".data 0 0 = (1235, 4, []) := by decide
    have h4 : readUnsignedDecimal "1024.1235".data =
        JSNum.ofLiteral ((((1024 * 10 ^ 4 + 1235 : Nat) : ℚ) / ((10 ^ 4 : Nat) : ℚ)) *
          (10 : ℚ) ^ (0 : Int)) := by
      unfold readUnsignedDecimal
      rw [if_neg (by decide), h2]
      simp only [h3]
      rfl
    have h5 : stringToNumber (String.mk "1024.1235".data) =
        readUnsignedDecimal "1024.1235".data := by
      unfold stringToNumber
      simp only [h1]
      rfl
    rw [h5, h4]
    norm_num [JSNum.ofLiteral]
  have hv : JSNum.toBinary64 (stringToNumber (String.mk "1024.1235".data)) =
      JSNum.fin (4504142786114617 / 4398046511104) := by
    rw [hnumber, JSNum.toBinary64_of_nearest (10241235 / 10000) 10 4504142786114617
      (by norm_num) (by norm_num) (Or.inl (by norm_num)) (by norm_num)
      (by rw [abs_lt]; constructor <;> norm_num)]
    norm_num
  have hw : JSNum.toBinary64 (JSNum.fin ((4504142786114617 / 4398046511104 : ℚ) *
      (if ['k'] = ['k'] then 1000 else 1000000))) =
      JSNum.fin (8797153879130111 / 8589934592) := by
    rw [if_pos rfl, JSNum.toBinary64_of_nearest _ 19 8797153879130111
      (by norm_num) (by norm_num) (Or.inl (by norm_num)) (by norm_num)
      (by rw [abs_lt]; constructor <;> norm_num)]
    norm_num
  rw [parseCountText_of_pick "1024.1235k" "1024.1235k".data
    { token := "1024.1235".data, suf := ['k'], idx := 0, endIdx := 10 } (by decide) (by decide)
    (by decide) (by decide)]
  rw [countOfToken_suffixed "1024.1235".data ['k'] "1024.1235".data _ _ (Or.inl rfl)
    (by decide) hv hw]
  simp only [JSNum.round]
  congr 2
  have hf : ⌊(8797153879130111 / 8589934592 : ℚ) + 1 / 2⌋ = 1024123 := by
    rw [Int.floor_eq_iff]
    constructor <;> norm_num
  rw [hf]
  norm_num


set_option maxRecDepth 20000 in
/-- The text made of the digit 4, 305 zeros and the suffix k: Number(...) is
finite, so the finiteness test passes, and the product with 1000 rounds beyond
the binary64 range; parseCountText returns Infinity. -/
theorem parseCountText_overflow :
    parseCountText (some (String.mk ('4' :: List.replicate 305 '0' ++ ['k']))) =
      JSVal.num JSNum.posInf := by
  have hall : ∀ c ∈ '4' :: List.replicate 305 '0', isDecDigit c = true := by
    intro c hc
    rcases List.mem_cons.1 hc with rfl | hc
    · decide
    · rw [List.eq_of_mem_replicate hc]
      decide
  have hval : (readDigits 10 ('4' :: List.replicate 305 '0') 0 0).1 = 4 * (10 ^ 61) ^ 5 := by
    decide
  have hnumber : stringToNumber (String.mk ('4' :: List.replicate 305 '0')) =
      JSNum.fin ((4 * (10 ^ 61) ^ 5 : ℕ) : ℚ) := by
    rw [stringToNumber_digits_value _ (List.cons_ne_nil _ _) hall, hval]
    unfold JSNum.ofLiteral
    rw [if_neg (by norm_num), if_neg (by norm_num)]
  have hv : JSNum.toBinary64 (stringToNumber (String.mk ('4' :: List.replicate 305 '0'))) =
      JSNum.fin (5130671001622970 * 2 ^ 963) := by
    rw [hnumber, JSNum.toBinary64_of_nearest _ 1015 5130671001622970
      (by norm_num) (by norm_num) (Or.inl (by norm_num)) (by norm_num)
      (by rw [abs_lt]; constructor <;> norm_num)]
    norm_num
  have hw : JSNum.toBinary64 (JSNum.fin ((5130671001622970 * 2 ^ 963 : ℚ) *
      (if ['k'] = ['k'] then 1000 else 1000000))) = JSNum.posInf := by
    rw [if_pos rfl, JSNum.toBinary64_of_nearest _ 1025 5010420900022432
      (by norm_num) (by norm_num) (Or.inl (by norm_num)) (by norm_num)
      (by rw [abs_lt]; constructor <;> norm_num)]
    norm_num
  rw [parseCountText_of_pick _ ('4' :: List.replicate 305 '0' ++ ['k'])
    { token := '4' :: List.replicate 305 '0', suf := ['k'], idx := 0, endIdx := 307 }
    (by decide) (by decide) (by decide) (by decide)]
  rw [countOfToken_suffixed _ ['k'] ('4' :: List.replicate 305 '0') _ _ (Or.inl rfl)
    (by decide) hv hw]
  rfl

end XMeta
